import Mathlib

/-! The two-stage "luck" proof-of-work engine.

A shallow embedding of `consensus/tppow/tppow.go`.

* `*big.Int` values are `Int`; `big.Int.Div` is Euclidean division (`Int.ediv`) and raises a
  run-time fault on a zero divisor, which is modelled by `Option` (`none` is the fault).
* `uint64` values are `Nat` with explicit reduction modulo `2 ^ 64`.
* Hashes, addresses and byte strings are lists of byte values.
-/

namespace Tppow

/-! ## Data model -/

/-- A byte string; each element is a byte value. -/
abbrev Bytes := List Nat

/-- A 32-byte identifier (`common.Hash`). -/
abbrev Hash := Bytes

/-- A 20-byte account identifier (`common.Address`). -/
abbrev Address := Bytes

/-- The conversion `(*big.Int).Uint64()` of a non-negative integer: its low 64 bits. -/
def toUint64 (n : Nat) : Nat := n % 2 ^ 64

/-- Subtraction of two `uint64` values, which wraps around modulo `2 ^ 64`. -/
def subU64 (a b : Nat) : Nat := (a + (2 ^ 64 - b % 2 ^ 64)) % 2 ^ 64

/-- The method `(*big.Int).Div`: Euclidean division, with a run-time fault (`none`) when the
divisor is zero. -/
def bigDiv (x y : Int) : Option Int :=
  if y = 0 then none else some (Int.ediv x y)

/-- Modelled from the spec: the declaration of `types.Header` (package `core/types`) is not
among the sources; the fields are the ones listed in the data model of the specification and
read by the engine. `Number` is the block height, a non-negative big integer which the engine
reads through `Number.Uint64()`; `Time`, `GasLimit`, `GasUsed` and the two nonces are `uint64`;
the five proof-of-work parameters are big integers. -/
structure Header where
  ParentHash : Hash
  UncleHash : Hash
  Coinbase : Address
  Root : Hash
  TxHash : Hash
  ReceiptHash : Hash
  Bloom : Bytes
  Number : Nat
  GasLimit : Nat
  GasUsed : Nat
  Time : Nat
  Extra : Bytes
  FirstNonce : Nat
  SecondNonce : Nat
  Basis : Int
  Lucky : Int
  DifficultyAlpha : Int
  DifficultyBeta : Int
  Difficulty : Int
deriving DecidableEq, Repr

/-- Modelled from the spec: the declaration of `types.Block` is not among the sources; the
engine reads a block's header and its list of uncle headers. -/
structure Block where
  header : Header
  uncles : List Header
deriving DecidableEq, Repr

/-- Modelled from the spec: the chain reader interface consumed by the engine
(`GetHeader(hash, number)`, `GetBlock(hash, number)`, `Config()`); of the chain configuration
only the predicate `IsEIP158` on block numbers is used. -/
structure ChainReader where
  GetHeader : Hash → Nat → Option Header
  GetBlock : Hash → Nat → Option Block
  IsEIP158 : Nat → Bool

/-- Modelled from the spec: the state interface consumed by the engine. The state is the balance
of every account; `IntermediateRoot` is kept abstract and passed where it is needed. -/
structure StateDB where
  balance : Address → Int

/-- The method `AddBalance(addr, amount)` of the state: the balance of `addr` grows by
`amount`, no other balance changes. -/
def StateDB.AddBalance (s : StateDB) (addr : Address) (amount : Int) : StateDB :=
  { balance := fun a => if a = addr then s.balance a + amount else s.balance a }

/-- The error values returned by the engine. -/
inductive Err where
  | UnknownAncestor
  | FutureBlock
  | OlderBlockTime
  | InvalidNumber
  | TooManyUncles
  | DuplicateUncle
  | UncleIsAncestor
  | DanglingUncle
  | Inconsistence
  | ComputeLucky
  | UnknownBlock
  | ExtraTooLong
  | InvalidGasLimit
  | InvalidGasUsed
  | InvalidGasBound
deriving DecidableEq, Repr

/-! ## Constants -/

/-- The base block reward, `big.NewInt(1e+18)`. -/
def blockReward : Int := 10 ^ 18

/-- The bound of the luck value, `big.NewInt(2e+8)`. -/
def maxLuck : Int := 2 * 10 ^ 8

/-- The divisor applied to raw hash integers, `big.NewInt(4e+18)`. -/
def HashScale : Int := 4 * 10 ^ 18

/-- The initial basis, `(1 << 186) - 1`. -/
def initBasis : Int := 2 ^ 186 - 1

/-- The initial first-stage target, `(1 << 190) - 1`. -/
def initDifficultyAlpha : Int := 2 ^ 190 - 1

/-- The largest 256-bit value, `(1 << 256) - 1`. -/
def max256 : Int := 2 ^ 256 - 1

/-- The height from which the advertised difficulty is derived from the basis. -/
def difficultyAjustBlock : Nat := 39200

/-! ## Parameter retarget -/

/-- The function `calcParam`: the pair `(basis, alpha)` of a header at height `number` with
timestamp `time` on top of `parent`. -/
def calcParam (_chain : ChainReader) (number : Nat) (time : Nat) (parent : Header) : Int × Int :=
  if number ≤ 1 then
    (initBasis, initDifficultyAlpha)
  else
    let dAlpha := parent.DifficultyAlpha
    let dBeta := Int.ediv parent.DifficultyBeta 5
    let basis := parent.Basis
    let basis :=
      if dAlpha < dBeta then Int.ediv (basis * 96) 100
      else Int.ediv (basis * 105) 100
    if subU64 time parent.Time > 20 then
      let alpha := Int.ediv (dAlpha * 110) 100
      let basis := Int.ediv (basis * 110) 100
      (basis, alpha)
    else
      let alpha := Int.ediv (dAlpha * 90) 100
      let basis := Int.ediv (basis * 90) 100
      (basis, alpha)

/-- The retarget rule as the specification words it: the regime pre-scale of the basis, then
the scaling of both values by the time difference `Time - parent.Time` taken as an integer,
every division being a floor division. -/
def retargetSpec (time : Nat) (parent : Header) : Int × Int :=
  let dBeta := Int.fdiv parent.DifficultyBeta 5
  let b1 :=
    if parent.DifficultyAlpha < dBeta then Int.fdiv (parent.Basis * 96) 100
    else Int.fdiv (parent.Basis * 105) 100
  if (time : Int) - (parent.Time : Int) > 20 then
    (Int.fdiv (b1 * 110) 100, Int.fdiv (parent.DifficultyAlpha * 110) 100)
  else
    (Int.fdiv (b1 * 90) 100, Int.fdiv (parent.DifficultyAlpha * 90) 100)

/-- The retarget rule of the specification with the time difference reduced modulo `2 ^ 64`,
every division being a floor division. -/
def retargetWrapped (time : Nat) (parent : Header) : Int × Int :=
  let dBeta := Int.fdiv parent.DifficultyBeta 5
  let b1 :=
    if parent.DifficultyAlpha < dBeta then Int.fdiv (parent.Basis * 96) 100
    else Int.fdiv (parent.Basis * 105) 100
  if ((time : Int) - (parent.Time : Int)) % 2 ^ 64 > 20 then
    (Int.fdiv (b1 * 110) 100, Int.fdiv (parent.DifficultyAlpha * 110) 100)
  else
    (Int.fdiv (b1 * 90) 100, Int.fdiv (parent.DifficultyAlpha * 90) 100)

/-- The method `Prepare`: the header after the call, and the error returned (if any). -/
def Prepare (chain : ChainReader) (header : Header) : Header × Option Err :=
  match chain.GetHeader header.ParentHash (subU64 (toUint64 header.Number) 1) with
  | none => (header, some Err.UnknownAncestor)
  | some parent =>
    let r := calcParam chain (toUint64 header.Number) header.Time parent
    ({ header with Basis := r.1, DifficultyAlpha := r.2 }, none)

/-- The basis after the regime pre-scale of `calcParam`: `96/100` of the parent's basis when
the parent's first-stage target is below a fifth of its second-stage target, `105/100`
otherwise. -/
def preScale (parent : Header) : Int :=
  if parent.DifficultyAlpha < Int.ediv parent.DifficultyBeta 5 then
    Int.ediv (parent.Basis * 96) 100
  else Int.ediv (parent.Basis * 105) 100

/-- The pair returned by the slow branch of `calcParam`: both values scaled by `110/100`. -/
def slowRetarget (parent : Header) : Int × Int :=
  (Int.ediv (preScale parent * 110) 100, Int.ediv (parent.DifficultyAlpha * 110) 100)

/-- The pair returned by the fast branch of `calcParam`: both values scaled by `90/100`. -/
def fastRetarget (parent : Header) : Int × Int :=
  (Int.ediv (preScale parent * 90) 100, Int.ediv (parent.DifficultyAlpha * 90) 100)

/-! ## Beta and advertised difficulty -/

/-- The function `calcBeta`: `basis * maxLuck ^ 2 / (maxLuck - luck) ^ 2` with two successive
divisions. -/
def calcBeta (luck : Int) (basis : Int) : Option Int :=
  let ta := maxLuck
  let tb := maxLuck - luck
  let res := basis
  let res := res * ta
  (bigDiv res tb).bind fun res =>
    let res := res * ta
    bigDiv res tb

/-- The function `calcDifficulty`. -/
def calcDifficulty (h : Header) : Option Int :=
  let height := toUint64 h.Number
  if height < difficultyAjustBlock then
    some h.Lucky
  else
    let bmax := Int.ediv max256 HashScale
    let res := bmax * 1000000
    bigDiv res h.Basis

/-! ## Reward applier -/

/-- The number of blocks between two reductions of the reward (`divHeight`). -/
def divHeight : Nat := 3110400

/-- The miner reward of `mineRewards` as a function of `height = header.Number.Uint64()`:
the value of `tmp` after the loop. -/
def minerReward (height : Nat) : Int :=
  let tmp := blockReward
  let num := height / divHeight
  if num > 50 then
    0
  else
    (List.range num).foldl (fun tmp _ => Int.ediv (tmp * 9) 10) tmp

/-- The author reward of `mineRewards`: five hundredths of the miner reward. -/
def authorRewardOf (reward : Int) : Int := Int.ediv (reward * 5) 100

/-- The function `mineRewards`; `authorRewardAddr` stands for the constant
`params.AuthorRewardAddr`, whose declaration is not among the sources. -/
def mineRewards (authorRewardAddr : Address) (state : StateDB) (header : Header)
    (_uncles : List Header) : StateDB :=
  let height := toUint64 header.Number
  let reward := minerReward height
  let authorReward := authorRewardOf reward
  let state := state.AddBalance header.Coinbase reward
  state.AddBalance authorRewardAddr authorReward

/-- The method `Finalize`: the header and the state after the call. `intermediateRoot` stands
for the method `IntermediateRoot` of the state. -/
def Finalize (authorRewardAddr : Address) (intermediateRoot : StateDB → Bool → Hash)
    (chain : ChainReader) (header : Header) (state : StateDB) (uncles : List Header) :
    Header × StateDB :=
  let state := mineRewards authorRewardAddr state header uncles
  ({ header with Root := intermediateRoot state (chain.IsEIP158 header.Number) }, state)

/-! ## Hash oracle -/

/-- A value handed to the encoder `rlp.EncodeToBytes` in a field list: a byte string (hash,
address, bloom, extra data), a `uint64`, or a big integer. -/
inductive RlpItem where
  | bytes (b : Bytes)
  | uint (n : Nat)
  | big (z : Int)
deriving DecidableEq, Repr

/-- Modelled from the spec: the primitives of packages `rlp`, `crypto` and `core/types` that the
engine calls and that are not among the sources: the canonical encoding of a field list
(`rlp.EncodeToBytes`), the memory-hard hash `ArgonHash(message, salt)` (`crypto.Argon2Hash`)
and the identifier of a header (`Header.Hash()`). They are arbitrary functions. -/
structure Oracle where
  rlpEncode : List RlpItem → Bytes
  Argon2Hash : Bytes → Bytes → Bytes
  HeaderHash : Header → Hash

/-- The method `(*big.Int).SetBytes`: the bytes read as a big-endian unsigned integer. -/
def setBytes (bs : Bytes) : Int :=
  ((bs.foldl (fun acc b => acc * 256 + b) 0 : Nat) : Int)

/-- The field list encoded by `SealLuck`. -/
def sealLuckFields (header : Header) (nonce : Nat) : List RlpItem :=
  [RlpItem.bytes header.ParentHash, RlpItem.bytes header.Coinbase, RlpItem.uint header.Time,
   RlpItem.uint nonce]

/-- The field list encoded by `calcLuck`. -/
def calcLuckFields (header : Header) (nonce : Nat) : List RlpItem :=
  [RlpItem.bytes header.ParentHash, RlpItem.bytes header.Coinbase, RlpItem.uint header.Time,
   RlpItem.big header.Number, RlpItem.uint nonce]

/-- The field list encoded by `SealBlock`. -/
def sealBlockFields (header : Header) (nonce : Nat) : List RlpItem :=
  [RlpItem.bytes header.ParentHash, RlpItem.bytes header.UncleHash,
   RlpItem.bytes header.Coinbase, RlpItem.bytes header.Root, RlpItem.bytes header.TxHash,
   RlpItem.bytes header.ReceiptHash, RlpItem.bytes header.Bloom, RlpItem.big header.Number,
   RlpItem.uint header.GasLimit, RlpItem.uint header.GasUsed, RlpItem.uint header.Time,
   RlpItem.bytes header.Extra, RlpItem.big header.Basis, RlpItem.big header.Lucky,
   RlpItem.big header.DifficultyAlpha, RlpItem.big header.DifficultyBeta, RlpItem.uint nonce]

/-- The method `SealLuck`: the hash of the encoded field list, salted with the bytes of the
parent hash from offset 22, read as an integer and divided by `HashScale`. -/
def SealLuck (o : Oracle) (header : Header) (nonce : Nat) : Int :=
  let bs := o.rlpEncode (sealLuckFields header nonce)
  let hash := o.Argon2Hash bs (header.ParentHash.drop 22)
  let res := setBytes hash
  Int.ediv res HashScale

/-- The method `calcLuck`: the hash of the encoded field list, salted with the bytes of the
parent hash from offset 20, read as an integer and reduced modulo `maxLuck`. -/
def calcLuck (o : Oracle) (header : Header) (nonce : Nat) : Int :=
  let bs := o.rlpEncode (calcLuckFields header nonce)
  let hash := o.Argon2Hash bs (header.ParentHash.drop 20)
  let res := setBytes hash
  Int.emod res maxLuck

/-- The method `SealBlock`: the hash of the encoded field list, salted with the bytes of the
parent hash from offset 22, read as an integer and divided by `HashScale`. -/
def SealBlock (o : Oracle) (header : Header) (nonce : Nat) : Int :=
  let bs := o.rlpEncode (sealBlockFields header nonce)
  let hash := o.Argon2Hash bs (header.ParentHash.drop 22)
  let res := setBytes hash
  Int.ediv res HashScale

/-! ## Verifier -/

/-- The result of a validation function: no error (`ok`), an error value (`err`), or a
run-time fault such as a division by zero or an index out of range (`fault`). -/
inductive Outcome where
  | ok
  | err (e : Err)
  | fault
deriving DecidableEq, Repr

/-- The constants of package `params` read by the verifier, whose declarations are not among
the sources; the divisor is a non-zero constant. -/
structure Params where
  MaximumExtraDataSize : Nat
  GasLimitBoundDivisor : Nat
  MinGasLimit : Nat
  divisor_pos : 0 < GasLimitBoundDivisor

/-- The conversion `int64(x)` of a `uint64`: the two's complement reading of its 64 bits. -/
def toInt64 (n : Nat) : Int :=
  if n % 2 ^ 64 < 2 ^ 63 then ((n % 2 ^ 64 : Nat) : Int) else ((n % 2 ^ 64 : Nat) : Int) - 2 ^ 64

/-- The result of an `int64` operation whose exact value is `z`: `z` wrapped into
`[-2 ^ 63, 2 ^ 63)`. -/
def wrapInt64 (z : Int) : Int := (z + 2 ^ 63) % 2 ^ 64 - 2 ^ 63

/-- The conversion `uint64(x)` of an `int64`. -/
def int64ToUint64 (z : Int) : Nat := (z % 2 ^ 64).toNat

/-- The value `uint64(diff)` of `verifyHeader`, where `diff` is the `int64` difference of the
two gas limits, negated when negative. -/
def gasDiff (parentGasLimit headerGasLimit : Nat) : Nat :=
  let diff := wrapInt64 (toInt64 parentGasLimit - toInt64 headerGasLimit)
  let diff := if diff < 0 then wrapInt64 (diff * -1) else diff
  int64ToUint64 diff

/-- The method `VerifySeal`. -/
def VerifySeal (o : Oracle) (_chain : ChainReader) (header : Header) : Outcome :=
  let aHash := SealLuck o header header.FirstNonce
  if aHash ≥ header.DifficultyAlpha then
    Outcome.err Err.UnknownBlock
  else
    match calcBeta header.Lucky header.Basis with
    | none => Outcome.fault
    | some beta =>
      if beta ≠ header.DifficultyBeta then
        Outcome.err Err.Inconsistence
      else
        let sl := calcLuck o header header.FirstNonce
        if sl ≠ header.Lucky then
          Outcome.err Err.ComputeLucky
        else
          let b := SealBlock o header header.SecondNonce
          if b ≥ header.DifficultyBeta then
            Outcome.err Err.UnknownBlock
          else
            match calcDifficulty header with
            | none => Outcome.fault
            | some diff =>
              if diff ≠ header.Difficulty then Outcome.err Err.UnknownBlock else Outcome.ok

/-- The method `verifyHeader`; `now` is the reading of the clock `time.Now().Unix()`, a
non-negative number of seconds, so that the `uint64` deadline of the future-block check is
`now + 15`. -/
def verifyHeader (p : Params) (o : Oracle) (chain : ChainReader) (now : Nat)
    (header parent : Header) (uncle sealCheck : Bool) : Outcome :=
  if header.Extra.length > p.MaximumExtraDataSize then
    Outcome.err Err.ExtraTooLong
  else if uncle = false ∧ header.Time > now + 15 then
    Outcome.err Err.FutureBlock
  else if header.Time ≤ parent.Time then
    Outcome.err Err.OlderBlockTime
  else if header.GasLimit > 2 ^ 63 - 1 then
    Outcome.err Err.InvalidGasLimit
  else if header.GasUsed > header.GasLimit then
    Outcome.err Err.InvalidGasUsed
  else
    let diff := gasDiff parent.GasLimit header.GasLimit
    let limit := parent.GasLimit / p.GasLimitBoundDivisor
    if diff ≥ limit ∨ header.GasLimit < p.MinGasLimit then
      Outcome.err Err.InvalidGasBound
    else if (header.Number : Int) - (parent.Number : Int) ≠ 1 then
      Outcome.err Err.InvalidNumber
    else
      let r := calcParam chain (toUint64 header.Number) header.Time parent
      if r.1 ≠ header.Basis then
        Outcome.err Err.Inconsistence
      else if r.2 ≠ header.DifficultyAlpha then
        Outcome.err Err.Inconsistence
      else if sealCheck then
        VerifySeal o chain header
      else
        Outcome.ok

/-- The method `VerifyHeader`. -/
def VerifyHeader (p : Params) (o : Oracle) (chain : ChainReader) (now : Nat) (header : Header)
    (sealCheck : Bool) : Outcome :=
  let number := toUint64 header.Number
  if (chain.GetHeader (o.HeaderHash header) number).isSome then
    Outcome.ok
  else
    match chain.GetHeader header.ParentHash (subU64 number 1) with
    | none => Outcome.err Err.UnknownAncestor
    | some parent => verifyHeader p o chain now header parent false sealCheck

/-- The parent that `verifyHeaderWorker` resolves for `headers[index]`: the outer `none` is an
index out of range, the inner `none` the nil parent. -/
def workerParent (o : Oracle) (chain : ChainReader) (headers : List Header) (index : Nat) :
    Option (Option Header) :=
  if index = 0 then
    match headers[0]? with
    | none => none
    | some first => some (chain.GetHeader first.ParentHash (subU64 (toUint64 first.Number) 1))
  else
    match headers[index - 1]?, headers[index]? with
    | some before, some current =>
      some (if o.HeaderHash before = current.ParentHash then some before else none)
    | _, _ => none

/-- The method `verifyHeaderWorker`. -/
def verifyHeaderWorker (p : Params) (o : Oracle) (chain : ChainReader) (now : Nat)
    (headers : List Header) (seals : List Bool) (index : Nat) : Outcome :=
  match workerParent o chain headers index with
  | none => Outcome.fault
  | some none => Outcome.err Err.UnknownAncestor
  | some (some parent) =>
    match headers[index]? with
    | none => Outcome.fault
    | some header =>
      if (chain.GetHeader (o.HeaderHash header) (toUint64 header.Number)).isSome then
        Outcome.ok
      else
        match seals[index]? with
        | none => Outcome.fault
        | some sealCheck => verifyHeader p o chain now header parent false sealCheck

/-- The order of checks of the header verifier as the specification words it: the first check
that fails decides the error; the gas bound is stated with the mathematical absolute
difference of the two gas limits. -/
def verifyHeaderSpec (p : Params) (o : Oracle) (chain : ChainReader) (now : Nat)
    (header parent : Header) (uncle sealCheck : Bool) : Outcome :=
  if header.Extra.length > p.MaximumExtraDataSize then
    Outcome.err Err.ExtraTooLong
  else if uncle = false ∧ header.Time > now + 15 then
    Outcome.err Err.FutureBlock
  else if header.Time ≤ parent.Time then
    Outcome.err Err.OlderBlockTime
  else if header.GasLimit > 2 ^ 63 - 1 then
    Outcome.err Err.InvalidGasLimit
  else if header.GasUsed > header.GasLimit then
    Outcome.err Err.InvalidGasUsed
  else if Int.natAbs ((parent.GasLimit : Int) - (header.GasLimit : Int)) ≥
      parent.GasLimit / p.GasLimitBoundDivisor ∨ header.GasLimit < p.MinGasLimit then
    Outcome.err Err.InvalidGasBound
  else if header.Number ≠ parent.Number + 1 then
    Outcome.err Err.InvalidNumber
  else if calcParam chain (toUint64 header.Number) header.Time parent ≠
      (header.Basis, header.DifficultyAlpha) then
    Outcome.err Err.Inconsistence
  else if sealCheck then
    VerifySeal o chain header
  else
    Outcome.ok

/-! ## Batch coordinator -/

/-- The variables of the coordinator goroutine of `VerifyHeaders`: the slice `errors` written
by the workers, the slice `checked`, the counter `out`, the values sent so far on the result
channel `errorsOut` (oldest first) and whether the goroutine has returned. -/
structure Coordinator where
  errors : List Outcome
  checked : List Bool
  out : Nat
  emitted : List Outcome
  returned : Bool

/-- The loop `for ...; checked[out]; out++` of the coordinator, entered after `checked[index]`
is set: while the entry at `out` is checked, `errors[out]` is sent on the result channel, and
the goroutine returns after the entry `len(headers) - 1`. The result is the new value of `out`,
the values sent, and whether the goroutine returned; `none` is an index out of range. `fuel`
bounds the number of iterations: `len(headers) + 1` is never used up, since the entry at
`len(headers)` is out of range. The loop is reached for a non-empty slice only, so that
`len(headers) - 1` is not negative. -/
def drain (len : Nat) (errors : List Outcome) (checked : List Bool) :
    Nat → Nat → List Outcome → Option (Nat × List Outcome × Bool)
  | 0, _, _ => none
  | fuel + 1, out, emitted =>
    match checked[out]? with
    | none => none
    | some false => some (out, emitted, false)
    | some true =>
      match errors[out]? with
      | none => none
      | some e =>
        let emitted := emitted ++ [e]
        if out = len - 1 then some (out, emitted, true)
        else drain len errors checked fuel (out + 1) emitted

/-- The case `index := <-done` of the coordinator: `checked[index]` is set and the loop sends
every result that is now in order. -/
def onDone (len : Nat) (st : Coordinator) (index : Nat) : Option Coordinator :=
  if index < st.checked.length then
    let checked := st.checked.set index true
    match drain len st.errors checked (len + 1) st.out st.emitted with
    | none => none
    | some (out, emitted, returned) =>
      some { st with checked := checked, out := out, emitted := emitted, returned := returned }
  else
    none

/-- The run of the workers and of the coordinator for the indices in the order in which they
are received on the channel `done`: for each index the worker has stored
`verifyHeaderWorker(chain, headers, seals, index)` in `errors[index]` before it reports, and
the coordinator then handles the report; a report that arrives after the coordinator returned
stays in the buffered channel. The outcome of a worker, whatever it is, is the value stored. -/
def runReports (p : Params) (o : Oracle) (chain : ChainReader) (now : Nat)
    (headers : List Header) (seals : List Bool) : Coordinator → List Nat → Option Coordinator
  | st, [] => some st
  | st, index :: rest =>
    if index < st.errors.length then
      let errors := st.errors.set index (verifyHeaderWorker p o chain now headers seals index)
      let st := { st with errors := errors }
      if st.returned then
        runReports p o chain now headers seals st rest
      else
        match onDone headers.length st index with
        | none => none
        | some st => runReports p o chain now headers seals st rest
    else
      none

/-- The method `VerifyHeaders` without abort: the list of the values sent on the result
channel, oldest first, when the workers report their indices on `done` in the order `order`.
The sends on `inputs` hand out each index once and only advance the counter `in`; they are
left out. `none` is a run-time fault of the coordinator. -/
def VerifyHeaders (p : Params) (o : Oracle) (chain : ChainReader) (now : Nat)
    (headers : List Header) (seals : List Bool) (order : List Nat) : Option (List Outcome) :=
  if headers.length = 0 then
    some []
  else
    let st : Coordinator :=
      { errors := List.replicate headers.length Outcome.ok,
        checked := List.replicate headers.length false,
        out := 0, emitted := [], returned := false }
    (runReports p o chain now headers seals st order).map fun st => st.emitted

/-! ## Miner -/

/-- What a run of `mine` ends with: a block offered on the `found` channel, an abort, or a
run-time fault. -/
inductive MineOutcome where
  | delivered (b : Block)
  | aborted
  | fault
deriving DecidableEq, Repr

/-- The first search loop of `mine`: `fuel` is the number of attempts made before the abort
signal is seen; each attempt increments the nonce (modulo `2 ^ 64`) and tests `SealLuck`. -/
def searchLuck (o : Oracle) (header : Header) : Nat → Nat → Option Nat
  | 0, _ => none
  | fuel + 1, currFirstNonce =>
    let currFirstNonce := (currFirstNonce + 1) % 2 ^ 64
    if SealLuck o header currFirstNonce < header.DifficultyAlpha then some currFirstNonce
    else searchLuck o header fuel currFirstNonce

/-- The second search loop of `mine`: `fuel` is the number of attempts made before the abort
signal is seen; each attempt increments the nonce (modulo `2 ^ 64`) and tests `SealBlock`. -/
def searchBlock (o : Oracle) (header : Header) : Nat → Nat → Option Nat
  | 0, _ => none
  | fuel + 1, secondNonce =>
    let secondNonce := (secondNonce + 1) % 2 ^ 64
    if SealBlock o header secondNonce < header.DifficultyBeta then some secondNonce
    else searchBlock o header fuel secondNonce

/-- The method `mine` started from the seeds `fn` and `sn`; `fuel1` and `fuel2` bound the
attempts of the two loops before the abort signal is seen. -/
def mine (o : Oracle) (block : Block) (fn sn : Nat) (fuel1 fuel2 : Nat) : MineOutcome :=
  let header := block.header
  match searchLuck o header fuel1 fn with
  | none => MineOutcome.aborted
  | some firstNonce =>
    let lucky := calcLuck o header firstNonce
    let header := { header with Lucky := lucky }
    let header := { header with FirstNonce := firstNonce }
    match calcBeta lucky header.Basis with
    | none => MineOutcome.fault
    | some beta =>
      let header := { header with DifficultyBeta := beta }
      match calcDifficulty header with
      | none => MineOutcome.fault
      | some difficulty =>
        let header := { header with Difficulty := difficulty }
        match searchBlock o header fuel2 sn with
        | none => MineOutcome.aborted
        | some secondNonce =>
          let header := { header with SecondNonce := secondNonce }
          MineOutcome.delivered { block with header := header }

/-! ## Uncle validator -/

/-- The largest number of uncles of a block. -/
def maxUncles : Nat := 2

/-- The assignment `m[k] = v` on a map from hashes to headers. -/
def mapSet (m : Hash → Option Header) (k : Hash) (v : Header) : Hash → Option Header :=
  fun h => if h = k then some v else m h

/-- The ancestor loop of `VerifyUncles`: at most `i` further blocks are fetched from the chain,
starting at `(parent, number)`; the hashes of their uncles are added to the set `uncles` and
their headers are recorded in the map `ancestors` under their own hash. -/
def gatherAncestors (o : Oracle) (chain : ChainReader) :
    Nat → Hash → Nat → List Hash → (Hash → Option Header) →
      List Hash × (Hash → Option Header)
  | 0, _, _, uncles, ancestors => (uncles, ancestors)
  | i + 1, parent, number, uncles, ancestors =>
    match chain.GetBlock parent number with
    | none => (uncles, ancestors)
    | some ancestor =>
      let ancestors := mapSet ancestors (o.HeaderHash ancestor.header) ancestor.header
      let uncles := uncles ++ ancestor.uncles.map o.HeaderHash
      gatherAncestors o chain i ancestor.header.ParentHash (subU64 number 1) uncles ancestors

/-- The map `ancestors` of `VerifyUncles` when the uncle loop starts: the headers of the walked
ancestors and of the block itself, under their hashes. -/
def ancestorMap (o : Oracle) (chain : ChainReader) (block : Block) : Hash → Option Header :=
  let number := subU64 (toUint64 block.header.Number) 1
  let parent := block.header.ParentHash
  let g := gatherAncestors o chain 7 parent number [] (fun _ => none)
  mapSet g.2 (o.HeaderHash block.header) block.header

/-- The set `uncles` of `VerifyUncles` when the uncle loop starts: the hashes of the uncles of
the walked ancestors and the hash of the block itself. -/
def seenUncles (o : Oracle) (chain : ChainReader) (block : Block) : List Hash :=
  let number := subU64 (toUint64 block.header.Number) 1
  let parent := block.header.ParentHash
  let g := gatherAncestors o chain 7 parent number [] (fun _ => none)
  g.1 ++ [o.HeaderHash block.header]

/-- The uncle loop of `VerifyUncles` over the remaining uncles, with the current set `uncles` of
hashes already seen. -/
def verifyUncleLoop (p : Params) (o : Oracle) (chain : ChainReader) (now : Nat) (block : Block)
    (ancestors : Hash → Option Header) : List Hash → List Header → Outcome
  | _, [] => Outcome.ok
  | uncles, uncle :: rest =>
    let hash := o.HeaderHash uncle
    if hash ∈ uncles then
      Outcome.err Err.DuplicateUncle
    else
      let uncles := uncles ++ [hash]
      if (ancestors hash).isSome then
        Outcome.err Err.UncleIsAncestor
      else
        match ancestors uncle.ParentHash with
        | none => Outcome.err Err.DanglingUncle
        | some parent =>
          if uncle.ParentHash = block.header.ParentHash then
            Outcome.err Err.DanglingUncle
          else
            match verifyHeader p o chain now uncle parent true true with
            | Outcome.ok => verifyUncleLoop p o chain now block ancestors uncles rest
            | failure => failure

/-- The method `VerifyUncles`. -/
def VerifyUncles (p : Params) (o : Oracle) (chain : ChainReader) (now : Nat) (block : Block) :
    Outcome :=
  if block.uncles.length > maxUncles then
    Outcome.err Err.TooManyUncles
  else
    verifyUncleLoop p o chain now block (ancestorMap o chain block) (seenUncles o chain block)
      block.uncles

/-- The blocks that the ancestor loop of `VerifyUncles` fetches: at most `i` blocks, starting
at `(parent, number)` and following the parent hashes. -/
def walkedAncestors (chain : ChainReader) : Nat → Hash → Nat → List Block
  | 0, _, _ => []
  | i + 1, parent, number =>
    match chain.GetBlock parent number with
    | none => []
    | some ancestor =>
      ancestor :: walkedAncestors chain i ancestor.header.ParentHash (subU64 number 1)

/-- The (up to seven) ancestors of a block that `VerifyUncles` walks. -/
def sevenAncestors (chain : ChainReader) (block : Block) : List Block :=
  walkedAncestors chain 7 block.header.ParentHash (subU64 (toUint64 block.header.Number) 1)

/-- The hashes of the uncles included by the blocks of a list. -/
def uncleHashesOf (o : Oracle) : List Block → List Hash
  | [] => []
  | b :: bs => b.uncles.map o.HeaderHash ++ uncleHashesOf o bs

/-! ## Seal hash and block assembly -/

/-- The field list encoded by `SealHash`. -/
def sealHashFields (header : Header) : List RlpItem :=
  [RlpItem.bytes header.ParentHash, RlpItem.bytes header.UncleHash,
   RlpItem.bytes header.Coinbase, RlpItem.bytes header.Root, RlpItem.bytes header.TxHash,
   RlpItem.bytes header.ReceiptHash, RlpItem.bytes header.Bloom, RlpItem.big header.Number,
   RlpItem.uint header.GasLimit, RlpItem.uint header.GasUsed, RlpItem.uint header.Time,
   RlpItem.bytes header.Extra]

/-- The method `SealHash`: the Keccak-256 digest of the encoded field list; `keccak256` stands
for the hasher `sha3.NewLegacyKeccak256`, which is outside the repository. -/
def SealHash (keccak256 : Bytes → Hash) (o : Oracle) (header : Header) : Hash :=
  keccak256 (o.rlpEncode (sealHashFields header))

/-- Modelled from the spec: `types.NewBlock` is not among the sources; it builds the final block
from a copy of the header, in which the digests of the body are filled in (`fill`), and from
the given uncles. -/
def NewBlock (fill : Header → Header) (header : Header) (uncles : List Header) : Block :=
  { header := fill header, uncles := uncles }

/-- The method `FinalizeAndAssemble`: the header and the state after the call, and the block
returned. `calcUncleHash` stands for `types.CalcUncleHash`, `intermediateRoot` for the method
`IntermediateRoot` of the state. -/
def FinalizeAndAssemble (authorRewardAddr : Address) (intermediateRoot : StateDB → Bool → Hash)
    (calcUncleHash : List Header → Hash) (fill : Header → Header) (chain : ChainReader)
    (header : Header) (state : StateDB) (uncles : List Header) : Header × StateDB × Block :=
  let state := mineRewards authorRewardAddr state header uncles
  let header := { header with Root := intermediateRoot state (chain.IsEIP158 header.Number) }
  let header := { header with UncleHash := calcUncleHash [] }
  (header, state, NewBlock fill header [])

/-! ## Concrete headers used in the scenarios -/

/-- A header whose fields are all zero or empty. -/
def zeroHeader : Header :=
  { ParentHash := [], UncleHash := [], Coinbase := [], Root := [], TxHash := [],
    ReceiptHash := [], Bloom := [], Number := 0, GasLimit := 0, GasUsed := 0, Time := 0,
    Extra := [], FirstNonce := 0, SecondNonce := 0, Basis := 0, Lucky := 0,
    DifficultyAlpha := 0, DifficultyBeta := 0, Difficulty := 0 }

/-- The parent of the retarget scenarios: `Basis = 100000`, `DifficultyAlpha = 200000`,
`DifficultyBeta = 50000`, `Time = 100`. -/
def scenarioParent : Header :=
  { zeroHeader with Number := 7, Time := 100, Basis := 100000, DifficultyAlpha := 200000,
                    DifficultyBeta := 50000 }

/-- A chain that knows no header and no block. -/
def emptyChain : ChainReader :=
  { GetHeader := fun _ _ => none, GetBlock := fun _ _ => none, IsEIP158 := fun _ => false }

/-- The parent of the genesis-child scenario: height 0, every proof-of-work field zero. -/
def genesisParent : Header :=
  { zeroHeader with Number := 0, Time := 1000 }

/-- The child of the genesis-child scenario: height 1, `Time = parent.Time + 20`. -/
def genesisChild : Header :=
  { zeroHeader with ParentHash := [1], Number := 1, Time := 1020 }

/-- A chain that knows exactly one header, `genesisParent`, under the hash `[1]` at height 0. -/
def genesisChain : ChainReader :=
  { GetHeader := fun hash number => if hash = [1] ∧ number = 0 then some genesisParent else none,
    GetBlock := fun _ _ => none, IsEIP158 := fun _ => false }

/-- Sample values of the constants of package `params`: extra data of at most 32 bytes, bound
divisor 1024, minimum gas limit 5000. -/
def sampleParams : Params :=
  { MaximumExtraDataSize := 32, GasLimitBoundDivisor := 1024, MinGasLimit := 5000,
    divisor_pos := by decide }

/-- An oracle whose encoder and hash return the empty byte string, so that every hash integer
is zero; the identifier of a header is made of its height and its timestamp. -/
def zeroOracle : Oracle :=
  { rlpEncode := fun _ => [], Argon2Hash := fun _ _ => [],
    HeaderHash := fun h => [h.Number, h.Time] }

/-- A parent header at height 0 with `Time = 1000` and a gas limit of 8000000. -/
def validParent : Header :=
  { zeroHeader with Number := 0, Time := 1000, GasLimit := 8000000 }

/-- A child of `validParent` that satisfies every rule checked before the seal: height 1,
`Time = 1020`, the same gas limit, and the initial basis and first-stage target. -/
def validChild : Header :=
  { zeroHeader with ParentHash := [1], Number := 1, Time := 1020, GasLimit := 8000000,
                    Basis := initBasis, DifficultyAlpha := initDifficultyAlpha }

/-- A chain that knows exactly one header, `validParent`, under the hash `[1]` at height 0. -/
def sampleChain : ChainReader :=
  { GetHeader := fun hash number => if hash = [1] ∧ number = 0 then some validParent else none,
    GetBlock := fun _ _ => none, IsEIP158 := fun _ => false }

/-- The header that `mine` delivers for `validChild` under `zeroOracle` from the seeds 0, 0. -/
def sealedChild : Header :=
  { validChild with Lucky := 0, FirstNonce := 1, DifficultyBeta := initBasis, Difficulty := 0,
                    SecondNonce := 1 }

/-- A parent header whose gas limit is the largest `uint64`. -/
def hugeGasParent : Header :=
  { validParent with GasLimit := 2 ^ 64 - 1 }

/-- A child of `hugeGasParent` with a gas limit of 5000, otherwise as `validChild`. -/
def lowGasChild : Header :=
  { validChild with GasLimit := 5000 }

/-- A header at height 1 whose timestamp 0 is not after that of `validParent`. -/
def staleChild : Header :=
  { validChild with Time := 0 }

/-- A chain that knows `validParent` under the hash `[1]` at height 0, and `staleChild` under
its own identifier at height 1. -/
def knowingChain : ChainReader :=
  { GetHeader := fun hash number =>
      if hash = [1, 0] ∧ number = 1 then some staleChild
      else if hash = [1] ∧ number = 0 then some validParent
      else none,
    GetBlock := fun _ _ => none, IsEIP158 := fun _ => false }

/-- A child of `validParent` whose basis and first-stage target were not set by `Prepare`. -/
def unpreparedChild : Header :=
  { validChild with Basis := 7, DifficultyAlpha := 5 }

/-- The grandparent of the uncle scenario: `validParent`, whose identifier under `zeroOracle`
is `[0, 1000]`. -/
def uncleGrandparent : Header := validParent

/-- The parent of the uncle scenario: a sealed child of `uncleGrandparent` at height 1 with
`Time = 1020`; its identifier under `zeroOracle` is `[1, 1020]`. -/
def uncleParent : Header :=
  { sealedChild with ParentHash := [0, 1000] }

/-- An uncle: another sealed child of `uncleGrandparent` at height 1, whose timestamp 5000 is
far ahead of the clock reading 2000 used in the scenarios; its identifier is `[1, 5000]`. -/
def futureUncle : Header :=
  { sealedChild with ParentHash := [0, 1000], Time := 5000 }

/-- The header of the nephew block: height 2 on top of `uncleParent`. -/
def nephewHeader : Header :=
  { zeroHeader with ParentHash := [1, 1020], Number := 2, Time := 1040 }

/-- A chain that holds the block of `uncleParent` at height 1 and the block of
`uncleGrandparent` at height 0, both without uncles. -/
def uncleChain : ChainReader :=
  { GetHeader := fun _ _ => none,
    GetBlock := fun hash number =>
      if hash = [1, 1020] ∧ number = 1 then some ⟨uncleParent, []⟩
      else if hash = [0, 1000] ∧ number = 0 then some ⟨uncleGrandparent, []⟩
      else none,
    IsEIP158 := fun _ => false }

/-- A header at height 1 whose two targets are zero, otherwise as `validParent`. -/
def zeroAlphaParent : Header :=
  { validParent with Number := 1 }

/-- A child of `zeroAlphaParent` at height 2 that satisfies every rule checked before the seal:
its targets are the retargeted zeros. -/
def zeroAlphaChild : Header :=
  { zeroHeader with ParentHash := [1], Number := 2, Time := 1020, GasLimit := 8000000 }

/-- An oracle that tells the hash roles and the nonces apart. The encoding of a field list is
its length followed by its last field when that is a `uint64`. The hash is the empty string
(integer zero) for the first-stage input at nonce 3, for the second-stage input at nonce 2 and
for every luck input, and 32 bytes of value 255 otherwise. -/
def nonceOracle : Oracle :=
  { rlpEncode := fun items =>
      match items.getLast? with
      | some (RlpItem.uint n) => [items.length, n]
      | _ => [items.length],
    Argon2Hash := fun bs _ =>
      if bs = [4, 3] ∨ bs = [17, 2] ∨ bs.head? = some 5 then [] else List.replicate 32 255,
    HeaderHash := fun h => [h.Number, h.Time] }

/-! ## Auxiliary lemmas -/

/-- Floor division and Euclidean division agree for a non-negative divisor. -/
theorem fdiv_eq_ediv_of_nonneg (a : Int) {b : Int} (hb : 0 ≤ b) : Int.fdiv a b = Int.ediv a b :=
  Int.fdiv_eq_ediv a hb

/-- The wrapping `uint64` subtraction is the integer difference reduced modulo `2 ^ 64`. -/
theorem subU64_eq_emod (a b : Nat) : ((subU64 a b : Nat) : Int) = ((a : Int) - (b : Int)) % 2 ^ 64 := by
  unfold subU64
  norm_num
  omega

/-- On `uint64` operands with `b ≤ a` the wrapping subtraction is the true difference. -/
theorem subU64_of_le {a b : Nat} (hab : b ≤ a) (ha : a < 2 ^ 64) : subU64 a b = a - b := by
  unfold subU64
  norm_num at ha ⊢
  omega

/-- An out-of-range check: on `uint64` operands with `a < b` the wrapping subtraction is
`a + 2 ^ 64 - b`. -/
theorem subU64_of_lt {a b : Nat} (hab : a < b) (hb : b < 2 ^ 64) :
    subU64 a b = a + 2 ^ 64 - b := by
  unfold subU64
  norm_num at hb ⊢
  omega

/-! ## Retarget: claims C1 to C4 -/

/-- C1 (as stated, refuted): with the time difference read as an integer difference, the
retarget of the specification and `calcParam` disagree when the new timestamp is below the
parent's: for the scenario parent (`Time = 100`) and a child at height 2 with `Time = 50` the
code takes the slow branch and returns `(115500, 220000)`, the rule as worded takes the fast
branch and gives `(94500, 180000)`. -/
theorem calcParam_ne_retargetSpec_of_earlier_time :
    (1 < 2 ∧ 0 ≤ scenarioParent.Basis ∧ 0 ≤ scenarioParent.DifficultyAlpha ∧
      0 ≤ scenarioParent.DifficultyBeta ∧ 50 < 2 ^ 64 ∧ scenarioParent.Time < 2 ^ 64) ∧
    calcParam emptyChain 2 50 scenarioParent = (115500, 220000) ∧
    retargetSpec 50 scenarioParent = (94500, 180000) ∧
    calcParam emptyChain 2 50 scenarioParent ≠ retargetSpec 50 scenarioParent := by
  decide

/-- C1 (amended): for every block number above 1, every parent and every new timestamp,
`calcParam` returns the pair of the reference retarget whose time difference is taken modulo
`2 ^ 64` (the `uint64` subtraction of the code): `dBeta = parent.DifficultyBeta / 5`, the basis
is first scaled by `96/100` when `parent.DifficultyAlpha < dBeta` and by `105/100` otherwise,
then basis and alpha are both scaled by `110/100` when the difference exceeds 20 and by
`90/100` otherwise, each division being a floor division applied right after its
multiplication. -/
theorem calcParam_eq_retargetWrapped (chain : ChainReader) (number time : Nat) (parent : Header)
    (hn : 1 < number) :
    calcParam chain number time parent = retargetWrapped time parent := by
  have h5 : (0 : Int) ≤ 5 := by decide
  have h100 : (0 : Int) ≤ 100 := by decide
  have hcond : subU64 time parent.Time > 20 ↔
      ((time : Int) - (parent.Time : Int)) % 2 ^ 64 > 20 := by
    rw [← subU64_eq_emod]
    exact_mod_cast Iff.rfl
  unfold calcParam retargetWrapped
  rw [if_neg (by omega)]
  simp only [fdiv_eq_ediv_of_nonneg _ h5, fdiv_eq_ediv_of_nonneg _ h100]
  by_cases ht : subU64 time parent.Time > 20
  · rw [if_pos ht, if_pos (hcond.mp ht)]
  · rw [if_neg ht, if_neg (fun h => ht (hcond.mpr h))]

/-- Witness of C1 (amended): the scenario parent and a child at height 2 with `Time = 125`. -/
theorem calcParam_eq_retargetWrapped_witness :
    1 < 2 ∧ calcParam emptyChain 2 125 scenarioParent = retargetWrapped 125 scenarioParent :=
  ⟨by decide, calcParam_eq_retargetWrapped emptyChain 2 125 scenarioParent (by decide)⟩

/-- C2: for every header with `Number ≤ 1` whose parent is in the chain, whatever the parent's
fields and the new timestamp, `calcParam` returns `(initBasis, initAlpha)` and `Prepare` returns
no error and sets `Basis = 2 ^ 186 - 1` and `DifficultyAlpha = 2 ^ 190 - 1`, leaving the rest of
the header as it was. -/
theorem Prepare_of_number_le_one (chain : ChainReader) (header parent : Header)
    (hn : header.Number ≤ 1)
    (hp : chain.GetHeader header.ParentHash (subU64 (toUint64 header.Number) 1) = some parent) :
    calcParam chain (toUint64 header.Number) header.Time parent = (2 ^ 186 - 1, 2 ^ 190 - 1) ∧
    Prepare chain header =
      ({ header with Basis := 2 ^ 186 - 1, DifficultyAlpha := 2 ^ 190 - 1 }, none) := by
  have hu : toUint64 header.Number ≤ 1 := by
    unfold toUint64
    exact le_trans (Nat.mod_le _ _) hn
  have hc : calcParam chain (toUint64 header.Number) header.Time parent =
      (2 ^ 186 - 1, 2 ^ 190 - 1) := by
    unfold calcParam
    rw [if_pos hu]
    rfl
  refine ⟨hc, ?_⟩
  unfold Prepare
  rw [hp]
  simp only [hc]

/-- Witness of C2 (scenario S1): parent at height 0 with zero proof-of-work fields, child at
height 1 with `Time = parent.Time + 20`. -/
theorem Prepare_of_number_le_one_witness :
    (genesisParent.Number = 0 ∧ genesisParent.Basis = 0 ∧ genesisParent.DifficultyAlpha = 0 ∧
      genesisParent.DifficultyBeta = 0 ∧ genesisChild.Number = 1 ∧
      genesisChild.Time = genesisParent.Time + 20) ∧
    (Prepare genesisChain genesisChild).2 = none ∧
    (Prepare genesisChain genesisChild).1.Basis = 2 ^ 186 - 1 ∧
    (Prepare genesisChain genesisChild).1.DifficultyAlpha = 2 ^ 190 - 1 := by
  have h := (Prepare_of_number_le_one genesisChain genesisChild genesisParent
    (by decide) (by decide)).2
  rw [h]
  exact ⟨by decide, rfl, rfl, rfl⟩

/-- C3 (as stated, refuted): in scenario S2 (parent `Basis = 100000`, `DifficultyAlpha = 200000`,
`DifficultyBeta = 50000`, `Time = 100`; child `Time = 125`) the basis returned by `calcParam`
is `115500`, not `105600`: `200000 < 50000 / 5` is false, so the pre-scale is `105/100`. -/
theorem calcParam_slow_scenario_ne :
    calcParam emptyChain 2 125 scenarioParent = (115500, 220000) ∧
    calcParam emptyChain 2 125 scenarioParent ≠ (105600, 220000) := by
  decide

/-- C3 (amended): for a parent with `Basis = 100000`, `DifficultyAlpha = 200000`,
`DifficultyBeta = 50000`, `Time = 100` and a child with `Number > 1` and `Time = 125`,
`calcParam` returns `basis = 100000 * 105 / 100 * 110 / 100 = 115500` and `alpha = 220000`. -/
theorem calcParam_slow_scenario (chain : ChainReader) (number : Nat) (parent : Header)
    (hn : 1 < number) (hB : parent.Basis = 100000) (hA : parent.DifficultyAlpha = 200000)
    (hD : parent.DifficultyBeta = 50000) (hT : parent.Time = 100) :
    calcParam chain number 125 parent = (115500, 220000) := by
  unfold calcParam
  rw [if_neg (by omega), hB, hA, hD, hT]
  decide

/-- Witness of C3 (amended): the scenario parent and a child at height 2. -/
theorem calcParam_slow_scenario_witness :
    1 < 2 ∧ calcParam emptyChain 2 125 scenarioParent = (115500, 220000) :=
  ⟨by decide, calcParam_slow_scenario emptyChain 2 scenarioParent (by decide) rfl rfl rfl rfl⟩

/-- C4 (as stated, refuted): in scenario S3 (same parent, child `Time = 115`) the basis
returned by `calcParam` is `94500`, not `86400`: the pre-scale is `105/100`, not `96/100`. -/
theorem calcParam_fast_scenario_ne :
    calcParam emptyChain 2 115 scenarioParent = (94500, 180000) ∧
    calcParam emptyChain 2 115 scenarioParent ≠ (86400, 180000) := by
  decide

/-- C4 (amended): for a parent with `Basis = 100000`, `DifficultyAlpha = 200000`,
`DifficultyBeta = 50000`, `Time = 100` and a child with `Number > 1` and `Time = 115`,
`calcParam` returns `basis = 100000 * 105 / 100 * 90 / 100 = 94500` and `alpha = 180000`. -/
theorem calcParam_fast_scenario (chain : ChainReader) (number : Nat) (parent : Header)
    (hn : 1 < number) (hB : parent.Basis = 100000) (hA : parent.DifficultyAlpha = 200000)
    (hD : parent.DifficultyBeta = 50000) (hT : parent.Time = 100) :
    calcParam chain number 115 parent = (94500, 180000) := by
  unfold calcParam
  rw [if_neg (by omega), hB, hA, hD, hT]
  decide

/-- Witness of C4 (amended): the scenario parent and a child at height 2. -/
theorem calcParam_fast_scenario_witness :
    1 < 2 ∧ calcParam emptyChain 2 115 scenarioParent = (94500, 180000) :=
  ⟨by decide, calcParam_fast_scenario emptyChain 2 scenarioParent (by decide) rfl rfl rfl rfl⟩

/-! ## Beta: claims C5 and C6 -/

/-- The bound `maxLuck` is positive. -/
theorem maxLuck_pos : 0 < maxLuck := by decide

/-- With a non-zero divisor `calcBeta` performs its two Euclidean divisions in order. -/
theorem calcBeta_of_ne {luck : Int} (basis : Int) (h : maxLuck - luck ≠ 0) :
    calcBeta luck basis =
      some (Int.ediv (Int.ediv (basis * maxLuck) (maxLuck - luck) * maxLuck) (maxLuck - luck)) := by
  simp [calcBeta, bigDiv, h]

/-- A non-negative dividend gives a quotient that does not shrink when the positive divisor
shrinks. -/
theorem ediv_le_ediv_of_divisor_le {a d1 d2 : Int} (ha : 0 ≤ a) (hd2 : 0 < d2) (hd : d2 ≤ d1) :
    a / d1 ≤ a / d2 := by
  have hd1 : 0 < d1 := lt_of_lt_of_le hd2 hd
  have hq : 0 ≤ a / d1 := Int.ediv_nonneg ha (le_of_lt hd1)
  have h1 : a / d1 * d1 ≤ a := Int.ediv_mul_le a (ne_of_gt hd1)
  have h2 : a / d1 * d2 ≤ a / d1 * d1 := mul_le_mul_of_nonneg_left hd hq
  exact Int.le_ediv_of_mul_le hd2 (le_trans h2 h1)

/-- A quotient grows strictly when the positive divisor shrinks, provided the quotient is at
least the smaller divisor. -/
theorem ediv_lt_ediv_of_divisor_lt {a d1 d2 : Int} (hd2 : 0 < d2) (hd : d2 < d1)
    (hq : d2 ≤ a / d1) : a / d1 < a / d2 := by
  have hd1 : 0 < d1 := lt_trans hd2 hd
  have h1 : a / d1 * d1 ≤ a := Int.ediv_mul_le a (ne_of_gt hd1)
  have hq0 : 0 ≤ a / d1 := le_trans (le_of_lt hd2) hq
  have h2 : a / d1 * (d2 + 1) ≤ a / d1 * d1 := mul_le_mul_of_nonneg_left (by omega) hq0
  have h3 : (a / d1 + 1) * d2 ≤ a := by
    have : (a / d1 + 1) * d2 = a / d1 * (d2 + 1) - a / d1 + d2 := by ring
    rw [this]
    omega
  have h4 : a / d1 + 1 ≤ a / d2 := Int.le_ediv_of_mul_le hd2 h3
  omega

/-- A quotient grows strictly when the dividend grows by at least `m` and the positive divisor,
itself at most `m`, does not grow. -/
theorem ediv_lt_ediv_of_add_le {x y d1 d2 m : Int} (hx : 0 ≤ x) (hd2 : 0 < d2) (hd : d2 ≤ d1)
    (hm : d2 ≤ m) (hxy : x + m ≤ y) : x / d1 < y / d2 := by
  have hd1 : 0 < d1 := lt_of_lt_of_le hd2 hd
  have hq0 : 0 ≤ x / d1 := Int.ediv_nonneg hx (le_of_lt hd1)
  have h1 : x / d1 * d1 ≤ x := Int.ediv_mul_le x (ne_of_gt hd1)
  have h2 : x / d1 * d2 ≤ x / d1 * d1 := mul_le_mul_of_nonneg_left hd hq0
  have h3 : (x / d1 + 1) * d2 ≤ y := by
    have : (x / d1 + 1) * d2 = x / d1 * d2 + d2 := by ring
    rw [this]
    omega
  have h4 : x / d1 + 1 ≤ y / d2 := Int.le_ediv_of_mul_le hd2 h3
  omega

/-- C5: for every `basis ≥ 0` and every `lucky` with `0 ≤ lucky < maxLuck`, where
`maxLuck = 2 * 10 ^ 8`, `calcBeta(lucky, basis)` returns
`((basis * maxLuck) / (maxLuck - lucky)) * maxLuck / (maxLuck - lucky)`, two separate floor
divisions performed from left to right. -/
theorem calcBeta_eq_two_floor_divisions (lucky basis : Int) (_hb : 0 ≤ basis) (_h0 : 0 ≤ lucky)
    (hl : lucky < maxLuck) :
    maxLuck = 2 * 10 ^ 8 ∧
    calcBeta lucky basis =
      some (Int.fdiv (Int.fdiv (basis * maxLuck) (maxLuck - lucky) * maxLuck)
        (maxLuck - lucky)) := by
  have hd : 0 ≤ maxLuck - lucky := by omega
  refine ⟨rfl, ?_⟩
  rw [calcBeta_of_ne basis (by omega), fdiv_eq_ediv_of_nonneg _ hd, fdiv_eq_ediv_of_nonneg _ hd]

/-- Witness of C5: `basis = 3`, `lucky = 10 ^ 8`, where the result is `12`. -/
theorem calcBeta_eq_two_floor_divisions_witness :
    calcBeta (10 ^ 8) 3 = some 12 := by
  have h := (calcBeta_eq_two_floor_divisions (10 ^ 8) 3 (by decide) (by decide) (by decide)).2
  rw [h]
  decide

/-- C6 (as stated, refuted): `calcBeta` is not strictly increasing in `lucky` for every basis:
with `basis = 1` the values at `lucky = 0` and at `lucky = 1` are both `1`; and with the
negative `basis = -1` the value falls from `-1` at `lucky = 0` to `-4` at `lucky = 10 ^ 8`. -/
theorem calcBeta_not_strictly_increasing :
    ((0 : Int) < 1 ∧ (1 : Int) < maxLuck ∧ calcBeta 0 1 = some 1 ∧ calcBeta 1 1 = some 1) ∧
    ((0 : Int) < 10 ^ 8 ∧ (10 ^ 8 : Int) < maxLuck ∧ calcBeta 0 (-1) = some (-1) ∧
      calcBeta (10 ^ 8) (-1) = some (-4)) := by
  decide

/-- C6 (amended): for every `basis ≥ 0` and `0 ≤ l1 < l2 < maxLuck`, both calls of `calcBeta`
return a value and `calcBeta(l1, basis) ≤ calcBeta(l2, basis)`; the inequality is strict
whenever `basis ≥ maxLuck`. -/
theorem calcBeta_increasing (basis l1 l2 : Int) (hb : 0 ≤ basis) (h0 : 0 ≤ l1) (h12 : l1 < l2)
    (hl : l2 < maxLuck) :
    ∃ b1 b2 : Int, calcBeta l1 basis = some b1 ∧ calcBeta l2 basis = some b2 ∧ b1 ≤ b2 ∧
      (maxLuck ≤ basis → b1 < b2) := by
  have hm : 0 < maxLuck := maxLuck_pos
  have hd2 : 0 < maxLuck - l2 := by omega
  have hd : maxLuck - l2 < maxLuck - l1 := by omega
  have hd1 : 0 < maxLuck - l1 := by omega
  have hd1m : maxLuck - l1 ≤ maxLuck := by omega
  have hbm : 0 ≤ basis * maxLuck := mul_nonneg hb (le_of_lt hm)
  have hq : basis * maxLuck / (maxLuck - l1) ≤ basis * maxLuck / (maxLuck - l2) :=
    ediv_le_ediv_of_divisor_le hbm hd2 (le_of_lt hd)
  have hq0 : 0 ≤ basis * maxLuck / (maxLuck - l1) := Int.ediv_nonneg hbm (le_of_lt hd1)
  have hx0 : 0 ≤ basis * maxLuck / (maxLuck - l1) * maxLuck := mul_nonneg hq0 (le_of_lt hm)
  refine ⟨_, _, calcBeta_of_ne basis (by omega), calcBeta_of_ne basis (by omega), ?_, ?_⟩
  · show basis * maxLuck / (maxLuck - l1) * maxLuck / (maxLuck - l1) ≤
      basis * maxLuck / (maxLuck - l2) * maxLuck / (maxLuck - l2)
    calc basis * maxLuck / (maxLuck - l1) * maxLuck / (maxLuck - l1)
        ≤ basis * maxLuck / (maxLuck - l1) * maxLuck / (maxLuck - l2) :=
          ediv_le_ediv_of_divisor_le hx0 hd2 (le_of_lt hd)
      _ ≤ basis * maxLuck / (maxLuck - l2) * maxLuck / (maxLuck - l2) :=
          Int.ediv_le_ediv hd2 (mul_le_mul_of_nonneg_right hq (le_of_lt hm))
  · intro hbig
    show basis * maxLuck / (maxLuck - l1) * maxLuck / (maxLuck - l1) <
      basis * maxLuck / (maxLuck - l2) * maxLuck / (maxLuck - l2)
    have hprod : maxLuck * (maxLuck - l1) ≤ basis * maxLuck := by
      calc maxLuck * (maxLuck - l1) ≤ maxLuck * maxLuck :=
            mul_le_mul_of_nonneg_left hd1m (le_of_lt hm)
        _ ≤ basis * maxLuck := mul_le_mul_of_nonneg_right hbig (le_of_lt hm)
    have hqm : maxLuck ≤ basis * maxLuck / (maxLuck - l1) := Int.le_ediv_of_mul_le hd1 hprod
    have hqlt : basis * maxLuck / (maxLuck - l1) < basis * maxLuck / (maxLuck - l2) :=
      ediv_lt_ediv_of_divisor_lt hd2 hd (by omega)
    have hstep : basis * maxLuck / (maxLuck - l1) * maxLuck + maxLuck ≤
        basis * maxLuck / (maxLuck - l2) * maxLuck := by
      have h1 : (basis * maxLuck / (maxLuck - l1) + 1) * maxLuck ≤
          basis * maxLuck / (maxLuck - l2) * maxLuck :=
        mul_le_mul_of_nonneg_right (by omega) (le_of_lt hm)
      have h2 : (basis * maxLuck / (maxLuck - l1) + 1) * maxLuck =
          basis * maxLuck / (maxLuck - l1) * maxLuck + maxLuck := by ring
      omega
    exact ediv_lt_ediv_of_add_le hx0 hd2 (le_of_lt hd) (by omega) hstep

/-- Witness of C6 (amended): `basis = maxLuck`, `l1 = 0`, `l2 = 10 ^ 8`, where the values are
`2 * 10 ^ 8` and `8 * 10 ^ 8`. -/
theorem calcBeta_increasing_witness :
    ∃ b1 b2 : Int, calcBeta 0 maxLuck = some b1 ∧ calcBeta (10 ^ 8) maxLuck = some b2 ∧
      b1 ≤ b2 ∧ (maxLuck ≤ maxLuck → b1 < b2) :=
  calcBeta_increasing maxLuck 0 (10 ^ 8) (by decide) (by decide) (by decide) (by decide)

/-! ## Advertised difficulty: claim C7 -/

set_option maxRecDepth 100000 in
/-- C7 (as stated, refuted): the regime is not decided by `h.Number` itself: the header at
height `2 ^ 64 + 5`, which is at least 39200, with `Basis = 10 ^ 6 > 0` and `Lucky = 9` gets
its `Lucky` and not the quotient `28948022309329048855892746252171976963317496166410141009864`,
because the function reads the height through `Number.Uint64()`, here 5. -/
theorem calcDifficulty_wrapped_height :
    (39200 : Nat) ≤ ({ zeroHeader with Number := 2 ^ 64 + 5, Lucky := 9, Basis := 10 ^ 6 } :
      Header).Number ∧
    calcDifficulty { zeroHeader with Number := 2 ^ 64 + 5, Lucky := 9, Basis := 10 ^ 6 } =
      some 9 ∧
    Int.fdiv (Int.fdiv (2 ^ 256 - 1) (4 * 10 ^ 18) * 10 ^ 6) (10 ^ 6) =
      28948022309329048855892746252171976963317496166410141009864 := by
  decide

/-- C7 (amended): for every header `h`, with `n = h.Number mod 2 ^ 64` the height read by
`Number.Uint64()`: if `n < 39200` then `calcDifficulty(h) = h.Lucky`; if `n ≥ 39200` and
`h.Basis > 0` then `calcDifficulty(h) = (((2 ^ 256 - 1) / (4 * 10 ^ 18)) * 10 ^ 6) / h.Basis`,
with floor divisions in that order. In particular `h.Number < 39200` gives `h.Lucky`, and
`39200 ≤ h.Number < 2 ^ 64` with `h.Basis > 0` gives the quotient. -/
theorem calcDifficulty_regimes (h : Header) :
    (h.Number % 2 ^ 64 < 39200 → calcDifficulty h = some h.Lucky) ∧
    (39200 ≤ h.Number % 2 ^ 64 → 0 < h.Basis →
      calcDifficulty h =
        some (Int.fdiv (Int.fdiv (2 ^ 256 - 1) (4 * 10 ^ 18) * 10 ^ 6) h.Basis)) ∧
    (h.Number < 39200 → calcDifficulty h = some h.Lucky) ∧
    (39200 ≤ h.Number → h.Number < 2 ^ 64 → 0 < h.Basis →
      calcDifficulty h =
        some (Int.fdiv (Int.fdiv (2 ^ 256 - 1) (4 * 10 ^ 18) * 10 ^ 6) h.Basis)) := by
  have hlow : h.Number % 2 ^ 64 < 39200 → calcDifficulty h = some h.Lucky := by
    intro hlt
    have hu : toUint64 h.Number < difficultyAjustBlock := hlt
    unfold calcDifficulty
    rw [if_pos hu]
  have hhigh : 39200 ≤ h.Number % 2 ^ 64 → 0 < h.Basis →
      calcDifficulty h =
        some (Int.fdiv (Int.fdiv (2 ^ 256 - 1) (4 * 10 ^ 18) * 10 ^ 6) h.Basis) := by
    intro hge hB
    have hu : ¬ toUint64 h.Number < difficultyAjustBlock := by
      unfold toUint64 difficultyAjustBlock
      omega
    have hscale : (0 : Int) ≤ 4 * 10 ^ 18 := by decide
    unfold calcDifficulty
    rw [if_neg hu, fdiv_eq_ediv_of_nonneg _ (le_of_lt hB), fdiv_eq_ediv_of_nonneg _ hscale]
    simp only [bigDiv, if_neg (ne_of_gt hB)]
    rfl
  refine ⟨hlow, hhigh, fun hlt => hlow (lt_of_le_of_lt (Nat.mod_le _ _) hlt),
    fun hge hrange hB => hhigh ?_ hB⟩
  rw [Nat.mod_eq_of_lt hrange]
  exact hge

/-- Witness of C7 (scenario S6): a header at height 39199 with `Lucky = 77`, and a header at
height 39200 with `Basis = 10 ^ 6`. -/
theorem calcDifficulty_regimes_witness :
    calcDifficulty { zeroHeader with Number := 39199, Lucky := 77, Basis := 5 } = some 77 ∧
    calcDifficulty { zeroHeader with Number := 39200, Lucky := 77, Basis := 10 ^ 6 } =
      some (Int.fdiv (Int.fdiv (2 ^ 256 - 1) (4 * 10 ^ 18) * 10 ^ 6) (10 ^ 6)) :=
  ⟨(calcDifficulty_regimes { zeroHeader with Number := 39199, Lucky := 77, Basis := 5 }).1
      (by decide),
   (calcDifficulty_regimes { zeroHeader with Number := 39200, Lucky := 77, Basis := 10 ^ 6 }).2.1
      (by decide) (by decide)⟩

/-! ## Reward schedule: claims C8 to C10 -/

/-- A loop that runs `n` times and ignores its counter is the `n`-fold iterate of its body. -/
theorem foldl_range_eq_iterate (f : Int → Int) (n : Nat) (x : Int) :
    (List.range n).foldl (fun tmp _ => f tmp) x = f^[n] x := by
  induction n with
  | zero => rfl
  | succ k ih =>
    rw [List.range_succ, List.foldl_append, ih, Function.iterate_succ_apply']
    rfl

/-- The miner reward in closed form: zero beyond fifty reductions, otherwise the base reward
reduced `height / divHeight` times. -/
theorem minerReward_eq_iterate (height : Nat) :
    minerReward height =
      if height / divHeight > 50 then 0
      else (fun x : Int => Int.ediv (x * 9) 10)^[height / divHeight] blockReward := by
  unfold minerReward
  by_cases h : height / divHeight > 50
  · simp only [if_pos h]
  · simp only [if_neg h]
    exact foldl_range_eq_iterate (fun x : Int => Int.ediv (x * 9) 10) _ _

/-- Reducing a non-negative amount any number of times leaves it non-negative. -/
theorem iterate_reduce_nonneg (n : Nat) {x : Int} (hx : 0 ≤ x) :
    0 ≤ (fun x : Int => Int.ediv (x * 9) 10)^[n] x := by
  induction n with
  | zero => exact hx
  | succ k ih =>
    rw [Function.iterate_succ_apply']
    exact Int.ediv_nonneg (mul_nonneg ih (by decide)) (by decide)

/-- One more reduction of a non-negative amount does not increase it. -/
theorem iterate_reduce_succ_le (n : Nat) {x : Int} (hx : 0 ≤ x) :
    (fun x : Int => Int.ediv (x * 9) 10)^[n + 1] x ≤
      (fun x : Int => Int.ediv (x * 9) 10)^[n] x := by
  rw [Function.iterate_succ_apply']
  have h0 := iterate_reduce_nonneg n hx
  show (fun x : Int => Int.ediv (x * 9) 10)^[n] x * 9 / 10 ≤ _
  omega

/-- More reductions of a non-negative amount give no more than fewer reductions. -/
theorem iterate_reduce_antitone {m n : Nat} (hmn : m ≤ n) {x : Int} (hx : 0 ≤ x) :
    (fun x : Int => Int.ediv (x * 9) 10)^[n] x ≤
      (fun x : Int => Int.ediv (x * 9) 10)^[m] x := by
  induction n with
  | zero =>
    have : m = 0 := by omega
    subst this
    exact le_refl _
  | succ k ih =>
    by_cases hk : m ≤ k
    · exact le_trans (iterate_reduce_succ_le k hx) (ih hk)
    · have : m = k + 1 := by omega
      subst this
      exact le_refl _

/-- C8: for every block height `H`, with `n = H / 3110400`, the miner reward of `mineRewards`
is `0` if `n > 50` and otherwise the result of applying `x ↦ (x * 9) / 10` (floor) `n` times to
`10 ^ 18`; in particular the reward is `10 ^ 18` at height 0, `9 * 10 ^ 17` at height
`3110400`, `81 * 10 ^ 16` at height `2 * 3110400` and `0` at height `51 * 3110400`. -/
theorem minerReward_schedule :
    (∀ H : Nat, minerReward H =
      if H / 3110400 > 50 then 0
      else (fun x : Int => Int.fdiv (x * 9) 10)^[H / 3110400] (10 ^ 18)) ∧
    minerReward 0 = 10 ^ 18 ∧
    minerReward 3110400 = 9 * 10 ^ 17 ∧
    minerReward (2 * 3110400) = 81 * 10 ^ 16 ∧
    minerReward (51 * 3110400) = 0 := by
  refine ⟨?_, by decide, by decide, by decide, by decide⟩
  intro H
  have hf : (fun x : Int => Int.fdiv (x * 9) 10) = (fun x : Int => Int.ediv (x * 9) 10) := by
    funext x
    exact fdiv_eq_ediv_of_nonneg _ (by decide)
  rw [hf, minerReward_eq_iterate]
  rfl

/-- C9: the miner reward is monotone non-increasing in the block height: for all heights
`h1 < h2`, the reward at `h1` is at least the reward at `h2`. -/
theorem minerReward_antitone (h1 h2 : Nat) (hlt : h1 < h2) :
    minerReward h2 ≤ minerReward h1 := by
  have hdiv : h1 / divHeight ≤ h2 / divHeight := Nat.div_le_div_right (le_of_lt hlt)
  have hr : (0 : Int) ≤ blockReward := by decide
  rw [minerReward_eq_iterate h1, minerReward_eq_iterate h2]
  by_cases hb2 : h2 / divHeight > 50
  · rw [if_pos hb2]
    by_cases hb1 : h1 / divHeight > 50
    · rw [if_pos hb1]
    · rw [if_neg hb1]
      exact iterate_reduce_nonneg _ hr
  · have hb1 : ¬ h1 / divHeight > 50 := by omega
    rw [if_neg hb2, if_neg hb1]
    exact iterate_reduce_antitone hdiv hr

/-- Witness of C9: heights `3110399` and `3110400`, with rewards `10 ^ 18` and `9 * 10 ^ 17`. -/
theorem minerReward_antitone_witness :
    3110399 < 3110400 ∧ minerReward 3110400 ≤ minerReward 3110399 :=
  ⟨by decide, minerReward_antitone 3110399 3110400 (by decide)⟩

/-- C10: for every header `H` and state `S`, `mineRewards` (and hence `Finalize`, whose state
is the one `mineRewards` leaves) adds exactly the miner reward of `H`'s height to the balance
of `H.Coinbase` and exactly the floor of `reward * 5 / 100` to the balance of the fixed author
address; when the two addresses are equal that account receives the sum of both amounts. -/
theorem mineRewards_credits (authorRewardAddr : Address)
    (intermediateRoot : StateDB → Bool → Hash) (chain : ChainReader) (header : Header)
    (state : StateDB) (uncles : List Header) :
    (mineRewards authorRewardAddr state header uncles).balance header.Coinbase =
      state.balance header.Coinbase + minerReward (toUint64 header.Number) +
        (if header.Coinbase = authorRewardAddr then
          Int.fdiv (minerReward (toUint64 header.Number) * 5) 100 else 0) ∧
    (mineRewards authorRewardAddr state header uncles).balance authorRewardAddr =
      state.balance authorRewardAddr + Int.fdiv (minerReward (toUint64 header.Number) * 5) 100 +
        (if authorRewardAddr = header.Coinbase then minerReward (toUint64 header.Number)
          else 0) ∧
    (Finalize authorRewardAddr intermediateRoot chain header state uncles).2 =
      mineRewards authorRewardAddr state header uncles := by
  have h100 : (0 : Int) ≤ 100 := by decide
  refine ⟨?_, ?_, rfl⟩
  · simp only [mineRewards, StateDB.AddBalance, authorRewardOf, fdiv_eq_ediv_of_nonneg _ h100]
    by_cases hc : header.Coinbase = authorRewardAddr
    · simp [hc]
    · simp [hc]
  · simp only [mineRewards, StateDB.AddBalance, authorRewardOf, fdiv_eq_ediv_of_nonneg _ h100]
    by_cases hc : authorRewardAddr = header.Coinbase
    · simp [hc]
      ring
    · simp [hc]


/-! ## Reward applier, frame: claim C11 -/

/-- C11: `mineRewards` changes the balance of no account other than `H.Coinbase` and the author
address, and the resulting state does not depend on the uncles argument: any two uncle lists
give the same post-state. -/
theorem mineRewards_frame (authorRewardAddr : Address) (state : StateDB) (header : Header)
    (uncles uncles2 : List Header) (a : Address) (hc : a ≠ header.Coinbase)
    (ha : a ≠ authorRewardAddr) :
    (mineRewards authorRewardAddr state header uncles).balance a = state.balance a ∧
    mineRewards authorRewardAddr state header uncles =
      mineRewards authorRewardAddr state header uncles2 := by
  refine ⟨?_, rfl⟩
  simp only [mineRewards, StateDB.AddBalance, if_neg hc, if_neg ha]

/-- Witness of C11: the miner is `[1]`, the author address `[2]`, the untouched account `[3]`;
the second uncle list holds an uncle whose coinbase is `[3]`. -/
theorem mineRewards_frame_witness :
    (mineRewards [2] ⟨fun _ => 10⟩ { zeroHeader with Coinbase := [1] } []).balance [3] = 10 ∧
    mineRewards [2] ⟨fun _ => 10⟩ { zeroHeader with Coinbase := [1] } [] =
      mineRewards [2] ⟨fun _ => 10⟩ { zeroHeader with Coinbase := [1] }
        [{ zeroHeader with Coinbase := [3] }] :=
  mineRewards_frame [2] ⟨fun _ => 10⟩ { zeroHeader with Coinbase := [1] } []
    [{ zeroHeader with Coinbase := [3] }] [3] (by decide) (by decide)

/-! ## Header verifier: claims C12 to C15 -/

/-- The header verifier returns no error exactly when every check passes. -/
theorem verifyHeader_ok_iff (p : Params) (o : Oracle) (chain : ChainReader) (now : Nat)
    (header parent : Header) (uncle sealCheck : Bool) :
    verifyHeader p o chain now header parent uncle sealCheck = Outcome.ok ↔
      header.Extra.length ≤ p.MaximumExtraDataSize ∧
      (uncle = false → header.Time ≤ now + 15) ∧
      parent.Time < header.Time ∧
      header.GasLimit ≤ 2 ^ 63 - 1 ∧
      header.GasUsed ≤ header.GasLimit ∧
      gasDiff parent.GasLimit header.GasLimit < parent.GasLimit / p.GasLimitBoundDivisor ∧
      p.MinGasLimit ≤ header.GasLimit ∧
      (header.Number : Int) - (parent.Number : Int) = 1 ∧
      (calcParam chain (toUint64 header.Number) header.Time parent).1 = header.Basis ∧
      (calcParam chain (toUint64 header.Number) header.Time parent).2 = header.DifficultyAlpha ∧
      (sealCheck = true → VerifySeal o chain header = Outcome.ok) := by
  unfold verifyHeader
  by_cases h1 : header.Extra.length > p.MaximumExtraDataSize
  · rw [if_pos h1]
    exact ⟨fun h => (nomatch h), fun h => absurd h1 (by omega)⟩
  rw [if_neg h1]
  by_cases h2 : uncle = false ∧ header.Time > now + 15
  · rw [if_pos h2]
    exact ⟨fun h => (nomatch h), fun h => absurd (h.2.1 h2.1) (by omega)⟩
  rw [if_neg h2]
  by_cases h3 : header.Time ≤ parent.Time
  · rw [if_pos h3]
    exact ⟨fun h => (nomatch h), fun h => absurd h3 (by omega)⟩
  rw [if_neg h3]
  by_cases h4 : header.GasLimit > 2 ^ 63 - 1
  · rw [if_pos h4]
    exact ⟨fun h => (nomatch h), fun h => absurd h4 (by omega)⟩
  rw [if_neg h4]
  by_cases h5 : header.GasUsed > header.GasLimit
  · rw [if_pos h5]
    exact ⟨fun h => (nomatch h), fun h => absurd h5 (by omega)⟩
  rw [if_neg h5]
  dsimp only
  by_cases h6 : gasDiff parent.GasLimit header.GasLimit ≥
      parent.GasLimit / p.GasLimitBoundDivisor ∨ header.GasLimit < p.MinGasLimit
  · rw [if_pos h6]
    refine ⟨fun h => (nomatch h), fun h => ?_⟩
    rcases h6 with h6 | h6
    · exact absurd h6 (by omega)
    · exact absurd h6 (by omega)
  rw [if_neg h6]
  by_cases h7 : (header.Number : Int) - (parent.Number : Int) ≠ 1
  · rw [if_pos h7]
    exact ⟨fun h => (nomatch h), fun h => absurd h.2.2.2.2.2.2.2.1 h7⟩
  rw [if_neg h7]
  by_cases h8 : (calcParam chain (toUint64 header.Number) header.Time parent).1 ≠ header.Basis
  · rw [if_pos h8]
    exact ⟨fun h => (nomatch h), fun h => absurd h.2.2.2.2.2.2.2.2.1 h8⟩
  rw [if_neg h8]
  by_cases h9 : (calcParam chain (toUint64 header.Number) header.Time parent).2 ≠
      header.DifficultyAlpha
  · rw [if_pos h9]
    exact ⟨fun h => (nomatch h), fun h => absurd h.2.2.2.2.2.2.2.2.2.1 h9⟩
  rw [if_neg h9]
  have hfut : uncle = false → header.Time ≤ now + 15 := fun hu => by
    by_contra hc
    exact h2 ⟨hu, by omega⟩
  have hgas : gasDiff parent.GasLimit header.GasLimit <
      parent.GasLimit / p.GasLimitBoundDivisor := by
    by_contra hc
    exact h6 (Or.inl (by omega))
  have hmin : p.MinGasLimit ≤ header.GasLimit := by
    by_contra hc
    exact h6 (Or.inr (by omega))
  by_cases h10 : sealCheck = true
  · rw [if_pos h10]
    exact ⟨fun h => ⟨by omega, hfut, by omega, by omega, by omega, hgas, hmin,
        not_not.mp h7, not_not.mp h8, not_not.mp h9, fun _ => h⟩,
      fun h => h.2.2.2.2.2.2.2.2.2.2 h10⟩
  · rw [if_neg h10]
    exact ⟨fun _ => ⟨by omega, hfut, by omega, by omega, by omega, hgas, hmin,
        not_not.mp h7, not_not.mp h8, not_not.mp h9, fun hs => absurd hs h10⟩,
      fun _ => rfl⟩

/-- The `int64` arithmetic of the gas-bound check yields the true absolute difference of the
two gas limits whenever the header's gas limit is at most `2 ^ 63 - 1` and the parent's exceeds
it by at most `2 ^ 63`. -/
theorem gasDiff_eq_natAbs {parentGasLimit headerGasLimit : Nat}
    (hcap : headerGasLimit ≤ 2 ^ 63 - 1) (hrange : parentGasLimit < 2 ^ 64)
    (hclose : parentGasLimit ≤ headerGasLimit + 2 ^ 63) :
    gasDiff parentGasLimit headerGasLimit =
      Int.natAbs ((parentGasLimit : Int) - (headerGasLimit : Int)) := by
  unfold gasDiff toInt64 wrapInt64 int64ToUint64
  norm_num at hcap hrange hclose ⊢
  split_ifs <;> omega

/-- C12: soundness of the header verifier: if `verifyHeader(header, parent, uncle = false,
seal = false)` returns no error then `len(Extra) ≤ MaximumExtraDataSize`,
`parent.Time < Time ≤ now + 15`, `GasUsed ≤ GasLimit ≤ 2 ^ 63 - 1`, `GasLimit ≥ MinGasLimit`,
`Number = parent.Number + 1`, and `(Basis, DifficultyAlpha)` is `calcParam` applied to
`(Number, Time, parent)`. -/
theorem verifyHeader_sound (p : Params) (o : Oracle) (chain : ChainReader) (now : Nat)
    (header parent : Header)
    (h : verifyHeader p o chain now header parent false false = Outcome.ok) :
    header.Extra.length ≤ p.MaximumExtraDataSize ∧
    parent.Time < header.Time ∧ header.Time ≤ now + 15 ∧
    header.GasUsed ≤ header.GasLimit ∧ header.GasLimit ≤ 2 ^ 63 - 1 ∧
    p.MinGasLimit ≤ header.GasLimit ∧
    header.Number = parent.Number + 1 ∧
    (header.Basis, header.DifficultyAlpha) =
      calcParam chain (toUint64 header.Number) header.Time parent := by
  obtain ⟨h1, h2, h3, h4, h5, _, h7, h8, h9, h10, _⟩ :=
    (verifyHeader_ok_iff p o chain now header parent false false).mp h
  refine ⟨h1, h3, h2 rfl, h5, h4, h7, by omega, ?_⟩
  rw [← h9, ← h10]

set_option maxRecDepth 100000 in
/-- Witness of C12: `validChild` on top of `validParent`, verified at clock reading 2000. -/
theorem verifyHeader_sound_witness :
    validChild.Extra.length ≤ sampleParams.MaximumExtraDataSize ∧
    validParent.Time < validChild.Time ∧ validChild.Time ≤ 2000 + 15 ∧
    validChild.GasUsed ≤ validChild.GasLimit ∧ validChild.GasLimit ≤ 2 ^ 63 - 1 ∧
    sampleParams.MinGasLimit ≤ validChild.GasLimit ∧
    validChild.Number = validParent.Number + 1 ∧
    (validChild.Basis, validChild.DifficultyAlpha) =
      calcParam sampleChain (toUint64 validChild.Number) validChild.Time validParent :=
  verifyHeader_sound sampleParams zeroOracle sampleChain 2000 validChild validParent
    (by decide)

/-- The hash integer of `SealBlock` is never negative. -/
theorem SealBlock_nonneg (o : Oracle) (header : Header) (nonce : Nat) :
    0 ≤ SealBlock o header nonce := by
  unfold SealBlock setBytes
  exact Int.ediv_nonneg (Int.ofNat_nonneg _) (by decide)

/-- The hash integer of `SealLuck` is never negative. -/
theorem SealLuck_nonneg (o : Oracle) (header : Header) (nonce : Nat) :
    0 ≤ SealLuck o header nonce := by
  unfold SealLuck setBytes
  exact Int.ediv_nonneg (Int.ofNat_nonneg _) (by decide)

/-- With a zero basis `calcBeta` returns zero whenever it returns. -/
theorem calcBeta_zero_basis {luck b : Int} (h : calcBeta luck 0 = some b) : b = 0 := by
  by_cases hz : maxLuck - luck = 0
  · simp [calcBeta, bigDiv, hz] at h
  · rw [calcBeta_of_ne 0 hz] at h
    have hb : b = Int.ediv (Int.ediv (0 * maxLuck) (maxLuck - luck) * maxLuck) (maxLuck - luck) :=
      (Option.some.inj h).symm
    rw [hb]
    show 0 * maxLuck / (maxLuck - luck) * maxLuck / (maxLuck - luck) = 0
    simp

/-- The advertised difficulty faults only on a zero basis. -/
theorem calcDifficulty_eq_none {h : Header} (hd : calcDifficulty h = none) : h.Basis = 0 := by
  unfold calcDifficulty at hd
  by_cases hh : toUint64 h.Number < difficultyAjustBlock
  · rw [if_pos hh] at hd
    cases hd
  · rw [if_neg hh] at hd
    by_contra hb
    simp [bigDiv, hb] at hd

/-- The seal verifier as a chain of five checks, for a header whose `Lucky` is not `maxLuck`:
the error is that of the first check that fails. -/
theorem VerifySeal_eq_first_failure (o : Oracle) (chain : ChainReader) (h : Header)
    (hl : h.Lucky ≠ maxLuck) :
    VerifySeal o chain h =
      if ¬ SealLuck o h h.FirstNonce < h.DifficultyAlpha then Outcome.err Err.UnknownBlock
      else if calcBeta h.Lucky h.Basis ≠ some h.DifficultyBeta then
        Outcome.err Err.Inconsistence
      else if calcLuck o h h.FirstNonce ≠ h.Lucky then Outcome.err Err.ComputeLucky
      else if ¬ SealBlock o h h.SecondNonce < h.DifficultyBeta then
        Outcome.err Err.UnknownBlock
      else if calcDifficulty h ≠ some h.Difficulty then Outcome.err Err.UnknownBlock
      else Outcome.ok := by
  have hne : maxLuck - h.Lucky ≠ 0 := fun hz => hl (by omega)
  have hbeta := calcBeta_of_ne h.Basis hne
  unfold VerifySeal
  by_cases h1 : SealLuck o h h.FirstNonce < h.DifficultyAlpha
  swap
  · have h1c : SealLuck o h h.FirstNonce ≥ h.DifficultyAlpha := by omega
    rw [if_pos h1c, if_pos h1]
  have h1c : ¬ SealLuck o h h.FirstNonce ≥ h.DifficultyAlpha := by omega
  rw [if_neg h1c, if_neg (not_not.mpr h1)]
  generalize Int.ediv (Int.ediv (h.Basis * maxLuck) (maxLuck - h.Lucky) * maxLuck)
    (maxLuck - h.Lucky) = beta at hbeta
  rw [hbeta]
  dsimp only
  by_cases h2 : beta = h.DifficultyBeta
  swap
  · have h2s : (some beta : Option Int) ≠ some h.DifficultyBeta :=
      fun hc => h2 (Option.some.inj hc)
    rw [if_pos h2, if_pos h2s]
  have h2s : ¬ (some beta : Option Int) ≠ some h.DifficultyBeta := fun hc => hc (by rw [h2])
  rw [if_neg (not_not.mpr h2), if_neg h2s]
  by_cases h3 : calcLuck o h h.FirstNonce ≠ h.Lucky
  · rw [if_pos h3, if_pos h3]
  rw [if_neg h3, if_neg h3]
  by_cases h4 : SealBlock o h h.SecondNonce < h.DifficultyBeta
  swap
  · have h4c : SealBlock o h h.SecondNonce ≥ h.DifficultyBeta := by omega
    rw [if_pos h4c, if_pos h4]
  have h4c : ¬ SealBlock o h h.SecondNonce ≥ h.DifficultyBeta := by omega
  rw [if_neg h4c, if_neg (not_not.mpr h4)]
  cases hd : calcDifficulty h with
  | none =>
    exfalso
    have hB := calcDifficulty_eq_none hd
    rw [hB] at hbeta
    have hz := calcBeta_zero_basis hbeta
    have hnn := SealBlock_nonneg o h h.SecondNonce
    omega
  | some d =>
    dsimp only
    by_cases h5 : d = h.Difficulty
    swap
    · have h5s : (some d : Option Int) ≠ some h.Difficulty := fun hc => h5 (Option.some.inj hc)
      rw [if_pos h5, if_pos h5s]
    · have h5s : ¬ (some d : Option Int) ≠ some h.Difficulty := fun hc => hc (by rw [h5])
      rw [if_neg (not_not.mpr h5), if_neg h5s]

/-- The only error values of the seal verifier are `UnknownBlock`, `Inconsistence` and
`ComputeLucky`. -/
theorem VerifySeal_err_kind {o : Oracle} {chain : ChainReader} {h : Header} {e : Err}
    (hv : VerifySeal o chain h = Outcome.err e) :
    e = Err.UnknownBlock ∨ e = Err.Inconsistence ∨ e = Err.ComputeLucky := by
  unfold VerifySeal at hv
  dsimp only at hv
  repeat' split at hv
  all_goals first
    | (cases hv; simp)
    | cases hv

/-- The header verifier returns the gas-bound error exactly when the five earlier checks pass
and the gas-bound check of the code fails. -/
theorem verifyHeader_gas_error_iff (p : Params) (o : Oracle) (chain : ChainReader) (now : Nat)
    (header parent : Header) (uncle sealCheck : Bool) :
    verifyHeader p o chain now header parent uncle sealCheck = Outcome.err Err.InvalidGasBound ↔
      header.Extra.length ≤ p.MaximumExtraDataSize ∧
      (uncle = false → header.Time ≤ now + 15) ∧
      parent.Time < header.Time ∧
      header.GasLimit ≤ 2 ^ 63 - 1 ∧
      header.GasUsed ≤ header.GasLimit ∧
      (gasDiff parent.GasLimit header.GasLimit ≥ parent.GasLimit / p.GasLimitBoundDivisor ∨
        header.GasLimit < p.MinGasLimit) := by
  unfold verifyHeader
  by_cases h1 : header.Extra.length > p.MaximumExtraDataSize
  · rw [if_pos h1]
    exact ⟨fun h => (by cases h), fun h => absurd h1 (by omega)⟩
  rw [if_neg h1]
  by_cases h2 : uncle = false ∧ header.Time > now + 15
  · rw [if_pos h2]
    exact ⟨fun h => (by cases h), fun h => absurd (h.2.1 h2.1) (by omega)⟩
  rw [if_neg h2]
  by_cases h3 : header.Time ≤ parent.Time
  · rw [if_pos h3]
    exact ⟨fun h => (by cases h), fun h => absurd h3 (by omega)⟩
  rw [if_neg h3]
  by_cases h4 : header.GasLimit > 2 ^ 63 - 1
  · rw [if_pos h4]
    exact ⟨fun h => (by cases h), fun h => absurd h4 (by omega)⟩
  rw [if_neg h4]
  by_cases h5 : header.GasUsed > header.GasLimit
  · rw [if_pos h5]
    exact ⟨fun h => (by cases h), fun h => absurd h5 (by omega)⟩
  rw [if_neg h5]
  dsimp only
  have hfut : uncle = false → header.Time ≤ now + 15 := fun hu => by
    by_contra hc
    exact h2 ⟨hu, by omega⟩
  by_cases h6 : gasDiff parent.GasLimit header.GasLimit ≥
      parent.GasLimit / p.GasLimitBoundDivisor ∨ header.GasLimit < p.MinGasLimit
  · rw [if_pos h6]
    exact ⟨fun _ => ⟨by omega, hfut, by omega, by omega, by omega, h6⟩, fun _ => rfl⟩
  rw [if_neg h6]
  refine ⟨fun h => ?_, fun h => absurd h.2.2.2.2.2 h6⟩
  exfalso
  by_cases h7 : (header.Number : Int) - (parent.Number : Int) ≠ 1
  · rw [if_pos h7] at h
    cases h
  rw [if_neg h7] at h
  by_cases h8 : (calcParam chain (toUint64 header.Number) header.Time parent).1 ≠ header.Basis
  · rw [if_pos h8] at h
    cases h
  rw [if_neg h8] at h
  by_cases h9 : (calcParam chain (toUint64 header.Number) header.Time parent).2 ≠
      header.DifficultyAlpha
  · rw [if_pos h9] at h
    cases h
  rw [if_neg h9] at h
  by_cases h10 : sealCheck = true
  · rw [if_pos h10] at h
    rcases VerifySeal_err_kind h with hk | hk | hk <;> cases hk
  · rw [if_neg h10] at h
    cases h

set_option maxRecDepth 100000 in
/-- C13 (as stated, refuted): for a parent gas limit in the upper half of the `uint64` range
the `int64` arithmetic does not compute the absolute difference: with
`parent.GasLimit = 2 ^ 64 - 1` and `GasLimit = 5000` the code obtains `5001` while the true
difference is `2 ^ 64 - 5001`; with the sample constants (divisor 1024, minimum 5000) the
header passes the gas-bound check, and the whole verifier, although the true difference is
far above `parent.GasLimit / 1024`. -/
theorem gasDiff_wrong_for_huge_parent :
    (lowGasChild.GasUsed ≤ lowGasChild.GasLimit ∧ lowGasChild.GasLimit ≤ 2 ^ 63 - 1 ∧
      hugeGasParent.GasLimit < 2 ^ 64) ∧
    gasDiff hugeGasParent.GasLimit lowGasChild.GasLimit = 5001 ∧
    Int.natAbs ((hugeGasParent.GasLimit : Int) - (lowGasChild.GasLimit : Int)) = 2 ^ 64 - 5001 ∧
    Int.natAbs ((hugeGasParent.GasLimit : Int) - (lowGasChild.GasLimit : Int)) ≥
      hugeGasParent.GasLimit / sampleParams.GasLimitBoundDivisor ∧
    verifyHeader sampleParams zeroOracle sampleChain 2000 lowGasChild hugeGasParent false false =
      Outcome.ok := by
  decide

/-- C13 (amended): for every header that passed the earlier checks (in particular
`GasUsed ≤ GasLimit ≤ 2 ^ 63 - 1`) and every `uint64` parent gas limit that exceeds the
header's by at most `2 ^ 63` (in particular every `parent.GasLimit ≤ 2 ^ 63 - 1`), the `int64`
subtraction and negation compute the true absolute difference, and `verifyHeader` rejects at
the gas-bound check if and only if `|parent.GasLimit - GasLimit| ≥ parent.GasLimit /
GasLimitBoundDivisor` or `GasLimit < MinGasLimit`. -/
theorem verifyHeader_gas_bound (p : Params) (o : Oracle) (chain : ChainReader) (now : Nat)
    (header parent : Header) (uncle sealCheck : Bool)
    (h1 : header.Extra.length ≤ p.MaximumExtraDataSize)
    (h2 : uncle = false → header.Time ≤ now + 15)
    (h3 : parent.Time < header.Time)
    (h4 : header.GasLimit ≤ 2 ^ 63 - 1)
    (h5 : header.GasUsed ≤ header.GasLimit)
    (hrange : parent.GasLimit < 2 ^ 64)
    (hclose : parent.GasLimit ≤ header.GasLimit + 2 ^ 63) :
    gasDiff parent.GasLimit header.GasLimit =
      Int.natAbs ((parent.GasLimit : Int) - (header.GasLimit : Int)) ∧
    (verifyHeader p o chain now header parent uncle sealCheck = Outcome.err Err.InvalidGasBound ↔
      Int.natAbs ((parent.GasLimit : Int) - (header.GasLimit : Int)) ≥
        parent.GasLimit / p.GasLimitBoundDivisor ∨ header.GasLimit < p.MinGasLimit) := by
  have hd := gasDiff_eq_natAbs h4 hrange hclose
  refine ⟨hd, ?_⟩
  rw [verifyHeader_gas_error_iff, hd]
  exact ⟨fun h => h.2.2.2.2.2, fun h => ⟨h1, h2, h3, h4, h5, h⟩⟩

set_option maxRecDepth 100000 in
/-- Witness of C13 (amended): a parent gas limit of `2 ^ 63 + 4999`, above `2 ^ 63 - 1`, and a
header gas limit of 5000: the difference `2 ^ 63 - 1` is computed exactly and the header is
rejected at the gas-bound check. -/
theorem verifyHeader_gas_bound_witness :
    gasDiff (2 ^ 63 + 4999) 5000 = 2 ^ 63 - 1 ∧
    verifyHeader sampleParams zeroOracle sampleChain 2000 lowGasChild
      { validParent with GasLimit := 2 ^ 63 + 4999 } false false =
        Outcome.err Err.InvalidGasBound := by
  have h := verifyHeader_gas_bound sampleParams zeroOracle sampleChain 2000 lowGasChild
    { validParent with GasLimit := 2 ^ 63 + 4999 } false false (by decide) (by decide)
    (by decide) (by decide) (by decide) (by decide) (by decide)
  exact ⟨by decide, h.2.mpr (Or.inl (by decide))⟩

/-- The code of the header verifier and the order of checks of the specification agree whenever
the `int64` arithmetic of the gas-bound check is exact. -/
theorem verifyHeader_eq_spec_of_close (p : Params) (o : Oracle) (chain : ChainReader) (now : Nat)
    (header parent : Header) (uncle sealCheck : Bool) (hrange : parent.GasLimit < 2 ^ 64)
    (hclose : header.GasLimit ≤ 2 ^ 63 - 1 → parent.GasLimit ≤ header.GasLimit + 2 ^ 63) :
    verifyHeader p o chain now header parent uncle sealCheck =
      verifyHeaderSpec p o chain now header parent uncle sealCheck := by
  unfold verifyHeader verifyHeaderSpec
  by_cases h1 : header.Extra.length > p.MaximumExtraDataSize
  · rw [if_pos h1, if_pos h1]
  rw [if_neg h1, if_neg h1]
  by_cases h2 : uncle = false ∧ header.Time > now + 15
  · rw [if_pos h2, if_pos h2]
  rw [if_neg h2, if_neg h2]
  by_cases h3 : header.Time ≤ parent.Time
  · rw [if_pos h3, if_pos h3]
  rw [if_neg h3, if_neg h3]
  by_cases h4 : header.GasLimit > 2 ^ 63 - 1
  · rw [if_pos h4, if_pos h4]
  rw [if_neg h4, if_neg h4]
  by_cases h5 : header.GasUsed > header.GasLimit
  · rw [if_pos h5, if_pos h5]
  rw [if_neg h5, if_neg h5]
  dsimp only
  rw [gasDiff_eq_natAbs (by omega) hrange (hclose (by omega))]
  by_cases h6 : Int.natAbs ((parent.GasLimit : Int) - (header.GasLimit : Int)) ≥
      parent.GasLimit / p.GasLimitBoundDivisor ∨ header.GasLimit < p.MinGasLimit
  · rw [if_pos h6, if_pos h6]
  rw [if_neg h6, if_neg h6]
  by_cases h7 : header.Number ≠ parent.Number + 1
  · have h7c : (header.Number : Int) - (parent.Number : Int) ≠ 1 := by omega
    rw [if_pos h7c, if_pos h7]
  have h7c : ¬ (header.Number : Int) - (parent.Number : Int) ≠ 1 := by omega
  rw [if_neg h7c, if_neg h7]
  by_cases h8 : (calcParam chain (toUint64 header.Number) header.Time parent).1 ≠ header.Basis
  · have h8s : calcParam chain (toUint64 header.Number) header.Time parent ≠
        (header.Basis, header.DifficultyAlpha) := fun hc => h8 (by rw [hc])
    rw [if_pos h8, if_pos h8s]
  rw [if_neg h8]
  by_cases h9 : (calcParam chain (toUint64 header.Number) header.Time parent).2 ≠
      header.DifficultyAlpha
  · have h9s : calcParam chain (toUint64 header.Number) header.Time parent ≠
        (header.Basis, header.DifficultyAlpha) := fun hc => h9 (by rw [hc])
    rw [if_pos h9, if_pos h9s]
  have h9s : ¬ calcParam chain (toUint64 header.Number) header.Time parent ≠
      (header.Basis, header.DifficultyAlpha) :=
    fun hc => hc (Prod.ext (not_not.mp h8) (not_not.mp h9))
  rw [if_neg h9, if_neg h9s]

/-- C14: `verifyHeader` returns the error of the first failing check in the fixed order:
extra-data too long; (non-uncle only) `Time > now + 15` gives `FutureBlock`;
`Time ≤ parent.Time` gives `OlderBlockTime`; `GasLimit > 2 ^ 63 - 1`; `GasUsed > GasLimit`;
gas-limit bound or minimum; `Number ≠ parent.Number + 1` gives `InvalidNumber`; `Basis` or
`DifficultyAlpha` different from `calcParam` gives `Inconsistence`; then, only if the seal is
requested, the result of `VerifySeal`; and no error exactly when none fails (stated for
`parent.GasLimit ≤ 2 ^ 63 - 1`). In particular a non-uncle header with extra-data within the
limit and `Time = now + 20` fails with `FutureBlock` whatever its other fields. -/
theorem verifyHeader_first_failure (p : Params) (o : Oracle) (chain : ChainReader) (now : Nat)
    (header parent : Header) (uncle sealCheck : Bool) :
    (parent.GasLimit ≤ 2 ^ 63 - 1 →
      verifyHeader p o chain now header parent uncle sealCheck =
        verifyHeaderSpec p o chain now header parent uncle sealCheck) ∧
    (parent.GasLimit ≤ 2 ^ 63 - 1 →
      (verifyHeader p o chain now header parent uncle sealCheck = Outcome.ok ↔
        header.Extra.length ≤ p.MaximumExtraDataSize ∧
        (uncle = false → header.Time ≤ now + 15) ∧
        parent.Time < header.Time ∧
        header.GasLimit ≤ 2 ^ 63 - 1 ∧
        header.GasUsed ≤ header.GasLimit ∧
        Int.natAbs ((parent.GasLimit : Int) - (header.GasLimit : Int)) <
          parent.GasLimit / p.GasLimitBoundDivisor ∧
        p.MinGasLimit ≤ header.GasLimit ∧
        header.Number = parent.Number + 1 ∧
        calcParam chain (toUint64 header.Number) header.Time parent =
          (header.Basis, header.DifficultyAlpha) ∧
        (sealCheck = true → VerifySeal o chain header = Outcome.ok))) ∧
    (uncle = false → header.Extra.length ≤ p.MaximumExtraDataSize →
      header.Time = now + 20 →
      verifyHeader p o chain now header parent uncle sealCheck =
        Outcome.err Err.FutureBlock) := by
  refine ⟨fun hP => ?_, fun hP => ?_, fun hu hx ht => ?_⟩
  · exact verifyHeader_eq_spec_of_close p o chain now header parent uncle sealCheck
      (by omega) (fun _ => by omega)
  · rw [verifyHeader_ok_iff]
    constructor
    · rintro ⟨h1, h2, h3, h4, h5, h6, h7, h8, h9, h10, h11⟩
      rw [gasDiff_eq_natAbs h4 (by omega) (by omega)] at h6
      exact ⟨h1, h2, h3, h4, h5, h6, h7, by omega, Prod.ext h9 h10, h11⟩
    · rintro ⟨h1, h2, h3, h4, h5, h6, h7, h8, h9, h11⟩
      rw [← gasDiff_eq_natAbs h4 (by omega) (by omega)] at h6
      exact ⟨h1, h2, h3, h4, h5, h6, h7, by omega, by rw [h9], by rw [h9], h11⟩
  · unfold verifyHeader
    rw [if_neg (by omega), if_pos ⟨hu, by omega⟩]

/-- Witness of C14 (scenario S5): `validChild` on top of `validParent` passes every check at
clock reading 2000, and the same header with `Time = 2020` fails with `FutureBlock`. -/
theorem verifyHeader_first_failure_witness :
    verifyHeader sampleParams zeroOracle sampleChain 2000 validChild validParent false false =
      verifyHeaderSpec sampleParams zeroOracle sampleChain 2000 validChild validParent
        false false ∧
    verifyHeader sampleParams zeroOracle sampleChain 2000 { validChild with Time := 2020 }
      validParent false true = Outcome.err Err.FutureBlock :=
  ⟨(verifyHeader_first_failure sampleParams zeroOracle sampleChain 2000 validChild validParent
      false false).1 (by decide),
   (verifyHeader_first_failure sampleParams zeroOracle sampleChain 2000
      { validChild with Time := 2020 } validParent false true).2.2 rfl (by decide) rfl⟩

/-- C15: `VerifyHeader` accepts without any further check every header that the chain already
knows under `(hash, Number)`, whatever its fields; otherwise, when the chain has no header
for `(ParentHash, Number - 1)` it returns `UnknownAncestor`; otherwise its result is that of
`verifyHeader` against that parent with `uncle = false` and the given seal flag. -/
theorem VerifyHeader_cases (p : Params) (o : Oracle) (chain : ChainReader) (now : Nat)
    (header : Header) (sealCheck : Bool) :
    ((chain.GetHeader (o.HeaderHash header) (toUint64 header.Number)).isSome = true →
      VerifyHeader p o chain now header sealCheck = Outcome.ok) ∧
    (chain.GetHeader (o.HeaderHash header) (toUint64 header.Number) = none →
      chain.GetHeader header.ParentHash (subU64 (toUint64 header.Number) 1) = none →
      VerifyHeader p o chain now header sealCheck = Outcome.err Err.UnknownAncestor) ∧
    (∀ parent : Header,
      chain.GetHeader (o.HeaderHash header) (toUint64 header.Number) = none →
      chain.GetHeader header.ParentHash (subU64 (toUint64 header.Number) 1) = some parent →
      VerifyHeader p o chain now header sealCheck =
        verifyHeader p o chain now header parent false sealCheck) := by
  refine ⟨fun hk => ?_, fun hk hp => ?_, fun parent hk hp => ?_⟩
  · unfold VerifyHeader
    dsimp only
    rw [if_pos hk]
  · unfold VerifyHeader
    dsimp only
    rw [hk, hp]
    rfl
  · unfold VerifyHeader
    dsimp only
    rw [hk, hp]
    rfl

set_option maxRecDepth 100000 in
/-- Witness of C15: `knowingChain` knows `staleChild`, whose timestamp is not after its
parent's: `VerifyHeader` accepts it although `verifyHeader` against the parent rejects it;
`emptyChain` gives `UnknownAncestor`; and under `sampleChain` the result for `validChild` is
that of `verifyHeader`. -/
theorem VerifyHeader_cases_witness :
    VerifyHeader sampleParams zeroOracle knowingChain 2000 staleChild true = Outcome.ok ∧
    verifyHeader sampleParams zeroOracle knowingChain 2000 staleChild validParent false true =
      Outcome.err Err.OlderBlockTime ∧
    VerifyHeader sampleParams zeroOracle emptyChain 2000 validChild false =
      Outcome.err Err.UnknownAncestor ∧
    VerifyHeader sampleParams zeroOracle sampleChain 2000 validChild false =
      verifyHeader sampleParams zeroOracle sampleChain 2000 validChild validParent false false :=
  ⟨(VerifyHeader_cases sampleParams zeroOracle knowingChain 2000 staleChild true).1 (by decide),
   by decide,
   (VerifyHeader_cases sampleParams zeroOracle emptyChain 2000 validChild false).2.1
     (by decide) (by decide),
   (VerifyHeader_cases sampleParams zeroOracle sampleChain 2000 validChild false).2.2
     validParent (by decide) (by decide)⟩

/-! ## Seal verifier: claim C16 -/

/-- C16: with the three hash roles arbitrary (they are computed from an arbitrary encoder and an
arbitrary hash, and are non-negative) and for every header with `Lucky ≠ maxLuck`,
`VerifySeal` returns no error if and only if `SealLuck(h, FirstNonce) < DifficultyAlpha`,
`calcBeta(Lucky, Basis) = DifficultyBeta`, `calcLuck(h, FirstNonce) = Lucky`,
`SealBlock(h, SecondNonce) < DifficultyBeta` and `calcDifficulty(h) = Difficulty`; otherwise
it returns the error of the first of these five checks, in this order, that fails:
`UnknownBlock`, `Inconsistence`, `ComputeLucky`, `UnknownBlock`, `UnknownBlock`. -/
theorem VerifySeal_checks (o : Oracle) (chain : ChainReader) (h : Header)
    (hl : h.Lucky ≠ maxLuck) :
    (0 ≤ SealLuck o h h.FirstNonce ∧ 0 ≤ SealBlock o h h.SecondNonce) ∧
    (VerifySeal o chain h = Outcome.ok ↔
      SealLuck o h h.FirstNonce < h.DifficultyAlpha ∧
      calcBeta h.Lucky h.Basis = some h.DifficultyBeta ∧
      calcLuck o h h.FirstNonce = h.Lucky ∧
      SealBlock o h h.SecondNonce < h.DifficultyBeta ∧
      calcDifficulty h = some h.Difficulty) ∧
    VerifySeal o chain h =
      (if ¬ SealLuck o h h.FirstNonce < h.DifficultyAlpha then Outcome.err Err.UnknownBlock
      else if calcBeta h.Lucky h.Basis ≠ some h.DifficultyBeta then
        Outcome.err Err.Inconsistence
      else if calcLuck o h h.FirstNonce ≠ h.Lucky then Outcome.err Err.ComputeLucky
      else if ¬ SealBlock o h h.SecondNonce < h.DifficultyBeta then
        Outcome.err Err.UnknownBlock
      else if calcDifficulty h ≠ some h.Difficulty then Outcome.err Err.UnknownBlock
      else Outcome.ok) := by
  refine ⟨⟨SealLuck_nonneg o h _, SealBlock_nonneg o h _⟩, ?_,
    VerifySeal_eq_first_failure o chain h hl⟩
  rw [VerifySeal_eq_first_failure o chain h hl]
  by_cases h1 : SealLuck o h h.FirstNonce < h.DifficultyAlpha
  swap
  · rw [if_pos h1]
    exact ⟨fun hv => (by cases hv), fun hv => absurd hv.1 h1⟩
  rw [if_neg (not_not.mpr h1)]
  by_cases h2 : calcBeta h.Lucky h.Basis = some h.DifficultyBeta
  swap
  · rw [if_pos h2]
    exact ⟨fun hv => (by cases hv), fun hv => absurd hv.2.1 h2⟩
  rw [if_neg (not_not.mpr h2)]
  by_cases h3 : calcLuck o h h.FirstNonce = h.Lucky
  swap
  · rw [if_pos h3]
    exact ⟨fun hv => (by cases hv), fun hv => absurd hv.2.2.1 h3⟩
  rw [if_neg (not_not.mpr h3)]
  by_cases h4 : SealBlock o h h.SecondNonce < h.DifficultyBeta
  swap
  · rw [if_pos h4]
    exact ⟨fun hv => (by cases hv), fun hv => absurd hv.2.2.2.1 h4⟩
  rw [if_neg (not_not.mpr h4)]
  by_cases h5 : calcDifficulty h = some h.Difficulty
  swap
  · rw [if_pos h5]
    exact ⟨fun hv => (by cases hv), fun hv => absurd hv.2.2.2.2 h5⟩
  rw [if_neg (not_not.mpr h5)]
  exact ⟨fun _ => ⟨h1, h2, h3, h4, h5⟩, fun _ => rfl⟩

set_option maxRecDepth 100000 in
/-- Witness of C16: `sealedChild` under `zeroOracle`, every hash integer being zero, passes
the five checks; with `Lucky = 1` instead of the recomputed `0` the second check fails first. -/
theorem VerifySeal_checks_witness :
    VerifySeal zeroOracle sampleChain sealedChild = Outcome.ok ∧
    VerifySeal zeroOracle sampleChain { sealedChild with Lucky := 1 } =
      Outcome.err Err.Inconsistence := by
  have h1 := (VerifySeal_checks zeroOracle sampleChain sealedChild (by decide)).2.1
  have h2 := (VerifySeal_checks zeroOracle sampleChain { sealedChild with Lucky := 1 }
    (by decide)).2.2
  refine ⟨h1.mpr (by decide), ?_⟩
  rw [h2]
  decide

/-! ## Miner: claims C17 and C18 -/

/-- A nonce returned by the first search loop passes the first-stage test. -/
theorem searchLuck_some {o : Oracle} {header : Header} {fuel curr k : Nat}
    (h : searchLuck o header fuel curr = some k) :
    SealLuck o header k < header.DifficultyAlpha := by
  induction fuel generalizing curr with
  | zero => cases h
  | succ n ih =>
    unfold searchLuck at h
    dsimp only at h
    by_cases hc : SealLuck o header ((curr + 1) % 2 ^ 64) < header.DifficultyAlpha
    · rw [if_pos hc] at h
      cases h
      exact hc
    · rw [if_neg hc] at h
      exact ih h

/-- A nonce returned by the second search loop passes the second-stage test. -/
theorem searchBlock_some {o : Oracle} {header : Header} {fuel curr k : Nat}
    (h : searchBlock o header fuel curr = some k) :
    SealBlock o header k < header.DifficultyBeta := by
  induction fuel generalizing curr with
  | zero => cases h
  | succ n ih =>
    unfold searchBlock at h
    dsimp only at h
    by_cases hc : SealBlock o header ((curr + 1) % 2 ^ 64) < header.DifficultyBeta
    · rw [if_pos hc] at h
      cases h
      exact hc
    · rw [if_neg hc] at h
      exact ih h

/-- The shape of a delivered block: the header of the given block with the five seal fields
filled in by the two searches, `calcLuck`, `calcBeta` and `calcDifficulty`. -/
theorem mine_delivered_shape {o : Oracle} {block b : Block} {fn sn fuel1 fuel2 : Nat}
    (h : mine o block fn sn fuel1 fuel2 = MineOutcome.delivered b) :
    ∃ firstNonce secondNonce : Nat, ∃ beta difficulty : Int,
      searchLuck o block.header fuel1 fn = some firstNonce ∧
      calcBeta (calcLuck o block.header firstNonce) block.header.Basis = some beta ∧
      calcDifficulty { block.header with Lucky := calcLuck o block.header firstNonce,
                                         FirstNonce := firstNonce,
                                         DifficultyBeta := beta } = some difficulty ∧
      searchBlock o { block.header with Lucky := calcLuck o block.header firstNonce,
                                        FirstNonce := firstNonce,
                                        DifficultyBeta := beta,
                                        Difficulty := difficulty } fuel2 sn = some secondNonce ∧
      b = { block with header :=
              { block.header with Lucky := calcLuck o block.header firstNonce,
                                  FirstNonce := firstNonce,
                                  DifficultyBeta := beta,
                                  Difficulty := difficulty,
                                  SecondNonce := secondNonce } } := by
  unfold mine at h
  dsimp only at h
  cases h1 : searchLuck o block.header fuel1 fn with
  | none => rw [h1] at h; cases h
  | some firstNonce =>
    rw [h1] at h
    dsimp only at h
    cases h2 : calcBeta (calcLuck o block.header firstNonce) block.header.Basis with
    | none => rw [h2] at h; cases h
    | some beta =>
      rw [h2] at h
      dsimp only at h
      cases h3 : calcDifficulty { block.header with Lucky := calcLuck o block.header firstNonce,
                                                    FirstNonce := firstNonce,
                                                    DifficultyBeta := beta } with
      | none => rw [h3] at h; cases h
      | some difficulty =>
        rw [h3] at h
        dsimp only at h
        cases h4 : searchBlock o { block.header with
                                    Lucky := calcLuck o block.header firstNonce,
                                    FirstNonce := firstNonce,
                                    DifficultyBeta := beta,
                                    Difficulty := difficulty } fuel2 sn with
        | none => rw [h4] at h; cases h
        | some secondNonce =>
          rw [h4] at h
          dsimp only at h
          refine ⟨firstNonce, secondNonce, beta, difficulty, rfl, h2, h3, h4, ?_⟩
          exact (MineOutcome.delivered.inj h).symm

/-- The seal fields of a delivered header satisfy the five seal conditions. -/
theorem mine_delivered_seal {o : Oracle} {block b : Block} {fn sn fuel1 fuel2 : Nat}
    (h : mine o block fn sn fuel1 fuel2 = MineOutcome.delivered b) :
    SealLuck o b.header b.header.FirstNonce < b.header.DifficultyAlpha ∧
    b.header.Lucky = calcLuck o b.header b.header.FirstNonce ∧
    calcBeta b.header.Lucky b.header.Basis = some b.header.DifficultyBeta ∧
    calcDifficulty b.header = some b.header.Difficulty ∧
    SealBlock o b.header b.header.SecondNonce < b.header.DifficultyBeta := by
  obtain ⟨firstNonce, secondNonce, beta, difficulty, h1, h2, h3, h4, rfl⟩ :=
    mine_delivered_shape h
  have e1 := searchLuck_some h1
  have e4 := searchBlock_some h4
  exact ⟨e1, rfl, h2, h3, e4⟩

/-- The five seal conditions make the seal verifier return no error. -/
theorem VerifySeal_ok_of_checks {o : Oracle} (chain : ChainReader) {h : Header}
    (h1 : SealLuck o h h.FirstNonce < h.DifficultyAlpha)
    (h2 : calcBeta h.Lucky h.Basis = some h.DifficultyBeta)
    (h3 : calcLuck o h h.FirstNonce = h.Lucky)
    (h4 : SealBlock o h h.SecondNonce < h.DifficultyBeta)
    (h5 : calcDifficulty h = some h.Difficulty) :
    VerifySeal o chain h = Outcome.ok := by
  have h1c : ¬ SealLuck o h h.FirstNonce ≥ h.DifficultyAlpha := by omega
  have h4c : ¬ SealBlock o h h.SecondNonce ≥ h.DifficultyBeta := by omega
  have h2c : ¬ h.DifficultyBeta ≠ h.DifficultyBeta := fun hc => hc rfl
  have h3c : ¬ calcLuck o h h.FirstNonce ≠ h.Lucky := fun hc => hc h3
  have h5c : ¬ h.Difficulty ≠ h.Difficulty := fun hc => hc rfl
  unfold VerifySeal
  dsimp only
  rw [if_neg h1c, h2]
  dsimp only
  rw [if_neg h2c, if_neg h3c, if_neg h4c, h5]
  dsimp only
  rw [if_neg h5c]

/-- A delivered header passes the seal verifier. -/
theorem mine_delivered_VerifySeal {o : Oracle} (chain : ChainReader) {block b : Block}
    {fn sn fuel1 fuel2 : Nat} (h : mine o block fn sn fuel1 fuel2 = MineOutcome.delivered b) :
    VerifySeal o chain b.header = Outcome.ok := by
  obtain ⟨h1, h2, h3, h4, h5⟩ := mine_delivered_seal h
  exact VerifySeal_ok_of_checks chain h1 h3 h2.symm h5 h4

set_option maxRecDepth 100000 in
/-- C17 (as stated, refuted): not every header that `mine` delivers is accepted by
`VerifyHeader` with the seal check. Under `zeroOracle` the miner delivers `sealedChild` for the
block of `validChild`, and a chain that does not know the parent answers `UnknownAncestor`;
and for the block of `unpreparedChild`, whose basis and first-stage target do not come from
`Prepare`, the miner delivers a header that `VerifyHeader` rejects with `Inconsistence` on a
chain that knows the parent. -/
theorem mine_delivered_not_always_accepted :
    (mine zeroOracle ⟨validChild, []⟩ 0 0 1 1 = MineOutcome.delivered ⟨sealedChild, []⟩ ∧
      VerifyHeader sampleParams zeroOracle emptyChain 2000 sealedChild true =
        Outcome.err Err.UnknownAncestor) ∧
    (mine zeroOracle ⟨unpreparedChild, []⟩ 0 0 1 1 =
        MineOutcome.delivered
          ⟨{ unpreparedChild with Lucky := 0, FirstNonce := 1, DifficultyBeta := 7,
                                  Difficulty := 0, SecondNonce := 1 }, []⟩ ∧
      VerifyHeader sampleParams zeroOracle sampleChain 2000
        { unpreparedChild with Lucky := 0, FirstNonce := 1, DifficultyBeta := 7,
                               Difficulty := 0, SecondNonce := 1 } true =
        Outcome.err Err.Inconsistence) := by
  decide

/-- C17 (amended): verifier/miner loop closure for prepared blocks: for every block whose
header has its parent in the chain and passes `verifyHeader` against it without the seal
check, and for every pair of seed nonces, every header that `mine` delivers is accepted by
`VerifyHeader` with the seal check. -/
theorem mine_delivered_accepted (p : Params) (o : Oracle) (chain : ChainReader) (now : Nat)
    (block b : Block) (parent : Header) (fn sn fuel1 fuel2 : Nat)
    (hp : chain.GetHeader block.header.ParentHash (subU64 (toUint64 block.header.Number) 1) =
      some parent)
    (hv : verifyHeader p o chain now block.header parent false false = Outcome.ok)
    (hm : mine o block fn sn fuel1 fuel2 = MineOutcome.delivered b) :
    VerifyHeader p o chain now b.header true = Outcome.ok := by
  have hseal := mine_delivered_VerifySeal chain hm
  obtain ⟨firstNonce, secondNonce, beta, difficulty, _, _, _, _, rfl⟩ :=
    mine_delivered_shape hm
  have hpre := (verifyHeader_ok_iff p o chain now block.header parent false false).mp hv
  obtain ⟨c1, c2, c3, c4, c5, c6, c7, c8, c9, c10, _⟩ := hpre
  unfold VerifyHeader
  dsimp only
  split
  · rfl
  · rw [hp]
    dsimp only
    exact (verifyHeader_ok_iff p o chain now _ parent false true).mpr
      ⟨c1, c2, c3, c4, c5, c6, c7, c8, c9, c10, fun _ => hseal⟩

set_option maxRecDepth 100000 in
/-- Witness of C17 (amended): the block of `validChild` on `sampleChain`, seeds 0 and 0. -/
theorem mine_delivered_accepted_witness :
    mine zeroOracle ⟨validChild, []⟩ 0 0 1 1 = MineOutcome.delivered ⟨sealedChild, []⟩ ∧
    VerifyHeader sampleParams zeroOracle sampleChain 2000 sealedChild true = Outcome.ok :=
  ⟨by decide,
   mine_delivered_accepted sampleParams zeroOracle sampleChain 2000 ⟨validChild, []⟩
     ⟨sealedChild, []⟩ validParent 0 0 1 1 (by decide) (by decide) (by decide)⟩

/-- C18: every header that `mine` delivers passes `VerifySeal`: its `FirstNonce` satisfies
`SealLuck < DifficultyAlpha`, its `Lucky` equals `calcLuck(header, FirstNonce)`, its
`DifficultyBeta` equals `calcBeta(Lucky, Basis)`, its `Difficulty` equals
`calcDifficulty(header)`, and its `SecondNonce` satisfies `SealBlock < DifficultyBeta`, where
`SealBlock` is evaluated on the delivered header, with its final `Basis`, `Lucky`,
`DifficultyAlpha` and `DifficultyBeta`. -/
theorem mine_delivered_passes_VerifySeal (o : Oracle) (chain : ChainReader) (block b : Block)
    (fn sn fuel1 fuel2 : Nat)
    (h : mine o block fn sn fuel1 fuel2 = MineOutcome.delivered b) :
    VerifySeal o chain b.header = Outcome.ok ∧
    SealLuck o b.header b.header.FirstNonce < b.header.DifficultyAlpha ∧
    b.header.Lucky = calcLuck o b.header b.header.FirstNonce ∧
    calcBeta b.header.Lucky b.header.Basis = some b.header.DifficultyBeta ∧
    calcDifficulty b.header = some b.header.Difficulty ∧
    SealBlock o b.header b.header.SecondNonce < b.header.DifficultyBeta :=
  ⟨mine_delivered_VerifySeal chain h, mine_delivered_seal h⟩

set_option maxRecDepth 100000 in
/-- Witness of C18: under `zeroOracle` the miner delivers `sealedChild` for the block of
`validChild` from the seeds 0 and 0, and `sealedChild` passes `VerifySeal`. -/
theorem mine_delivered_passes_VerifySeal_witness :
    mine zeroOracle ⟨validChild, []⟩ 0 0 1 1 = MineOutcome.delivered ⟨sealedChild, []⟩ ∧
    VerifySeal zeroOracle sampleChain sealedChild = Outcome.ok :=
  ⟨by decide,
   (mine_delivered_passes_VerifySeal zeroOracle sampleChain ⟨validChild, []⟩
     ⟨sealedChild, []⟩ 0 0 1 1 (by decide)).1⟩

/-! ## Batch verification: claim C20 -/

/-- The header verifier does not read the chain. -/
theorem verifyHeader_chain_irrelevant (p : Params) (o : Oracle) (chain chain2 : ChainReader)
    (now : Nat) (header parent : Header) (uncle sealCheck : Bool) :
    verifyHeader p o chain2 now header parent uncle sealCheck =
      verifyHeader p o chain now header parent uncle sealCheck := rfl

/-- A `uint64` differs from its predecessor modulo `2 ^ 64`. -/
theorem toUint64_ne_pred (n : Nat) : toUint64 n ≠ subU64 (toUint64 n) 1 := by
  unfold toUint64 subU64
  norm_num
  omega

/-- C20: in batch verification, `verifyHeaderWorker` at index 0 takes as parent the chain's
header for `(headers[0].ParentHash, headers[0].Number - 1)`; at index `i > 0` it takes
`headers[i-1]` exactly when `Hash(headers[i-1]) = headers[i].ParentHash`, and its result does
not depend on what the chain holds for the parent; when no parent is resolved the result is
`UnknownAncestor`. With a parent resolved, the result is `nil` for a header the chain knows and
otherwise that of `verifyHeader` against the parent. -/
theorem verifyHeaderWorker_parent (p : Params) (o : Oracle) (chain : ChainReader) (now : Nat)
    (headers : List Header) (seals : List Bool) (index : Nat) (header : Header)
    (sealCheck : Bool) (hh : headers[index]? = some header)
    (hs : seals[index]? = some sealCheck) :
    (index = 0 →
      verifyHeaderWorker p o chain now headers seals index =
        match chain.GetHeader header.ParentHash (subU64 (toUint64 header.Number) 1) with
        | none => Outcome.err Err.UnknownAncestor
        | some parent =>
          if (chain.GetHeader (o.HeaderHash header) (toUint64 header.Number)).isSome then
            Outcome.ok
          else verifyHeader p o chain now header parent false sealCheck) ∧
    (∀ before : Header, 0 < index → headers[index - 1]? = some before →
      verifyHeaderWorker p o chain now headers seals index =
        if o.HeaderHash before = header.ParentHash then
          if (chain.GetHeader (o.HeaderHash header) (toUint64 header.Number)).isSome then
            Outcome.ok
          else verifyHeader p o chain now header before false sealCheck
        else Outcome.err Err.UnknownAncestor) ∧
    (∀ chain2 : ChainReader, 0 < index →
      (∀ (hash : Hash) (number : Nat),
        (hash, number) ≠ (header.ParentHash, subU64 (toUint64 header.Number) 1) →
        chain2.GetHeader hash number = chain.GetHeader hash number) →
      verifyHeaderWorker p o chain2 now headers seals index =
        verifyHeaderWorker p o chain now headers seals index) := by
  refine ⟨fun h0 => ?_, fun before hpos hb => ?_, fun chain2 hpos hagree => ?_⟩
  · subst h0
    unfold verifyHeaderWorker workerParent
    rw [if_pos rfl, hh]
    dsimp only
    cases chain.GetHeader header.ParentHash (subU64 (toUint64 header.Number) 1) with
    | none => rfl
    | some parent =>
      dsimp only
      rw [hs]
  · unfold verifyHeaderWorker workerParent
    rw [if_neg (by omega), hb, hh]
    dsimp only
    by_cases hm : o.HeaderHash before = header.ParentHash
    · rw [if_pos hm, if_pos hm]
      dsimp only
      rw [hs]
    · rw [if_neg hm, if_neg hm]
  · have hk : chain2.GetHeader (o.HeaderHash header) (toUint64 header.Number) =
        chain.GetHeader (o.HeaderHash header) (toUint64 header.Number) :=
      hagree _ _ (fun hc => toUint64_ne_pred header.Number (congrArg Prod.snd hc))
    unfold verifyHeaderWorker workerParent
    rw [if_neg (by omega), if_neg (by omega), hh]
    dsimp only
    rw [hk]
    rfl

set_option maxRecDepth 100000 in
/-- Witness of C20: in the slice `[validChild, validChild]` the second header names the parent
hash `[1]`, which `sampleChain` knows at height 0, but the hash of the element before it is
`[1, 1020]`: the worker at index 1 returns `UnknownAncestor`; at index 0 the worker takes the
chain's header for `([1], 0)` and accepts. -/
theorem verifyHeaderWorker_parent_witness :
    sampleChain.GetHeader validChild.ParentHash (subU64 (toUint64 validChild.Number) 1) =
      some validParent ∧
    verifyHeaderWorker sampleParams zeroOracle sampleChain 2000 [validChild, validChild]
      [false, false] 1 = Outcome.err Err.UnknownAncestor ∧
    verifyHeaderWorker sampleParams zeroOracle sampleChain 2000 [validChild, validChild]
      [false, false] 0 = Outcome.ok := by
  have h := verifyHeaderWorker_parent sampleParams zeroOracle sampleChain 2000
    [validChild, validChild] [false, false] 1 validChild false rfl rfl
  have h0 := verifyHeaderWorker_parent sampleParams zeroOracle sampleChain 2000
    [validChild, validChild] [false, false] 0 validChild false rfl rfl
  refine ⟨by decide, ?_, ?_⟩
  · rw [h.2.1 validChild (by decide) rfl]
    decide
  · rw [h0.1 rfl]
    decide

/-! ## Retarget, determinism and bounds: claims C23 to C26 -/

/-- Above height 1 the result of `calcParam` is a function of the parent's basis, first-stage
target, second-stage target and timestamp and of the new timestamp. -/
theorem calcParam_congr {chain1 chain2 : ChainReader} {n1 n2 time : Nat} {p1 p2 : Header}
    (hn1 : 1 < n1) (hn2 : 1 < n2) (hB : p1.Basis = p2.Basis)
    (hA : p1.DifficultyAlpha = p2.DifficultyAlpha) (hD : p1.DifficultyBeta = p2.DifficultyBeta)
    (hT : p1.Time = p2.Time) :
    calcParam chain1 n1 time p1 = calcParam chain2 n2 time p2 := by
  unfold calcParam
  rw [if_neg (show ¬ n1 ≤ 1 by omega), if_neg (show ¬ n2 ≤ 1 by omega), hB, hA, hD, hT]

/-- Above height 1 the first-stage target returned by `calcParam` is the parent's, scaled by
`110/100` when the `uint64` time difference exceeds 20 and by `90/100` otherwise. -/
theorem calcParam_alpha {chain : ChainReader} {number : Nat} (time : Nat) (parent : Header)
    (hn : 1 < number) :
    (calcParam chain number time parent).2 =
      if subU64 time parent.Time > 20 then Int.ediv (parent.DifficultyAlpha * 110) 100
      else Int.ediv (parent.DifficultyAlpha * 90) 100 := by
  unfold calcParam
  rw [if_neg (by omega)]
  dsimp only
  by_cases ht : subU64 time parent.Time > 20
  · rw [if_pos ht, if_pos ht]
  · rw [if_neg ht, if_neg ht]

set_option maxRecDepth 100000 in
/-- C23 (as stated, refuted): two invocations of `calcParam` that agree on the parent's basis,
targets and timestamp and on the new timestamp can return different pairs when the block
numbers differ: for the scenario parent and `Time = 125`, block number 1 gives the initial
pair `(2 ^ 186 - 1, 2 ^ 190 - 1)` and block number 2 gives `(115500, 220000)`. -/
theorem calcParam_depends_on_number :
    calcParam emptyChain 1 125 scenarioParent = (2 ^ 186 - 1, 2 ^ 190 - 1) ∧
    calcParam emptyChain 2 125 scenarioParent = (115500, 220000) ∧
    calcParam emptyChain 1 125 scenarioParent ≠ calcParam emptyChain 2 125 scenarioParent := by
  decide

/-- C23 (amended): determinism of retarget: any two invocations of `calcParam` whose inputs
agree on `parent.Basis`, `parent.DifficultyAlpha`, `parent.DifficultyBeta`, `parent.Time`, the
new `Time`, and on whether the block number is at most 1, return equal pairs, whatever the
chains, the block numbers otherwise and the other parent fields are. -/
theorem calcParam_deterministic (chain1 chain2 : ChainReader) (n1 n2 time1 time2 : Nat)
    (p1 p2 : Header) (hn : n1 ≤ 1 ↔ n2 ≤ 1) (hB : p1.Basis = p2.Basis)
    (hA : p1.DifficultyAlpha = p2.DifficultyAlpha) (hD : p1.DifficultyBeta = p2.DifficultyBeta)
    (hT : p1.Time = p2.Time) (ht : time1 = time2) :
    calcParam chain1 n1 time1 p1 = calcParam chain2 n2 time2 p2 := by
  subst ht
  by_cases h1 : n1 ≤ 1
  · have h2 : n2 ≤ 1 := hn.mp h1
    unfold calcParam
    rw [if_pos h1, if_pos h2]
  · have h2 : ¬ n2 ≤ 1 := fun h => h1 (hn.mpr h)
    exact calcParam_congr (by omega) (by omega) hB hA hD hT

/-- Witness of C23 (amended): block numbers 2 and 9, the scenario parent and a parent that
differs from it in its height and gas limit. -/
theorem calcParam_deterministic_witness :
    calcParam emptyChain 2 125 scenarioParent =
      calcParam genesisChain 9 125 { scenarioParent with Number := 8, GasLimit := 5 } :=
  calcParam_deterministic emptyChain genesisChain 2 9 125 125 scenarioParent
    { scenarioParent with Number := 8, GasLimit := 5 } (by decide) rfl rfl rfl rfl rfl

/-- C24: for `Number > 1` the alpha returned by `calcParam` depends only on
`parent.DifficultyAlpha` and on whether the time difference (the `uint64` difference
`Time - parent.Time` of the code) exceeds 20: two parents with the same `DifficultyAlpha` and
`Time`, in particular two parents that differ only in `Basis` and `DifficultyBeta`, give the
same alpha, namely `parent.DifficultyAlpha * 110 / 100` (slow) or
`parent.DifficultyAlpha * 90 / 100` (fast). -/
theorem calcParam_alpha_independent (chain1 chain2 : ChainReader) (n1 n2 time : Nat)
    (p1 p2 : Header) (hn1 : 1 < n1) (hn2 : 1 < n2)
    (hA : p1.DifficultyAlpha = p2.DifficultyAlpha) (hT : p1.Time = p2.Time) :
    (calcParam chain1 n1 time p1).2 = (calcParam chain2 n2 time p2).2 ∧
    (calcParam chain1 n1 time p1).2 =
      (if subU64 time p1.Time > 20 then Int.fdiv (p1.DifficultyAlpha * 110) 100
       else Int.fdiv (p1.DifficultyAlpha * 90) 100) ∧
    (p1.Time ≤ time → time < 2 ^ 64 → (subU64 time p1.Time > 20 ↔ time - p1.Time > 20)) := by
  have h100 : (0 : Int) ≤ 100 := by decide
  refine ⟨?_, ?_, fun hle hr => ?_⟩
  · rw [calcParam_alpha time p1 hn1, calcParam_alpha time p2 hn2, hA, hT]
  · rw [calcParam_alpha time p1 hn1, fdiv_eq_ediv_of_nonneg _ h100,
      fdiv_eq_ediv_of_nonneg _ h100]
  · rw [subU64_of_le hle hr]

set_option maxRecDepth 100000 in
/-- Witness of C24: the scenario parent and a parent with another basis and another second-stage
target, at `Time = 125` (slow) where alpha is `220000`. -/
theorem calcParam_alpha_independent_witness :
    (calcParam emptyChain 2 125 scenarioParent).2 =
      (calcParam emptyChain 2 125 { scenarioParent with Basis := 1, DifficultyBeta := 9 }).2 ∧
    (calcParam emptyChain 2 125 scenarioParent).2 = 220000 := by
  have h := calcParam_alpha_independent emptyChain emptyChain 2 2 125 scenarioParent
    { scenarioParent with Basis := 1, DifficultyBeta := 9 } (by decide) (by decide) rfl rfl
  exact ⟨h.1, by decide⟩

set_option maxRecDepth 100000 in
/-- C25 (as stated, refuted): the result of `calcParam` is not bounded by `2 ^ 256`: for a
parent with `Basis = DifficultyAlpha = 2 ^ 256 - 1` and `DifficultyBeta = 0` and a child at
height 2 that comes 25 seconds later, both components are at least `2 ^ 256`. -/
theorem calcParam_exceeds_256_bits :
    2 ^ 256 ≤ (calcParam emptyChain 2 125
      { scenarioParent with Basis := 2 ^ 256 - 1, DifficultyAlpha := 2 ^ 256 - 1,
                            DifficultyBeta := 0 }).1 ∧
    2 ^ 256 ≤ (calcParam emptyChain 2 125
      { scenarioParent with Basis := 2 ^ 256 - 1, DifficultyAlpha := 2 ^ 256 - 1,
                            DifficultyBeta := 0 }).2 := by
  decide

set_option maxRecDepth 100000 in
/-- C25 (amended): for every parent whose `Basis`, `DifficultyAlpha` and `DifficultyBeta` are
non-negative and every `Time` and `Number`, both components of the result of `calcParam` are
non-negative; they are below `2 ^ 256` whenever `parent.Basis` and `parent.DifficultyAlpha`
are below `2 ^ 255`. -/
theorem calcParam_bounds (chain : ChainReader) (number time : Nat) (parent : Header)
    (hB : 0 ≤ parent.Basis) (hA : 0 ≤ parent.DifficultyAlpha)
    (_hD : 0 ≤ parent.DifficultyBeta) :
    (0 ≤ (calcParam chain number time parent).1 ∧ 0 ≤ (calcParam chain number time parent).2) ∧
    (parent.Basis < 2 ^ 255 → parent.DifficultyAlpha < 2 ^ 255 →
      (calcParam chain number time parent).1 < 2 ^ 256 ∧
      (calcParam chain number time parent).2 < 2 ^ 256) := by
  unfold calcParam
  by_cases hn : number ≤ 1
  · rw [if_pos hn]
    exact ⟨by decide, fun _ _ => by decide⟩
  · rw [if_neg hn]
    dsimp only
    by_cases hr : parent.DifficultyAlpha < Int.ediv parent.DifficultyBeta 5
    · rw [if_pos hr]
      by_cases ht : subU64 time parent.Time > 20
      · rw [if_pos ht]
        show (0 ≤ parent.Basis * 96 / 100 * 110 / 100 ∧ 0 ≤ parent.DifficultyAlpha * 110 / 100) ∧
          (parent.Basis < 2 ^ 255 → parent.DifficultyAlpha < 2 ^ 255 →
            parent.Basis * 96 / 100 * 110 / 100 < 2 ^ 256 ∧
            parent.DifficultyAlpha * 110 / 100 < 2 ^ 256)
        norm_num
        omega
      · rw [if_neg ht]
        show (0 ≤ parent.Basis * 96 / 100 * 90 / 100 ∧ 0 ≤ parent.DifficultyAlpha * 90 / 100) ∧
          (parent.Basis < 2 ^ 255 → parent.DifficultyAlpha < 2 ^ 255 →
            parent.Basis * 96 / 100 * 90 / 100 < 2 ^ 256 ∧
            parent.DifficultyAlpha * 90 / 100 < 2 ^ 256)
        norm_num
        omega
    · rw [if_neg hr]
      by_cases ht : subU64 time parent.Time > 20
      · rw [if_pos ht]
        show (0 ≤ parent.Basis * 105 / 100 * 110 / 100 ∧
            0 ≤ parent.DifficultyAlpha * 110 / 100) ∧
          (parent.Basis < 2 ^ 255 → parent.DifficultyAlpha < 2 ^ 255 →
            parent.Basis * 105 / 100 * 110 / 100 < 2 ^ 256 ∧
            parent.DifficultyAlpha * 110 / 100 < 2 ^ 256)
        norm_num
        omega
      · rw [if_neg ht]
        show (0 ≤ parent.Basis * 105 / 100 * 90 / 100 ∧ 0 ≤ parent.DifficultyAlpha * 90 / 100) ∧
          (parent.Basis < 2 ^ 255 → parent.DifficultyAlpha < 2 ^ 255 →
            parent.Basis * 105 / 100 * 90 / 100 < 2 ^ 256 ∧
            parent.DifficultyAlpha * 90 / 100 < 2 ^ 256)
        norm_num
        omega

set_option maxRecDepth 100000 in
/-- Witness of C25 (amended): the scenario parent and a child at height 2 with `Time = 125`. -/
theorem calcParam_bounds_witness :
    (0 ≤ (calcParam emptyChain 2 125 scenarioParent).1 ∧
      0 ≤ (calcParam emptyChain 2 125 scenarioParent).2) ∧
    (calcParam emptyChain 2 125 scenarioParent).1 < 2 ^ 256 ∧
    (calcParam emptyChain 2 125 scenarioParent).2 < 2 ^ 256 := by
  have h := calcParam_bounds emptyChain 2 125 scenarioParent (by decide) (by decide)
    (by decide)
  exact ⟨h.1, h.2 (by decide) (by decide)⟩

/-- C26: `Prepare`, when the chain has the parent for `(ParentHash, Number - 1)`, returns no
error, sets `header.Basis` and `header.DifficultyAlpha` to `calcParam(Number, Time, parent)` and
leaves every other header field unchanged; when the parent is absent it returns
`UnknownAncestor` and leaves the whole header unchanged. -/
theorem Prepare_frame (chain : ChainReader) (header : Header) :
    (∀ parent : Header,
      chain.GetHeader header.ParentHash (subU64 (toUint64 header.Number) 1) = some parent →
      Prepare chain header =
        ({ header with
            Basis := (calcParam chain (toUint64 header.Number) header.Time parent).1,
            DifficultyAlpha :=
              (calcParam chain (toUint64 header.Number) header.Time parent).2 }, none)) ∧
    (chain.GetHeader header.ParentHash (subU64 (toUint64 header.Number) 1) = none →
      Prepare chain header = (header, some Err.UnknownAncestor)) := by
  refine ⟨fun parent hp => ?_, fun hp => ?_⟩
  · unfold Prepare
    rw [hp]
  · unfold Prepare
    rw [hp]

set_option maxRecDepth 100000 in
/-- Witness of C26: on `sampleChain` the header `unpreparedChild` gets the initial pair and
keeps its other fields; on `emptyChain` it is returned unchanged with `UnknownAncestor`. -/
theorem Prepare_frame_witness :
    Prepare sampleChain unpreparedChild = (validChild, none) ∧
    Prepare emptyChain unpreparedChild = (unpreparedChild, some Err.UnknownAncestor) := by
  have h1 := (Prepare_frame sampleChain unpreparedChild).1 validParent (by decide)
  have h2 := (Prepare_frame emptyChain unpreparedChild).2 (by decide)
  exact ⟨by rw [h1]; decide, h2⟩

/-! ## Hash roles: claims C27, C28 and C30 -/

/-- C27: `SealHash(h)` is a function of the twelve fields `ParentHash`, `UncleHash`, `Coinbase`,
`Root`, `TxHash`, `ReceiptHash`, `Bloom`, `Number`, `GasLimit`, `GasUsed`, `Time`, `Extra`,
encoded in that order: two headers that agree on these fields have equal `SealHash` whatever
their `FirstNonce`, `SecondNonce`, `Basis`, `Lucky`, `DifficultyAlpha`, `DifficultyBeta` and
`Difficulty`; consequently the header delivered by `mine` has the same `SealHash` as the
header of the block it was given. -/
theorem SealHash_fields (keccak256 : Bytes → Hash) (o : Oracle) (h1 h2 : Header) :
    sealHashFields h1 =
      [RlpItem.bytes h1.ParentHash, RlpItem.bytes h1.UncleHash, RlpItem.bytes h1.Coinbase,
       RlpItem.bytes h1.Root, RlpItem.bytes h1.TxHash, RlpItem.bytes h1.ReceiptHash,
       RlpItem.bytes h1.Bloom, RlpItem.big h1.Number, RlpItem.uint h1.GasLimit,
       RlpItem.uint h1.GasUsed, RlpItem.uint h1.Time, RlpItem.bytes h1.Extra] ∧
    SealHash keccak256 o h1 = keccak256 (o.rlpEncode (sealHashFields h1)) ∧
    (h1.ParentHash = h2.ParentHash → h1.UncleHash = h2.UncleHash → h1.Coinbase = h2.Coinbase →
      h1.Root = h2.Root → h1.TxHash = h2.TxHash → h1.ReceiptHash = h2.ReceiptHash →
      h1.Bloom = h2.Bloom → h1.Number = h2.Number → h1.GasLimit = h2.GasLimit →
      h1.GasUsed = h2.GasUsed → h1.Time = h2.Time → h1.Extra = h2.Extra →
      SealHash keccak256 o h1 = SealHash keccak256 o h2) ∧
    (∀ (block b : Block) (fn sn fuel1 fuel2 : Nat),
      mine o block fn sn fuel1 fuel2 = MineOutcome.delivered b →
      SealHash keccak256 o b.header = SealHash keccak256 o block.header) := by
  refine ⟨rfl, rfl, ?_, ?_⟩
  · intro e1 e2 e3 e4 e5 e6 e7 e8 e9 e10 e11 e12
    unfold SealHash sealHashFields
    rw [e1, e2, e3, e4, e5, e6, e7, e8, e9, e10, e11, e12]
  · intro block b fn sn fuel1 fuel2 hm
    obtain ⟨firstNonce, secondNonce, beta, difficulty, _, _, _, _, rfl⟩ :=
      mine_delivered_shape hm
    rfl

set_option maxRecDepth 100000 in
/-- Witness of C27: `validChild` and the header `sealedChild` that the miner delivers for it
agree on the twelve fields and have the same seal hash, for a digest that returns its input. -/
theorem SealHash_fields_witness :
    mine zeroOracle ⟨validChild, []⟩ 0 0 1 1 = MineOutcome.delivered ⟨sealedChild, []⟩ ∧
    SealHash (fun bs => bs) zeroOracle sealedChild =
      SealHash (fun bs => bs) zeroOracle validChild :=
  ⟨by decide,
   (SealHash_fields (fun bs => bs) zeroOracle sealedChild validChild).2.2.1
     rfl rfl rfl rfl rfl rfl rfl rfl rfl rfl rfl rfl⟩

/-- C28: for every header with a 32-byte `ParentHash`, the salt passed to the hash by `SealLuck`
and by `SealBlock` is the last 10 bytes of `ParentHash` (bytes 22 to 31) and the salt passed
by `calcLuck` is the last 12 bytes (bytes 20 to 31); the encoded field lists are
`[ParentHash, Coinbase, Time, n]` for `SealLuck`, `[ParentHash, Coinbase, Time, Number, n]` for
`calcLuck` and the 17-element list ending in `n` for `SealBlock`, in exactly that order. -/
theorem hash_roles_salt_and_fields (o : Oracle) (h : Header) (n : Nat)
    (hlen : h.ParentHash.length = 32) :
    (SealLuck o h n =
      Int.ediv (setBytes (o.Argon2Hash
        (o.rlpEncode [RlpItem.bytes h.ParentHash, RlpItem.bytes h.Coinbase, RlpItem.uint h.Time,
          RlpItem.uint n])
        (h.ParentHash.drop (h.ParentHash.length - 10)))) HashScale ∧
      (h.ParentHash.drop (h.ParentHash.length - 10)).length = 10 ∧
      h.ParentHash.drop (h.ParentHash.length - 10) = h.ParentHash.drop 22) ∧
    (calcLuck o h n =
      Int.emod (setBytes (o.Argon2Hash
        (o.rlpEncode [RlpItem.bytes h.ParentHash, RlpItem.bytes h.Coinbase, RlpItem.uint h.Time,
          RlpItem.big h.Number, RlpItem.uint n])
        (h.ParentHash.drop (h.ParentHash.length - 12)))) maxLuck ∧
      (h.ParentHash.drop (h.ParentHash.length - 12)).length = 12 ∧
      h.ParentHash.drop (h.ParentHash.length - 12) = h.ParentHash.drop 20) ∧
    (SealBlock o h n =
      Int.ediv (setBytes (o.Argon2Hash
        (o.rlpEncode [RlpItem.bytes h.ParentHash, RlpItem.bytes h.UncleHash,
          RlpItem.bytes h.Coinbase, RlpItem.bytes h.Root, RlpItem.bytes h.TxHash,
          RlpItem.bytes h.ReceiptHash, RlpItem.bytes h.Bloom, RlpItem.big h.Number,
          RlpItem.uint h.GasLimit, RlpItem.uint h.GasUsed, RlpItem.uint h.Time,
          RlpItem.bytes h.Extra, RlpItem.big h.Basis, RlpItem.big h.Lucky,
          RlpItem.big h.DifficultyAlpha, RlpItem.big h.DifficultyBeta, RlpItem.uint n])
        (h.ParentHash.drop (h.ParentHash.length - 10)))) HashScale ∧
      (sealBlockFields h n).length = 17) := by
  have e10 : h.ParentHash.length - 10 = 22 := by omega
  have e12 : h.ParentHash.length - 12 = 20 := by omega
  refine ⟨⟨?_, ?_, ?_⟩, ⟨?_, ?_, ?_⟩, ?_, rfl⟩
  · rw [e10]
    rfl
  · rw [List.length_drop]
    omega
  · rw [e10]
  · rw [e12]
    rfl
  · rw [List.length_drop]
    omega
  · rw [e12]
  · rw [e10]
    rfl

/-- Witness of C28: a header whose parent hash is the bytes 0 to 31, under an oracle whose hash
returns its salt: `SealLuck` reads the salt `22, …, 31` and `calcLuck` the salt `20, …, 31`. -/
theorem hash_roles_salt_and_fields_witness :
    ({ zeroHeader with ParentHash := List.range 32 } : Header).ParentHash.drop (32 - 10) =
      [22, 23, 24, 25, 26, 27, 28, 29, 30, 31] ∧
    ({ zeroHeader with ParentHash := List.range 32 } : Header).ParentHash.drop (32 - 12) =
      [20, 21, 22, 23, 24, 25, 26, 27, 28, 29, 30, 31] ∧
    (({ zeroHeader with ParentHash := List.range 32 } : Header).ParentHash.drop
      (({ zeroHeader with ParentHash := List.range 32 } : Header).ParentHash.length - 10)).length
      = 10 :=
  ⟨by decide, by decide,
   (hash_roles_salt_and_fields zeroOracle { zeroHeader with ParentHash := List.range 32 } 0
     (by decide)).1.2.1⟩

/-- The luck value lies in `[0, maxLuck)`. -/
theorem calcLuck_range (o : Oracle) (h : Header) (n : Nat) :
    0 ≤ calcLuck o h n ∧ calcLuck o h n < maxLuck := by
  unfold calcLuck
  exact ⟨Int.emod_nonneg _ (ne_of_gt maxLuck_pos), Int.emod_lt_of_pos _ maxLuck_pos⟩

set_option maxRecDepth 100000 in
/-- The division by `Basis` in `calcDifficulty`, which `mine` calls once `DifficultyBeta` is
set, is not a matter of the luck bound: for a header at height 39200 with `Basis = 0`,
`calcBeta` returns `0` and the run then ends in a run-time fault in `calcDifficulty`. -/
theorem mine_calcDifficulty_fault :
    calcBeta (calcLuck zeroOracle { validChild with Number := 39200, Basis := 0 } 1) 0 = some 0 ∧
    mine zeroOracle ⟨{ validChild with Number := 39200, Basis := 0 }, []⟩ 0 0 1 1 =
      MineOutcome.fault := by
  decide

/-- C30: for every header and nonce, `0 ≤ calcLuck(h, n) < maxLuck = 2 * 10 ^ 8` (the hash
integer reduced modulo `maxLuck`); consequently in the miner the divisor `maxLuck - lucky` of
`calcBeta` is always at least 1 and the lock-in of `DifficultyBeta` never divides by zero:
`calcBeta` returns the value of its two divisions for every basis; once the first search of
`mine` has found a nonce, the run continues with `DifficultyBeta` set to that value; and a run
of `mine` that ends in a fault has found a first nonce and obtained a value from `calcBeta`. -/
theorem calcLuck_bound_and_lock_in (o : Oracle) (h : Header) (n : Nat) :
    (0 ≤ calcLuck o h n ∧ calcLuck o h n < maxLuck ∧ maxLuck = 2 * 10 ^ 8) ∧
    calcLuck o h n =
      setBytes (o.Argon2Hash (o.rlpEncode (calcLuckFields h n)) (h.ParentHash.drop 20)) %
        maxLuck ∧
    1 ≤ maxLuck - calcLuck o h n ∧
    (∀ basis : Int, calcBeta (calcLuck o h n) basis =
      some (basis * maxLuck / (maxLuck - calcLuck o h n) * maxLuck /
        (maxLuck - calcLuck o h n))) ∧
    (∀ (uncles : List Header) (fn sn fuel1 fuel2 firstNonce : Nat),
      searchLuck o h fuel1 fn = some firstNonce →
      mine o ⟨h, uncles⟩ fn sn fuel1 fuel2 =
        match calcDifficulty { h with
            Lucky := calcLuck o h firstNonce,
            FirstNonce := firstNonce,
            DifficultyBeta := h.Basis * maxLuck / (maxLuck - calcLuck o h firstNonce) *
              maxLuck / (maxLuck - calcLuck o h firstNonce) } with
        | none => MineOutcome.fault
        | some difficulty =>
          match searchBlock o { h with
              Lucky := calcLuck o h firstNonce,
              FirstNonce := firstNonce,
              DifficultyBeta := h.Basis * maxLuck / (maxLuck - calcLuck o h firstNonce) *
                maxLuck / (maxLuck - calcLuck o h firstNonce),
              Difficulty := difficulty } fuel2 sn with
          | none => MineOutcome.aborted
          | some secondNonce =>
            MineOutcome.delivered ⟨{ h with
              Lucky := calcLuck o h firstNonce,
              FirstNonce := firstNonce,
              DifficultyBeta := h.Basis * maxLuck / (maxLuck - calcLuck o h firstNonce) *
                maxLuck / (maxLuck - calcLuck o h firstNonce),
              Difficulty := difficulty,
              SecondNonce := secondNonce }, uncles⟩) ∧
    (∀ (uncles : List Header) (fn sn fuel1 fuel2 : Nat),
      mine o ⟨h, uncles⟩ fn sn fuel1 fuel2 = MineOutcome.fault →
      ∃ (firstNonce : Nat) (beta : Int), searchLuck o h fuel1 fn = some firstNonce ∧
        1 ≤ maxLuck - calcLuck o h firstNonce ∧
        calcBeta (calcLuck o h firstNonce) h.Basis = some beta) := by
  obtain ⟨h0, h1⟩ := calcLuck_range o h n
  refine ⟨⟨h0, h1, rfl⟩, rfl, by omega, fun basis => calcBeta_of_ne basis (by omega), ?_, ?_⟩
  · intro uncles fn sn fuel1 fuel2 firstNonce hs
    have hr := calcLuck_range o h firstNonce
    unfold mine
    dsimp only
    rw [hs]
    dsimp only
    rw [calcBeta_of_ne h.Basis (show maxLuck - calcLuck o h firstNonce ≠ 0 by omega)]
    rfl
  · intro uncles fn sn fuel1 fuel2 hm
    unfold mine at hm
    dsimp only at hm
    cases hs : searchLuck o h fuel1 fn with
    | none => rw [hs] at hm; cases hm
    | some firstNonce =>
      have hr := calcLuck_range o h firstNonce
      exact ⟨firstNonce, _, rfl, by omega,
        calcBeta_of_ne h.Basis (show maxLuck - calcLuck o h firstNonce ≠ 0 by omega)⟩

set_option maxRecDepth 100000 in
/-- Witness of C30: the luck value of `validChild` at nonce 1 under `zeroOracle`, and the run
of `mine` on `validChild` at height 39200 with `Basis = 0`, which faults after `calcBeta` has
returned `0`. -/
theorem calcLuck_bound_and_lock_in_witness :
    (0 ≤ calcLuck zeroOracle validChild 1 ∧ calcLuck zeroOracle validChild 1 < maxLuck ∧
      1 ≤ maxLuck - calcLuck zeroOracle validChild 1) ∧
    ∃ (firstNonce : Nat) (beta : Int),
      searchLuck zeroOracle { validChild with Number := 39200, Basis := 0 } 1 0 =
        some firstNonce ∧
      1 ≤ maxLuck - calcLuck zeroOracle { validChild with Number := 39200, Basis := 0 }
        firstNonce ∧
      calcBeta (calcLuck zeroOracle { validChild with Number := 39200, Basis := 0 } firstNonce)
        ({ validChild with Number := 39200, Basis := 0 } : Header).Basis = some beta :=
  ⟨⟨(calcLuck_bound_and_lock_in zeroOracle validChild 1).1.1,
    (calcLuck_bound_and_lock_in zeroOracle validChild 1).1.2.1,
    (calcLuck_bound_and_lock_in zeroOracle validChild 1).2.2.1⟩,
   (calcLuck_bound_and_lock_in zeroOracle { validChild with Number := 39200, Basis := 0 }
     1).2.2.2.2.2 [] 0 0 1 1 (by decide)⟩

/-! ## Uncle validator: claims C21, C22 and C29 -/

/-- The set of uncle hashes that the ancestor loop returns: the initial set followed by the
uncle hashes of the walked blocks. -/
theorem gatherAncestors_fst (o : Oracle) (chain : ChainReader) (i : Nat) :
    ∀ (parent : Hash) (number : Nat) (uncles : List Hash) (ancestors : Hash → Option Header),
      (gatherAncestors o chain i parent number uncles ancestors).1 =
        uncles ++ uncleHashesOf o (walkedAncestors chain i parent number) := by
  induction i with
  | zero =>
    intro parent number uncles ancestors
    simp [gatherAncestors, walkedAncestors, uncleHashesOf]
  | succ k ih =>
    intro parent number uncles ancestors
    unfold gatherAncestors walkedAncestors
    cases chain.GetBlock parent number with
    | none => simp [uncleHashesOf]
    | some ancestor =>
      dsimp only
      rw [ih, uncleHashesOf, List.append_assoc]

/-- The map that the ancestor loop returns has an entry under a hash exactly when the initial
map has one or the hash is that of a walked block. -/
theorem gatherAncestors_snd_isSome (o : Oracle) (chain : ChainReader) (i : Nat) :
    ∀ (parent : Hash) (number : Nat) (uncles : List Hash) (ancestors : Hash → Option Header)
      (h : Hash),
      ((gatherAncestors o chain i parent number uncles ancestors).2 h).isSome = true ↔
        (ancestors h).isSome = true ∨
          h ∈ (walkedAncestors chain i parent number).map (fun b => o.HeaderHash b.header) := by
  induction i with
  | zero =>
    intro parent number uncles ancestors h
    simp [gatherAncestors, walkedAncestors]
  | succ k ih =>
    intro parent number uncles ancestors h
    unfold gatherAncestors walkedAncestors
    cases chain.GetBlock parent number with
    | none => simp
    | some ancestor =>
      dsimp only
      rw [ih]
      unfold mapSet
      by_cases hk : h = o.HeaderHash ancestor.header
      · simp [hk]
      · simp [hk]

/-- A hash is in the initial set of the uncle loop exactly when it is the hash of an uncle of a
walked ancestor or the hash of the block itself. -/
theorem mem_seenUncles (o : Oracle) (chain : ChainReader) (block : Block) (h : Hash) :
    h ∈ seenUncles o chain block ↔
      h ∈ uncleHashesOf o (sevenAncestors chain block) ∨ h = o.HeaderHash block.header := by
  unfold seenUncles sevenAncestors
  dsimp only
  rw [gatherAncestors_fst]
  simp

/-- The map of the uncle loop has an entry under a hash exactly when it is the hash of the
block itself or of a walked ancestor. -/
theorem ancestorMap_isSome (o : Oracle) (chain : ChainReader) (block : Block) (h : Hash) :
    (ancestorMap o chain block h).isSome = true ↔
      h = o.HeaderHash block.header ∨
        h ∈ (sevenAncestors chain block).map (fun b => o.HeaderHash b.header) := by
  unfold ancestorMap sevenAncestors mapSet
  by_cases hk : h = o.HeaderHash block.header
  · simp [hk]
  · rw [if_neg hk, gatherAncestors_snd_isSome]
    simp [hk]

/-- One round of the uncle loop. -/
theorem verifyUncleLoop_cons (p : Params) (o : Oracle) (chain : ChainReader) (now : Nat)
    (block : Block) (ancestors : Hash → Option Header) (uncles : List Hash) (uncle : Header)
    (rest : List Header) :
    verifyUncleLoop p o chain now block ancestors uncles (uncle :: rest) =
      if o.HeaderHash uncle ∈ uncles then Outcome.err Err.DuplicateUncle
      else if (ancestors (o.HeaderHash uncle)).isSome then Outcome.err Err.UncleIsAncestor
      else
        match ancestors uncle.ParentHash with
        | none => Outcome.err Err.DanglingUncle
        | some parent =>
          if uncle.ParentHash = block.header.ParentHash then Outcome.err Err.DanglingUncle
          else
            match verifyHeader p o chain now uncle parent true true with
            | Outcome.ok =>
              verifyUncleLoop p o chain now block ancestors (uncles ++ [o.HeaderHash uncle]) rest
            | failure => failure := by
  rw [verifyUncleLoop]

/-- A round of the uncle loop that lets the loop end without error: the uncle is new, is not an
ancestor, has a recorded parent other than the block's parent, and passes the header
verifier as an uncle with the seal check; and the rest of the loop ends without error. -/
theorem verifyUncleLoop_cons_ok {p : Params} {o : Oracle} {chain : ChainReader} {now : Nat}
    {block : Block} {ancestors : Hash → Option Header} {uncles : List Hash} {uncle : Header}
    {rest : List Header}
    (h : verifyUncleLoop p o chain now block ancestors uncles (uncle :: rest) = Outcome.ok) :
    o.HeaderHash uncle ∉ uncles ∧
    (ancestors (o.HeaderHash uncle)).isSome = false ∧
    uncle.ParentHash ≠ block.header.ParentHash ∧
    (∃ parent : Header, ancestors uncle.ParentHash = some parent ∧
      verifyHeader p o chain now uncle parent true true = Outcome.ok) ∧
    verifyUncleLoop p o chain now block ancestors (uncles ++ [o.HeaderHash uncle]) rest =
      Outcome.ok := by
  rw [verifyUncleLoop_cons] at h
  by_cases h1 : o.HeaderHash uncle ∈ uncles
  · rw [if_pos h1] at h
    cases h
  rw [if_neg h1] at h
  by_cases h2 : (ancestors (o.HeaderHash uncle)).isSome = true
  · rw [if_pos h2] at h
    cases h
  rw [if_neg h2] at h
  cases h3 : ancestors uncle.ParentHash with
  | none =>
    rw [h3] at h
    cases h
  | some parent =>
    rw [h3] at h
    dsimp only at h
    by_cases h4 : uncle.ParentHash = block.header.ParentHash
    · rw [if_pos h4] at h
      cases h
    rw [if_neg h4] at h
    cases h5 : verifyHeader p o chain now uncle parent true true with
    | ok =>
      rw [h5] at h
      exact ⟨h1, by simpa using h2, h4, ⟨parent, rfl, h5⟩, h⟩
    | err e =>
      rw [h5] at h
      cases h
    | fault =>
      rw [h5] at h
      cases h

/-- When a first part of the uncles passes the loop, the loop over the whole list continues
with the rest, the hashes of the first part having joined the set. -/
theorem verifyUncleLoop_append (p : Params) (o : Oracle) (chain : ChainReader) (now : Nat)
    (block : Block) (ancestors : Hash → Option Header) (pre : List Header) :
    ∀ (uncles : List Hash) (rest : List Header),
      verifyUncleLoop p o chain now block ancestors uncles pre = Outcome.ok →
      verifyUncleLoop p o chain now block ancestors uncles (pre ++ rest) =
        verifyUncleLoop p o chain now block ancestors (uncles ++ pre.map o.HeaderHash) rest := by
  induction pre with
  | nil =>
    intro uncles rest _
    simp
  | cons uncle more ih =>
    intro uncles rest h
    obtain ⟨h1, h2, h4, ⟨parent, h3, h5⟩, h6⟩ := verifyUncleLoop_cons_ok h
    rw [List.cons_append, verifyUncleLoop_cons, if_neg h1, h2, h3]
    dsimp only
    rw [if_neg (by simp), if_neg h4, h5]
    dsimp only
    rw [ih _ rest h6, List.map_cons, List.append_assoc]
    rfl

/-- What an error-free end of the uncle loop implies for every uncle of the list. -/
theorem verifyUncleLoop_ok (p : Params) (o : Oracle) (chain : ChainReader) (now : Nat)
    (block : Block) (ancestors : Hash → Option Header) (l : List Header) :
    ∀ uncles : List Hash,
      verifyUncleLoop p o chain now block ancestors uncles l = Outcome.ok →
      (∀ u ∈ l, o.HeaderHash u ∉ uncles) ∧
      (l.map o.HeaderHash).Nodup ∧
      (∀ u ∈ l, ∃ parent : Header, ancestors u.ParentHash = some parent ∧
        verifyHeader p o chain now u parent true true = Outcome.ok) := by
  induction l with
  | nil =>
    intro uncles _
    simp
  | cons uncle more ih =>
    intro uncles h
    obtain ⟨h1, _, _, hparent, h6⟩ := verifyUncleLoop_cons_ok h
    obtain ⟨i1, i2, i3⟩ := ih _ h6
    refine ⟨?_, ?_, ?_⟩
    · intro u hu
      rcases List.mem_cons.mp hu with rfl | hu
      · exact h1
      · exact fun hc => i1 u hu (List.mem_append.mpr (Or.inl hc))
    · rw [List.map_cons, List.nodup_cons]
      refine ⟨?_, i2⟩
      intro hc
      obtain ⟨u, hu, he⟩ := List.mem_map.mp hc
      exact i1 u hu (List.mem_append.mpr (Or.inr (by simp [he])))
    · intro u hu
      rcases List.mem_cons.mp hu with rfl | hu
      · exact hparent
      · exact i3 u hu

/-- The uncle loop reads the block only through its header. -/
theorem verifyUncleLoop_block_congr (p : Params) (o : Oracle) (chain : ChainReader) (now : Nat)
    (b1 b2 : Block) (hb : b1.header = b2.header) (ancestors : Hash → Option Header)
    (l : List Header) :
    ∀ uncles : List Hash,
      verifyUncleLoop p o chain now b1 ancestors uncles l =
        verifyUncleLoop p o chain now b2 ancestors uncles l := by
  induction l with
  | nil =>
    intro uncles
    rw [verifyUncleLoop, verifyUncleLoop]
  | cons uncle more ih =>
    intro uncles
    rw [verifyUncleLoop_cons, verifyUncleLoop_cons, hb, ih]

/-- With `uncle = true` the header verifier does not read the clock. -/
theorem verifyHeader_uncle_clock (p : Params) (o : Oracle) (chain : ChainReader)
    (now now2 : Nat) (header parent : Header) (sealCheck : Bool) :
    verifyHeader p o chain now2 header parent true sealCheck =
      verifyHeader p o chain now header parent true sealCheck := by
  have c1 : ¬ ((true : Bool) = false ∧ header.Time > now + 15) := fun h => Bool.noConfusion h.1
  have c2 : ¬ ((true : Bool) = false ∧ header.Time > now2 + 15) := fun h => Bool.noConfusion h.1
  unfold verifyHeader
  rw [if_neg c1, if_neg c2]

/-- The uncle validator on a block with at most two uncles is the uncle loop started from the
map and the set gathered from the ancestors. -/
theorem VerifyUncles_eq_loop (p : Params) (o : Oracle) (chain : ChainReader) (now : Nat)
    (block : Block) (hlen : block.uncles.length ≤ 2) :
    VerifyUncles p o chain now block =
      verifyUncleLoop p o chain now block (ancestorMap o chain block) (seenUncles o chain block)
        block.uncles := by
  unfold VerifyUncles maxUncles
  rw [if_neg (by omega)]

/-- C21: `VerifyUncles` rejects every block with more than 2 uncles with `TooManyUncles` before
any other check; otherwise, scanning the uncles in order, the first uncle `U` that fails (the
uncles `pre` before it pass) is classified as: `DuplicateUncle` if `Hash(U)` is the block's own
hash, an uncle of one of the (up to seven) walked ancestors, or an earlier uncle of the same
block; else `UncleIsAncestor` if `Hash(U)` is the hash of a walked ancestor; else
`DanglingUncle` if `U.ParentHash` is neither a walked ancestor nor the block itself, or equals
the block's `ParentHash`. Consequently no accepted block lists the same uncle twice or an
uncle already included by one of its seven ancestors. -/
theorem VerifyUncles_classification (p : Params) (o : Oracle) (chain : ChainReader) (now : Nat)
    (block : Block) :
    (block.uncles.length > 2 →
      VerifyUncles p o chain now block = Outcome.err Err.TooManyUncles) ∧
    (∀ (pre : List Header) (U : Header) (post : List Header),
      block.uncles = pre ++ U :: post → block.uncles.length ≤ 2 →
      VerifyUncles p o chain now { block with uncles := pre } = Outcome.ok →
      ((o.HeaderHash U = o.HeaderHash block.header ∨
          o.HeaderHash U ∈ uncleHashesOf o (sevenAncestors chain block) ∨
          o.HeaderHash U ∈ pre.map o.HeaderHash) →
        VerifyUncles p o chain now block = Outcome.err Err.DuplicateUncle) ∧
      (¬ (o.HeaderHash U = o.HeaderHash block.header ∨
          o.HeaderHash U ∈ uncleHashesOf o (sevenAncestors chain block) ∨
          o.HeaderHash U ∈ pre.map o.HeaderHash) →
        o.HeaderHash U ∈ (sevenAncestors chain block).map (fun b => o.HeaderHash b.header) →
        VerifyUncles p o chain now block = Outcome.err Err.UncleIsAncestor) ∧
      (¬ (o.HeaderHash U = o.HeaderHash block.header ∨
          o.HeaderHash U ∈ uncleHashesOf o (sevenAncestors chain block) ∨
          o.HeaderHash U ∈ pre.map o.HeaderHash) →
        o.HeaderHash U ∉ (sevenAncestors chain block).map (fun b => o.HeaderHash b.header) →
        ((U.ParentHash ∉ (sevenAncestors chain block).map (fun b => o.HeaderHash b.header) ∧
            U.ParentHash ≠ o.HeaderHash block.header) ∨
          U.ParentHash = block.header.ParentHash) →
        VerifyUncles p o chain now block = Outcome.err Err.DanglingUncle)) ∧
    (VerifyUncles p o chain now block = Outcome.ok →
      (block.uncles.map o.HeaderHash).Nodup ∧
      ∀ U ∈ block.uncles,
        o.HeaderHash U ∉ uncleHashesOf o (sevenAncestors chain block) ∧
        o.HeaderHash U ≠ o.HeaderHash block.header) := by
  refine ⟨fun hlen => ?_, fun pre U post hsplit hlen hpre => ?_, fun hok => ?_⟩
  · unfold VerifyUncles maxUncles
    rw [if_pos hlen]
  · have hprelen : pre.length ≤ 2 := by
      have := congrArg List.length hsplit
      rw [List.length_append, List.length_cons] at this
      omega
    have hpre2 : verifyUncleLoop p o chain now block (ancestorMap o chain block)
        (seenUncles o chain block) pre = Outcome.ok := by
      rw [VerifyUncles_eq_loop p o chain now _ hprelen] at hpre
      rw [verifyUncleLoop_block_congr p o chain now block { block with uncles := pre } rfl]
      exact hpre
    have hrun : VerifyUncles p o chain now block =
        verifyUncleLoop p o chain now block (ancestorMap o chain block)
          (seenUncles o chain block ++ pre.map o.HeaderHash) (U :: post) := by
      rw [VerifyUncles_eq_loop p o chain now block hlen, hsplit,
        verifyUncleLoop_append p o chain now block _ pre _ _ hpre2]
    have hmem : o.HeaderHash U ∈ seenUncles o chain block ++ pre.map o.HeaderHash ↔
        (o.HeaderHash U = o.HeaderHash block.header ∨
          o.HeaderHash U ∈ uncleHashesOf o (sevenAncestors chain block) ∨
          o.HeaderHash U ∈ pre.map o.HeaderHash) := by
      rw [List.mem_append, mem_seenUncles]
      tauto
    rw [hrun, verifyUncleLoop_cons]
    refine ⟨fun hdup => ?_, fun hnd hanc => ?_, fun hnd hnanc hdang => ?_⟩
    · rw [if_pos (hmem.mpr hdup)]
    · rw [if_neg (fun hc => hnd (hmem.mp hc)),
        if_pos ((ancestorMap_isSome o chain block _).mpr (Or.inr hanc))]
    · have hnone : ¬ (ancestorMap o chain block (o.HeaderHash U)).isSome = true := by
        rw [ancestorMap_isSome]
        rintro (hc | hc)
        · exact hnd (Or.inl hc)
        · exact hnanc hc
      rw [if_neg (fun hc => hnd (hmem.mp hc)), if_neg hnone]
      cases hp : ancestorMap o chain block U.ParentHash with
      | none => rfl
      | some parent =>
        dsimp only
        by_cases heq : U.ParentHash = block.header.ParentHash
        · rw [if_pos heq]
        · exfalso
          rcases hdang with ⟨hd1, hd2⟩ | hd
          · have hsome : (ancestorMap o chain block U.ParentHash).isSome = true := by
              rw [hp]
              rfl
            rcases (ancestorMap_isSome o chain block _).mp hsome with hc | hc
            · exact hd2 hc
            · exact hd1 hc
          · exact heq hd
  · have hlen : block.uncles.length ≤ 2 := by
      by_contra hc
      unfold VerifyUncles maxUncles at hok
      rw [if_pos (by omega)] at hok
      cases hok
    rw [VerifyUncles_eq_loop p o chain now block hlen] at hok
    obtain ⟨i1, i2, _⟩ := verifyUncleLoop_ok p o chain now block _ _ _ hok
    refine ⟨i2, fun U hU => ?_⟩
    have hn := i1 U hU
    rw [mem_seenUncles] at hn
    exact ⟨fun hc => hn (Or.inl hc), fun hc => hn (Or.inr hc)⟩

set_option maxRecDepth 100000 in
/-- Witness of C21: on `uncleChain`, the nephew block with `futureUncle` is accepted; with three
uncles it is rejected with `TooManyUncles`; with `futureUncle` listed twice the second one is
a `DuplicateUncle`; with its own parent as uncle it gets `UncleIsAncestor`; and an uncle whose
parent hash `[9]` is not an ancestor is a `DanglingUncle`. -/
theorem VerifyUncles_classification_witness :
    VerifyUncles sampleParams zeroOracle uncleChain 2000 ⟨nephewHeader, [futureUncle]⟩ =
      Outcome.ok ∧
    VerifyUncles sampleParams zeroOracle uncleChain 2000
      ⟨nephewHeader, [futureUncle, futureUncle, futureUncle]⟩ =
        Outcome.err Err.TooManyUncles ∧
    VerifyUncles sampleParams zeroOracle uncleChain 2000
      ⟨nephewHeader, [futureUncle, futureUncle]⟩ = Outcome.err Err.DuplicateUncle ∧
    VerifyUncles sampleParams zeroOracle uncleChain 2000 ⟨nephewHeader, [uncleParent]⟩ =
      Outcome.err Err.UncleIsAncestor ∧
    VerifyUncles sampleParams zeroOracle uncleChain 2000
      ⟨nephewHeader, [{ futureUncle with ParentHash := [9] }]⟩ =
        Outcome.err Err.DanglingUncle :=
  ⟨by decide,
   (VerifyUncles_classification sampleParams zeroOracle uncleChain 2000
      ⟨nephewHeader, [futureUncle, futureUncle, futureUncle]⟩).1 (by decide),
   ((VerifyUncles_classification sampleParams zeroOracle uncleChain 2000
      ⟨nephewHeader, [futureUncle, futureUncle]⟩).2.1 [futureUncle] futureUncle [] rfl
      (by decide) (by decide)).1 (by decide),
   ((VerifyUncles_classification sampleParams zeroOracle uncleChain 2000
      ⟨nephewHeader, [uncleParent]⟩).2.1 [] uncleParent [] rfl
      (by decide) (by decide)).2.1 (by decide) (by decide),
   ((VerifyUncles_classification sampleParams zeroOracle uncleChain 2000
      ⟨nephewHeader, [{ futureUncle with ParentHash := [9] }]⟩).2.1 []
      { futureUncle with ParentHash := [9] } [] rfl
      (by decide) (by decide)).2.2 (by decide) (by decide) (by decide)⟩

/-- C22: if `VerifyUncles` accepts a block, then every uncle `U` of it passes `verifyHeader`
against the header recorded for `U.ParentHash` with `uncle = true` and `seal = true`: the full
seal check is applied to every uncle (`VerifySeal` returns no error on it) and the
future-timestamp check is not (the verdict is the same at every clock reading, so an uncle
with `Time > now + 15` is not rejected for that reason). -/
theorem VerifyUncles_uncles_verified (p : Params) (o : Oracle) (chain : ChainReader) (now : Nat)
    (block : Block) (hok : VerifyUncles p o chain now block = Outcome.ok) :
    ∀ U ∈ block.uncles, ∃ parent : Header,
      ancestorMap o chain block U.ParentHash = some parent ∧
      verifyHeader p o chain now U parent true true = Outcome.ok ∧
      VerifySeal o chain U = Outcome.ok ∧
      (∀ now2 : Nat, verifyHeader p o chain now2 U parent true true = Outcome.ok) := by
  have hlen : block.uncles.length ≤ 2 := by
    by_contra hc
    unfold VerifyUncles maxUncles at hok
    rw [if_pos (by omega)] at hok
    cases hok
  rw [VerifyUncles_eq_loop p o chain now block hlen] at hok
  obtain ⟨_, _, i3⟩ := verifyUncleLoop_ok p o chain now block _ _ _ hok
  intro U hU
  obtain ⟨parent, hp, hv⟩ := i3 U hU
  refine ⟨parent, hp, hv, ?_, fun now2 => ?_⟩
  · exact ((verifyHeader_ok_iff p o chain now U parent true true).mp hv).2.2.2.2.2.2.2.2.2.2 rfl
  · rw [verifyHeader_uncle_clock p o chain now now2 U parent true]
    exact hv

set_option maxRecDepth 100000 in
/-- Witness of C22: on `uncleChain` at clock reading 2000 the nephew block with the uncle
`futureUncle`, whose timestamp is 5000, is accepted, and the uncle passes the header verifier
as an uncle with the seal check against `uncleGrandparent`. -/
theorem VerifyUncles_uncles_verified_witness :
    futureUncle.Time > 2000 + 15 ∧
    VerifyUncles sampleParams zeroOracle uncleChain 2000 ⟨nephewHeader, [futureUncle]⟩ =
      Outcome.ok ∧
    ∃ parent : Header,
      ancestorMap zeroOracle uncleChain ⟨nephewHeader, [futureUncle]⟩ futureUncle.ParentHash =
        some parent ∧
      verifyHeader sampleParams zeroOracle uncleChain 2000 futureUncle parent true true =
        Outcome.ok ∧
      VerifySeal zeroOracle uncleChain futureUncle = Outcome.ok ∧
      (∀ now2 : Nat,
        verifyHeader sampleParams zeroOracle uncleChain now2 futureUncle parent true true =
          Outcome.ok) :=
  ⟨by decide, by decide,
   VerifyUncles_uncles_verified sampleParams zeroOracle uncleChain 2000
     ⟨nephewHeader, [futureUncle]⟩ (by decide) futureUncle (by decide)⟩

/-- C29: `FinalizeAndAssemble`, for every uncles argument (including a non-empty one), applies
the same rewards and state root as `Finalize`, sets `header.UncleHash` to the hash of the empty
uncle list and returns a block with no uncles; hence `VerifyUncles` accepts every block it
returns. -/
theorem FinalizeAndAssemble_no_uncles (authorRewardAddr : Address)
    (intermediateRoot : StateDB → Bool → Hash) (calcUncleHash : List Header → Hash)
    (fill : Header → Header) (chain : ChainReader) (header : Header) (state : StateDB)
    (uncles : List Header) :
    (FinalizeAndAssemble authorRewardAddr intermediateRoot calcUncleHash fill chain header state
        uncles).2.1 =
      (Finalize authorRewardAddr intermediateRoot chain header state uncles).2 ∧
    (FinalizeAndAssemble authorRewardAddr intermediateRoot calcUncleHash fill chain header state
        uncles).1 =
      { (Finalize authorRewardAddr intermediateRoot chain header state uncles).1 with
        UncleHash := calcUncleHash [] } ∧
    (FinalizeAndAssemble authorRewardAddr intermediateRoot calcUncleHash fill chain header state
        uncles).2.2.uncles = [] ∧
    FinalizeAndAssemble authorRewardAddr intermediateRoot calcUncleHash fill chain header state
        uncles =
      FinalizeAndAssemble authorRewardAddr intermediateRoot calcUncleHash fill chain header state
        [] ∧
    (∀ (p : Params) (o : Oracle) (chain2 : ChainReader) (now : Nat),
      VerifyUncles p o chain2 now
        (FinalizeAndAssemble authorRewardAddr intermediateRoot calcUncleHash fill chain header
          state uncles).2.2 = Outcome.ok) := by
  refine ⟨rfl, rfl, rfl, rfl, fun p o chain2 now => ?_⟩
  rw [VerifyUncles_eq_loop p o chain2 now _ (by
    show ([] : List Header).length ≤ 2
    decide)]
  show verifyUncleLoop p o chain2 now _ _ _ [] = Outcome.ok
  rw [verifyUncleLoop]

/-! ## Hash inputs and division order: claims C31 and C32 -/

/-- C31 (as stated, refuted): the encoded input list of `SealBlock` does contain the header's
`Number`: it is its eighth field, and changing `Number` alone changes the list. -/
theorem sealBlockFields_contains_number :
    (sealBlockFields { zeroHeader with Number := 5 } 0)[7]? = some (RlpItem.big 5) ∧
    sealBlockFields { zeroHeader with Number := 5 } 0 ≠ sealBlockFields zeroHeader 0 := by
  decide

/-- C31 (amended): among the three hash roles, the header's `Number` is part of the encoded
hash input of `calcLuck` (fourth field) and of `SealBlock` (eighth field), and not of
`SealLuck`: the input list and the value of `SealLuck` do not change when `Number` alone
changes. -/
theorem number_in_hash_inputs (o : Oracle) (h : Header) (n m : Nat) :
    (calcLuckFields h n)[3]? = some (RlpItem.big h.Number) ∧
    (sealBlockFields h n)[7]? = some (RlpItem.big h.Number) ∧
    sealLuckFields { h with Number := m } n = sealLuckFields h n ∧
    SealLuck o { h with Number := m } n = SealLuck o h n ∧
    (m ≠ h.Number → calcLuckFields { h with Number := m } n ≠ calcLuckFields h n) ∧
    (m ≠ h.Number → sealBlockFields { h with Number := m } n ≠ sealBlockFields h n) := by
  refine ⟨rfl, rfl, rfl, rfl, fun hne hc => ?_, fun hne hc => ?_⟩
  · have h3 := congrArg (fun l => l[3]?) hc
    simp [calcLuckFields] at h3
    exact hne h3
  · have h7 := congrArg (fun l => l[7]?) hc
    simp [sealBlockFields] at h7
    exact hne h7

/-- Witness of C31 (amended): `zeroHeader` and the same header at height 5, nonce 0. -/
theorem number_in_hash_inputs_witness :
    calcLuckFields { zeroHeader with Number := 5 } 0 ≠ calcLuckFields zeroHeader 0 ∧
    sealLuckFields { zeroHeader with Number := 5 } 0 = sealLuckFields zeroHeader 0 :=
  ⟨(number_in_hash_inputs zeroOracle zeroHeader 0 5).2.2.2.2.1 (by decide),
   (number_in_hash_inputs zeroOracle zeroHeader 0 5).2.2.1⟩

/-- Two successive floor divisions by a positive number give at most the single division by its
square. -/
theorem ediv_ediv_le_single {a m d : Int} (hm : 0 ≤ m) (hd : 0 < d) :
    a / d * m / d ≤ a * m / (d * d) := by
  have hdd : 0 < d * d := mul_pos hd hd
  have h1 : a / d * d ≤ a := Int.ediv_mul_le a (ne_of_gt hd)
  have h2 : a / d * m / d * d ≤ a / d * m := Int.ediv_mul_le _ (ne_of_gt hd)
  have h3 : a / d * m / d * (d * d) ≤ a * m := by
    calc a / d * m / d * (d * d) = a / d * m / d * d * d := by ring
      _ ≤ a / d * m * d := mul_le_mul_of_nonneg_right h2 (le_of_lt hd)
      _ = a / d * d * m := by ring
      _ ≤ a * m := mul_le_mul_of_nonneg_right h1 hm
  exact Int.le_ediv_of_mul_le hdd h3

set_option maxRecDepth 100000 in
/-- C32: the two-division order of `calcBeta` is not equivalent to a single combined division:
for `basis = 1` and `lucky = maxLuck - 3` the function returns `4444444400000000` whereas
`floor(basis * maxLuck ^ 2 / (maxLuck - lucky) ^ 2)` is `4444444444444444`; and for every
`basis ≥ 0` and `lucky` in `[0, maxLuck)` the value of `calcBeta` is at most that of the single
division. -/
theorem calcBeta_vs_single_division :
    (calcBeta (maxLuck - 3) 1 = some 4444444400000000 ∧
      Int.fdiv (1 * maxLuck ^ 2) ((maxLuck - (maxLuck - 3)) ^ 2) = 4444444444444444) ∧
    (∀ basis lucky : Int, 0 ≤ basis → 0 ≤ lucky → lucky < maxLuck →
      ∃ beta : Int, calcBeta lucky basis = some beta ∧
        beta ≤ Int.fdiv (basis * maxLuck ^ 2) ((maxLuck - lucky) ^ 2)) := by
  refine ⟨by decide, fun basis lucky _ _ hl => ?_⟩
  have hd : 0 < maxLuck - lucky := by omega
  have hm : 0 ≤ maxLuck := le_of_lt maxLuck_pos
  refine ⟨_, calcBeta_of_ne basis (by omega), ?_⟩
  rw [fdiv_eq_ediv_of_nonneg _ (sq_nonneg _)]
  show basis * maxLuck / (maxLuck - lucky) * maxLuck / (maxLuck - lucky) ≤
    basis * maxLuck ^ 2 / (maxLuck - lucky) ^ 2
  have h := ediv_ediv_le_single (a := basis * maxLuck) hm hd
  have e1 : basis * maxLuck * maxLuck = basis * maxLuck ^ 2 := by ring
  have e2 : (maxLuck - lucky) * (maxLuck - lucky) = (maxLuck - lucky) ^ 2 := by ring
  rw [e1, e2] at h
  exact h

set_option maxRecDepth 100000 in
/-- Witness of C32: `basis = 7`, `lucky = 10 ^ 8`, where both orders give `28`. -/
theorem calcBeta_vs_single_division_witness :
    ∃ beta : Int, calcBeta (10 ^ 8) 7 = some beta ∧
      beta ≤ Int.fdiv (7 * maxLuck ^ 2) ((maxLuck - 10 ^ 8) ^ 2) :=
  calcBeta_vs_single_division.2 7 (10 ^ 8) (by decide) (by decide) (by decide)

/-! ## Division by zero in the seal verifier: claims C33 and C34 -/

/-- The function `calcBeta` faults exactly when the luck value is `maxLuck`. -/
theorem calcBeta_eq_none_iff (luck basis : Int) : calcBeta luck basis = none ↔ luck = maxLuck := by
  constructor
  · intro h
    by_contra hne
    rw [calcBeta_of_ne basis (show maxLuck - luck ≠ 0 from fun hz => hne (by omega))] at h
    cases h
  · intro h
    have hz : maxLuck - luck = 0 := by omega
    simp [calcBeta, bigDiv, hz]

/-- C33: `VerifySeal` evaluates `calcBeta` on the header's own `Lucky` before comparing `Lucky`
with `calcLuck`: the divisor `maxLuck - Lucky` is zero exactly when `Lucky = maxLuck`, so for
every header with `Lucky = maxLuck` whose first-stage check
`SealLuck(h, FirstNonce) < DifficultyAlpha` passes, `VerifySeal` reaches a division by zero
instead of returning `Inconsistence` or `ComputeLucky`; for every header with
`Lucky ≠ maxLuck` no division by zero occurs in `calcBeta`. -/
theorem VerifySeal_fault_at_maxLuck (o : Oracle) (chain : ChainReader) (h : Header) :
    (maxLuck - h.Lucky = 0 ↔ h.Lucky = maxLuck) ∧
    (calcBeta h.Lucky h.Basis = none ↔ h.Lucky = maxLuck) ∧
    (h.Lucky = maxLuck → SealLuck o h h.FirstNonce < h.DifficultyAlpha →
      VerifySeal o chain h = Outcome.fault) ∧
    (h.Lucky ≠ maxLuck → ∃ beta : Int, calcBeta h.Lucky h.Basis = some beta) := by
  refine ⟨⟨fun hz => by omega, fun hl => by omega⟩, calcBeta_eq_none_iff _ _,
    fun hl h1 => ?_, fun hl => ⟨_, calcBeta_of_ne h.Basis (fun hz => hl (by omega))⟩⟩
  have h1c : ¬ SealLuck o h h.FirstNonce ≥ h.DifficultyAlpha := by omega
  unfold VerifySeal
  dsimp only
  rw [if_neg h1c, (calcBeta_eq_none_iff _ _).mpr hl]

set_option maxRecDepth 100000 in
/-- Witness of C33: `sealedChild` with `Lucky = maxLuck` under `zeroOracle`, where the
first-stage hash `0` is below the target. -/
theorem VerifySeal_fault_at_maxLuck_witness :
    VerifySeal zeroOracle sampleChain { sealedChild with Lucky := maxLuck } = Outcome.fault :=
  (VerifySeal_fault_at_maxLuck zeroOracle sampleChain { sealedChild with Lucky := maxLuck }).2.2.1
    rfl (by decide)

/-- C34: inside `VerifySeal` the division by `Basis` in `calcDifficulty` is never a division by
zero: for every header with non-negative `Basis` (at any height, in particular at
`Number ≥ 39200`), if the four earlier checks pass then `Basis > 0`, `calcDifficulty` returns a
value and `VerifySeal` does not fault. -/
theorem VerifySeal_calcDifficulty_safe (o : Oracle) (chain : ChainReader) (h : Header)
    (hB : 0 ≤ h.Basis)
    (h1 : SealLuck o h h.FirstNonce < h.DifficultyAlpha)
    (h2 : calcBeta h.Lucky h.Basis = some h.DifficultyBeta)
    (_h3 : calcLuck o h h.FirstNonce = h.Lucky)
    (h4 : SealBlock o h h.SecondNonce < h.DifficultyBeta) :
    0 < h.Basis ∧ (∃ d : Int, calcDifficulty h = some d) ∧
    VerifySeal o chain h ≠ Outcome.fault := by
  have hpos : 0 < h.Basis := by
    rcases lt_or_eq_of_le hB with hlt | heq
    · exact hlt
    · exfalso
      rw [← heq] at h2
      have hz := calcBeta_zero_basis h2
      have hnn := SealBlock_nonneg o h h.SecondNonce
      omega
  have hd : ∃ d : Int, calcDifficulty h = some d := by
    cases hc : calcDifficulty h with
    | none =>
      have := calcDifficulty_eq_none hc
      omega
    | some d => exact ⟨d, rfl⟩
  refine ⟨hpos, hd, ?_⟩
  have hl : h.Lucky ≠ maxLuck := fun hc => by
    rw [(calcBeta_eq_none_iff _ _).mpr hc] at h2
    cases h2
  obtain ⟨d, hd⟩ := hd
  rw [VerifySeal_eq_first_failure o chain h hl, if_neg (not_not.mpr h1),
    if_neg (not_not.mpr h2), if_neg (not_not.mpr _h3), if_neg (not_not.mpr h4)]
  by_cases h5 : calcDifficulty h ≠ some h.Difficulty
  · rw [if_pos h5]
    exact fun hc => (by cases hc)
  · rw [if_neg h5]
    exact fun hc => (by cases hc)

set_option maxRecDepth 100000 in
/-- Witness of C34: `sealedChild` moved to height 39200, under `zeroOracle`. -/
theorem VerifySeal_calcDifficulty_safe_witness :
    0 < ({ sealedChild with Number := 39200 } : Header).Basis ∧
    (∃ d : Int, calcDifficulty { sealedChild with Number := 39200 } = some d) ∧
    VerifySeal zeroOracle sampleChain { sealedChild with Number := 39200 } ≠ Outcome.fault :=
  VerifySeal_calcDifficulty_safe zeroOracle sampleChain { sealedChild with Number := 39200 }
    (by decide) (by decide) (by decide) (by decide) (by decide)

/-! ## Wrapping time difference and zero targets: claims C35 and C36 -/

/-- Above height 1 `calcParam` returns the slow pair when the `uint64` time difference exceeds
20 and the fast pair otherwise. -/
theorem calcParam_eq_branch (chain : ChainReader) {number : Nat} (time : Nat) (parent : Header)
    (hn : 1 < number) :
    calcParam chain number time parent =
      if subU64 time parent.Time > 20 then slowRetarget parent else fastRetarget parent := by
  have hn1 : ¬ number ≤ 1 := by omega
  unfold calcParam slowRetarget fastRetarget preScale
  rw [if_neg hn1]

/-- The timestamp check of the header verifier: a header that is not after its parent gets one
of the first three errors, so the retarget is not reached. -/
theorem verifyHeader_of_time_le (p : Params) (o : Oracle) (chain : ChainReader) (now : Nat)
    (header parent : Header) (uncle sealCheck : Bool) (ht : header.Time ≤ parent.Time) :
    verifyHeader p o chain now header parent uncle sealCheck = Outcome.err Err.ExtraTooLong ∨
    verifyHeader p o chain now header parent uncle sealCheck = Outcome.err Err.FutureBlock ∨
    verifyHeader p o chain now header parent uncle sealCheck = Outcome.err Err.OlderBlockTime := by
  unfold verifyHeader
  by_cases h1 : header.Extra.length > p.MaximumExtraDataSize
  · rw [if_pos h1]
    exact Or.inl rfl
  rw [if_neg h1]
  by_cases h2 : uncle = false ∧ header.Time > now + 15
  · rw [if_pos h2]
    exact Or.inr (Or.inl rfl)
  rw [if_neg h2, if_pos ht]
  exact Or.inr (Or.inr rfl)

/-- C35: `calcParam` computes `Time - parent.Time` in wrapping `uint64` arithmetic: it takes
the slow branch (scale by `110/100`) iff `(Time - parent.Time) mod 2 ^ 64 > 20`. Hence
`Prepare`, which does not check `Time > parent.Time`, treats a header with `Time < parent.Time`
(and `parent.Time - Time < 2 ^ 64 - 20`) as a slow block and scales alpha and basis up by
`110/100`, whereas under `verifyHeader` the subtraction never wraps because
`Time > parent.Time` was checked first. -/
theorem calcParam_time_wraps (chain : ChainReader) (number time : Nat) (parent : Header)
    (hn : 1 < number) :
    (calcParam chain number time parent =
      if ((time : Int) - (parent.Time : Int)) % 2 ^ 64 > 20 then slowRetarget parent
      else fastRetarget parent) ∧
    (time < parent.Time → parent.Time < 2 ^ 64 → parent.Time - time < 2 ^ 64 - 20 →
      calcParam chain number time parent = slowRetarget parent) ∧
    (∀ header : Header,
      chain.GetHeader header.ParentHash (subU64 (toUint64 header.Number) 1) = some parent →
      1 < toUint64 header.Number → header.Time < parent.Time → parent.Time < 2 ^ 64 →
      parent.Time - header.Time < 2 ^ 64 - 20 →
      Prepare chain header =
        ({ header with Basis := (slowRetarget parent).1,
                       DifficultyAlpha := (slowRetarget parent).2 }, none)) ∧
    (0 ≤ parent.DifficultyAlpha → parent.DifficultyAlpha ≤ (slowRetarget parent).2) ∧
    (0 ≤ preScale parent → preScale parent ≤ (slowRetarget parent).1) ∧
    (∀ (p : Params) (o : Oracle) (now : Nat) (header : Header) (uncle sealCheck : Bool),
      (header.Time ≤ parent.Time →
        verifyHeader p o chain now header parent uncle sealCheck =
            Outcome.err Err.ExtraTooLong ∨
          verifyHeader p o chain now header parent uncle sealCheck =
            Outcome.err Err.FutureBlock ∨
          verifyHeader p o chain now header parent uncle sealCheck =
            Outcome.err Err.OlderBlockTime) ∧
      (parent.Time < header.Time → header.Time < 2 ^ 64 →
        subU64 header.Time parent.Time = header.Time - parent.Time)) := by
  have hwrap : ∀ t : Nat, t < parent.Time → parent.Time < 2 ^ 64 →
      parent.Time - t < 2 ^ 64 - 20 → subU64 t parent.Time > 20 := by
    intro t h1 h2 h3
    rw [subU64_of_lt h1 h2]
    norm_num at h2 h3 ⊢
    omega
  refine ⟨?_, fun h1 h2 h3 => ?_, fun header hp hnum h1 h2 h3 => ?_, fun h0 => ?_,
    fun h0 => ?_, fun p o now header uncle sealCheck => ⟨fun ht => ?_, fun h1 h2 => ?_⟩⟩
  · rw [calcParam_eq_branch chain time parent hn]
    have hcond : subU64 time parent.Time > 20 ↔
        ((time : Int) - (parent.Time : Int)) % 2 ^ 64 > 20 := by
      rw [← subU64_eq_emod]
      exact_mod_cast Iff.rfl
    by_cases hc : subU64 time parent.Time > 20
    · rw [if_pos hc, if_pos (hcond.mp hc)]
    · rw [if_neg hc, if_neg (fun h => hc (hcond.mpr h))]
  · rw [calcParam_eq_branch chain time parent hn, if_pos (hwrap time h1 h2 h3)]
  · unfold Prepare
    rw [hp]
    dsimp only
    rw [calcParam_eq_branch chain header.Time parent hnum, if_pos (hwrap header.Time h1 h2 h3)]
  · show parent.DifficultyAlpha ≤ parent.DifficultyAlpha * 110 / 100
    omega
  · show preScale parent ≤ preScale parent * 110 / 100
    omega
  · exact verifyHeader_of_time_le p o chain now header parent uncle sealCheck ht
  · exact subU64_of_le (le_of_lt h1) h2

set_option maxRecDepth 100000 in
/-- Witness of C35: the scenario parent (`Time = 100`) and a child at height 2 with
`Time = 50`: `calcParam` returns the slow pair `(115500, 220000)`. -/
theorem calcParam_time_wraps_witness :
    calcParam emptyChain 2 50 scenarioParent = slowRetarget scenarioParent ∧
    slowRetarget scenarioParent = (115500, 220000) :=
  ⟨(calcParam_time_wraps emptyChain 2 50 scenarioParent (by decide)).2.1
      (by decide) (by decide) (by decide),
   by decide⟩

/-- A header whose first-stage target is zero fails the first check of `VerifySeal`. -/
theorem VerifySeal_zero_alpha (o : Oracle) (chain : ChainReader) (h : Header)
    (h0 : h.DifficultyAlpha = 0) : VerifySeal o chain h = Outcome.err Err.UnknownBlock := by
  have hnn := SealLuck_nonneg o h h.FirstNonce
  have hge : SealLuck o h h.FirstNonce ≥ h.DifficultyAlpha := by omega
  unfold VerifySeal
  dsimp only
  rw [if_pos hge]

/-- Above height 1 the retarget of a zero first-stage target is zero. -/
theorem calcParam_zero_alpha (chain : ChainReader) {number : Nat} (time : Nat) (parent : Header)
    (hn : 1 < number) (h0 : parent.DifficultyAlpha = 0) :
    (calcParam chain number time parent).2 = 0 := by
  rw [calcParam_alpha time parent hn, h0]
  by_cases hc : subU64 time parent.Time > 20
  · rw [if_pos hc]
    rfl
  · rw [if_neg hc]
    rfl

/-- Along a line of descent from a header at height at least 1 whose first-stage target is
zero, in which every header has a height below `2 ^ 64` and passes the header verifier against
its predecessor (for some clock reading and flags), every header has a zero first-stage
target. -/
theorem zero_alpha_descendants (p : Params) (o : Oracle) (chain : ChainReader) :
    ∀ (hs : List Header) (parent : Header), parent.DifficultyAlpha = 0 → 1 ≤ parent.Number →
      List.Chain (fun a b => b.Number < 2 ^ 64 ∧ ∃ (now : Nat) (uncle sealCheck : Bool),
        verifyHeader p o chain now b a uncle sealCheck = Outcome.ok) parent hs →
      ∀ h ∈ hs, h.DifficultyAlpha = 0 := by
  intro hs
  induction hs with
  | nil =>
    intro parent _ _ _ h hmem
    cases hmem
  | cons b l ih =>
    intro parent h0 hnum hchain h hmem
    rw [List.chain_cons] at hchain
    obtain ⟨⟨hrange, now, uncle, sealCheck, hok⟩, hrest⟩ := hchain
    obtain ⟨_, _, _, _, _, _, _, h8, _, h10, _⟩ :=
      (verifyHeader_ok_iff p o chain now b parent uncle sealCheck).mp hok
    have hb : 2 ≤ b.Number := by omega
    have hu : 1 < toUint64 b.Number := by
      unfold toUint64
      rw [Nat.mod_eq_of_lt hrange]
      omega
    have hb0 : b.DifficultyAlpha = 0 := by
      rw [← h10]
      exact calcParam_zero_alpha chain b.Time parent hu h0
    rcases List.mem_cons.mp hmem with rfl | hl
    · exact hb0
    · exact ih b hb0 (by omega) hrest h hl

set_option maxRecDepth 100000 in
/-- C36 (closing sentence as stated, refuted): `validParent`, at height 0, has a zero
first-stage target, and its child `sealedChild` at height 1, which takes the initial targets,
is validly sealed: it passes `VerifySeal` and the header verifier with the seal check. -/
theorem sealed_child_of_zero_alpha_parent :
    validParent.DifficultyAlpha = 0 ∧
    sampleChain.GetHeader sealedChild.ParentHash 0 = some validParent ∧
    VerifySeal zeroOracle sampleChain sealedChild = Outcome.ok ∧
    verifyHeader sampleParams zeroOracle sampleChain 2000 sealedChild validParent false true =
      Outcome.ok ∧
    VerifyHeader sampleParams zeroOracle sampleChain 2000 sealedChild true = Outcome.ok := by
  decide

/-- C36 (amended): zero targets are absorbing under retarget: for `Number > 1`,
`parent.DifficultyAlpha = 0` implies that the new alpha is 0 and `parent.Basis = 0` implies
that the new basis is 0, for every `Time`; and a header with `DifficultyAlpha = 0` can never
pass `VerifySeal`, since `SealLuck` is non-negative and the first check requires
`SealLuck < DifficultyAlpha`. So a header whose `uint64` height is above 1 never passes the
header verifier with the seal check on top of a parent with alpha 0; and once a header with
alpha 0 at a height of at least 1 is on the chain, no descendant at a height below `2 ^ 64`
can be validly sealed: along every line of descent whose headers pass the header rules
against their predecessors, every header has alpha 0, fails `VerifySeal` and fails the header
verifier with the seal check. -/
theorem zero_targets_absorbing (chain : ChainReader) (number time : Nat) (parent : Header)
    (hn : 1 < number) :
    (parent.DifficultyAlpha = 0 → (calcParam chain number time parent).2 = 0) ∧
    (parent.Basis = 0 → (calcParam chain number time parent).1 = 0) ∧
    (∀ (o : Oracle) (h : Header), h.DifficultyAlpha = 0 →
      VerifySeal o chain h = Outcome.err Err.UnknownBlock) ∧
    (∀ (p : Params) (o : Oracle) (now : Nat) (header : Header) (uncle : Bool),
      parent.DifficultyAlpha = 0 → 1 < toUint64 header.Number →
      verifyHeader p o chain now header parent uncle true ≠ Outcome.ok) ∧
    (∀ (p : Params) (o : Oracle) (hs : List Header),
      parent.DifficultyAlpha = 0 → 1 ≤ parent.Number →
      List.Chain (fun a b => b.Number < 2 ^ 64 ∧ ∃ (now : Nat) (uncle sealCheck : Bool),
        verifyHeader p o chain now b a uncle sealCheck = Outcome.ok) parent hs →
      ∀ h ∈ hs, h.DifficultyAlpha = 0 ∧
        VerifySeal o chain h = Outcome.err Err.UnknownBlock ∧
        ∀ (now : Nat) (a : Header) (uncle : Bool),
          verifyHeader p o chain now h a uncle true ≠ Outcome.ok) := by
  have hseal := fun o h => VerifySeal_zero_alpha o chain h
  refine ⟨calcParam_zero_alpha chain time parent hn, fun h0 => ?_, hseal,
    fun p o now header uncle h0 hnum hok => ?_, fun p o hs h0 hnum hchain h hmem => ?_⟩
  · rw [calcParam_eq_branch chain time parent hn]
    have hp : preScale parent = 0 := by
      unfold preScale
      rw [h0]
      by_cases hc : parent.DifficultyAlpha < Int.ediv parent.DifficultyBeta 5
      · rw [if_pos hc]
        rfl
      · rw [if_neg hc]
        rfl
    by_cases hc : subU64 time parent.Time > 20
    · rw [if_pos hc]
      show Int.ediv (preScale parent * 110) 100 = 0
      rw [hp]
      rfl
    · rw [if_neg hc]
      show Int.ediv (preScale parent * 90) 100 = 0
      rw [hp]
      rfl
  · obtain ⟨_, _, _, _, _, _, _, _, _, h10, h11⟩ :=
      (verifyHeader_ok_iff p o chain now header parent uncle true).mp hok
    rw [calcParam_zero_alpha chain _ parent hnum h0] at h10
    have := hseal o header h10.symm
    rw [h11 rfl] at this
    cases this
  · have hz := zero_alpha_descendants p o chain hs parent h0 hnum hchain h hmem
    refine ⟨hz, hseal o h hz, fun now a uncle hok => ?_⟩
    obtain ⟨_, _, _, _, _, _, _, _, _, _, h11⟩ :=
      (verifyHeader_ok_iff p o chain now h a uncle true).mp hok
    have := hseal o h hz
    rw [h11 rfl] at this
    cases this

set_option maxRecDepth 100000 in
/-- Witness of C36 (amended): the scenario parent with both targets zero and a child at height
2; and the line of descent made of `zeroAlphaChild` on top of `zeroAlphaParent`, which passes
the header rules and cannot be sealed. -/
theorem zero_targets_absorbing_witness :
    calcParam emptyChain 2 125 { scenarioParent with Basis := 0, DifficultyAlpha := 0 } =
      (0, 0) ∧
    VerifySeal zeroOracle emptyChain { sealedChild with DifficultyAlpha := 0 } =
      Outcome.err Err.UnknownBlock ∧
    verifyHeader sampleParams zeroOracle emptyChain 2000 zeroAlphaChild zeroAlphaParent false
      false = Outcome.ok ∧
    VerifySeal zeroOracle emptyChain zeroAlphaChild = Outcome.err Err.UnknownBlock := by
  have h := zero_targets_absorbing emptyChain 2 125
    { scenarioParent with Basis := 0, DifficultyAlpha := 0 } (by decide)
  have g := (zero_targets_absorbing emptyChain 2 125 zeroAlphaParent (by decide)).2.2.2.2
    sampleParams zeroOracle [zeroAlphaChild] rfl (by decide)
    (List.Chain.cons ⟨by decide, 2000, false, false, by decide⟩ List.Chain.nil)
    zeroAlphaChild (List.mem_singleton.mpr rfl)
  exact ⟨Prod.ext (h.2.1 rfl) (h.1 rfl), h.2.2.1 zeroOracle _ rfl, by decide, g.2.1⟩

/-! ## Beta as a function of luck: claim C37 -/

/-- For a non-negative basis the value of `calcBeta` does not decrease when the luck grows
below `maxLuck`. -/
theorem calcBeta_mono {basis l1 l2 : Int} (hb : 0 ≤ basis) (h12 : l1 ≤ l2) (hl : l2 < maxLuck) :
    ∃ b1 b2 : Int, calcBeta l1 basis = some b1 ∧ calcBeta l2 basis = some b2 ∧ b1 ≤ b2 := by
  have hm : 0 < maxLuck := maxLuck_pos
  have hd2 : 0 < maxLuck - l2 := by omega
  have hd : maxLuck - l2 ≤ maxLuck - l1 := by omega
  have hd1 : 0 < maxLuck - l1 := by omega
  have hbm : 0 ≤ basis * maxLuck := mul_nonneg hb (le_of_lt hm)
  have hq : basis * maxLuck / (maxLuck - l1) ≤ basis * maxLuck / (maxLuck - l2) :=
    ediv_le_ediv_of_divisor_le hbm hd2 hd
  have hq0 : 0 ≤ basis * maxLuck / (maxLuck - l1) := Int.ediv_nonneg hbm (le_of_lt hd1)
  have hx0 : 0 ≤ basis * maxLuck / (maxLuck - l1) * maxLuck := mul_nonneg hq0 (le_of_lt hm)
  refine ⟨_, _, calcBeta_of_ne basis (by omega), calcBeta_of_ne basis (by omega), ?_⟩
  show basis * maxLuck / (maxLuck - l1) * maxLuck / (maxLuck - l1) ≤
    basis * maxLuck / (maxLuck - l2) * maxLuck / (maxLuck - l2)
  calc basis * maxLuck / (maxLuck - l1) * maxLuck / (maxLuck - l1)
      ≤ basis * maxLuck / (maxLuck - l1) * maxLuck / (maxLuck - l2) :=
        ediv_le_ediv_of_divisor_le hx0 hd2 hd
    _ ≤ basis * maxLuck / (maxLuck - l2) * maxLuck / (maxLuck - l2) :=
        Int.ediv_le_ediv hd2 (mul_le_mul_of_nonneg_right hq (le_of_lt hm))

/-- At luck zero `calcBeta` returns the basis. -/
theorem calcBeta_zero_luck (basis : Int) : calcBeta 0 basis = some basis := by
  have hm : maxLuck ≠ 0 := ne_of_gt maxLuck_pos
  rw [calcBeta_of_ne basis (show maxLuck - 0 ≠ 0 by omega)]
  show some (basis * maxLuck / (maxLuck - 0) * maxLuck / (maxLuck - 0)) = some basis
  rw [sub_zero, Int.mul_ediv_cancel _ hm, Int.mul_ediv_cancel _ hm]

/-- C37: for every `basis ≥ 0`, `calcBeta(0, basis) = basis` and `calcBeta` is monotone
non-decreasing in `lucky` on `[0, maxLuck)`: `l1 ≤ l2 < maxLuck` implies
`calcBeta(l1, basis) ≤ calcBeta(l2, basis)`; hence the second-stage target is never below
`basis`. -/
theorem calcBeta_at_least_basis (basis : Int) (hb : 0 ≤ basis) :
    calcBeta 0 basis = some basis ∧
    (∀ l1 l2 : Int, 0 ≤ l1 → l1 ≤ l2 → l2 < maxLuck →
      ∃ b1 b2 : Int, calcBeta l1 basis = some b1 ∧ calcBeta l2 basis = some b2 ∧ b1 ≤ b2) ∧
    (∀ l : Int, 0 ≤ l → l < maxLuck →
      ∃ beta : Int, calcBeta l basis = some beta ∧ basis ≤ beta) := by
  refine ⟨calcBeta_zero_luck basis, fun l1 l2 _ h12 hl => calcBeta_mono hb h12 hl,
    fun l h0 hl => ?_⟩
  obtain ⟨b1, b2, e1, e2, hle⟩ := calcBeta_mono hb h0 hl
  rw [calcBeta_zero_luck] at e1
  cases e1
  exact ⟨b2, e2, hle⟩

set_option maxRecDepth 100000 in
/-- Witness of C37: `basis = 7`, where the value at luck `10 ^ 8` is `28`. -/
theorem calcBeta_at_least_basis_witness :
    calcBeta 0 7 = some 7 ∧ calcBeta (10 ^ 8) 7 = some 28 ∧
    ∃ beta : Int, calcBeta (10 ^ 8) 7 = some beta ∧ 7 ≤ beta :=
  ⟨(calcBeta_at_least_basis 7 (by decide)).1, by decide,
   (calcBeta_at_least_basis 7 (by decide)).2.2 (10 ^ 8) (by decide) (by decide)⟩

/-! ## Single and batch verification: claim C38 -/

/-- The worker on a slice of one header. -/
theorem verifyHeaderWorker_single (p : Params) (o : Oracle) (chain : ChainReader) (now : Nat)
    (h : Header) (sealCheck : Bool) :
    verifyHeaderWorker p o chain now [h] [sealCheck] 0 =
      match chain.GetHeader h.ParentHash (subU64 (toUint64 h.Number) 1) with
      | none => Outcome.err Err.UnknownAncestor
      | some parent =>
        if (chain.GetHeader (o.HeaderHash h) (toUint64 h.Number)).isSome then Outcome.ok
        else verifyHeader p o chain now h parent false sealCheck := by
  unfold verifyHeaderWorker workerParent
  rw [if_pos rfl]
  show (match (some (chain.GetHeader h.ParentHash (subU64 (toUint64 h.Number) 1)) :
      Option (Option Header)) with
    | none => Outcome.fault
    | some none => Outcome.err Err.UnknownAncestor
    | some (some parent) =>
      if (chain.GetHeader (o.HeaderHash h) (toUint64 h.Number)).isSome then Outcome.ok
      else verifyHeader p o chain now h parent false sealCheck) = _
  cases chain.GetHeader h.ParentHash (subU64 (toUint64 h.Number) 1) with
  | none => rfl
  | some parent => rfl

/-- C38: single and batch verification agree except on one case: for every chain, header `h`
and seal flag, `verifyHeaderWorker` on the one-element slice `[h]` returns the same result as
`VerifyHeader(h, seal)` whenever the chain has `h`'s parent (and also when the chain has
neither the parent nor `h`); when the chain already knows `h` but has no header for
`(h.ParentHash, h.Number - 1)`, `VerifyHeader` accepts while `verifyHeaderWorker` returns
`UnknownAncestor`, because the worker resolves the parent before the known-header
shortcut. -/
theorem single_vs_batch (p : Params) (o : Oracle) (chain : ChainReader) (now : Nat)
    (h : Header) (sealCheck : Bool) :
    (∀ parent : Header,
      chain.GetHeader h.ParentHash (subU64 (toUint64 h.Number) 1) = some parent →
      verifyHeaderWorker p o chain now [h] [sealCheck] 0 =
        VerifyHeader p o chain now h sealCheck) ∧
    (chain.GetHeader h.ParentHash (subU64 (toUint64 h.Number) 1) = none →
      chain.GetHeader (o.HeaderHash h) (toUint64 h.Number) = none →
      verifyHeaderWorker p o chain now [h] [sealCheck] 0 =
        VerifyHeader p o chain now h sealCheck) ∧
    (chain.GetHeader h.ParentHash (subU64 (toUint64 h.Number) 1) = none →
      (chain.GetHeader (o.HeaderHash h) (toUint64 h.Number)).isSome = true →
      VerifyHeader p o chain now h sealCheck = Outcome.ok ∧
      verifyHeaderWorker p o chain now [h] [sealCheck] 0 =
        Outcome.err Err.UnknownAncestor) := by
  refine ⟨fun parent hp => ?_, fun hp hk => ?_, fun hp hk => ⟨?_, ?_⟩⟩
  · rw [verifyHeaderWorker_single, hp]
    unfold VerifyHeader
    dsimp only
    rw [hp]
  · rw [verifyHeaderWorker_single, hp]
    unfold VerifyHeader
    dsimp only
    rw [hp, hk]
    rfl
  · unfold VerifyHeader
    dsimp only
    rw [if_pos hk]
  · rw [verifyHeaderWorker_single, hp]

set_option maxRecDepth 100000 in
/-- Witness of C38: a chain that knows `validChild` under its identifier `[1, 1020]` at height 1
but not its parent: `VerifyHeader` accepts and the worker returns `UnknownAncestor`; on
`sampleChain`, which has the parent, both return the same result. -/
theorem single_vs_batch_witness :
    VerifyHeader sampleParams zeroOracle
      { GetHeader := fun hash number =>
          if hash = [1, 1020] ∧ number = 1 then some validChild else none,
        GetBlock := fun _ _ => none, IsEIP158 := fun _ => false } 2000 validChild true =
      Outcome.ok ∧
    verifyHeaderWorker sampleParams zeroOracle
      { GetHeader := fun hash number =>
          if hash = [1, 1020] ∧ number = 1 then some validChild else none,
        GetBlock := fun _ _ => none, IsEIP158 := fun _ => false } 2000 [validChild] [true] 0 =
      Outcome.err Err.UnknownAncestor ∧
    verifyHeaderWorker sampleParams zeroOracle sampleChain 2000 [validChild] [false] 0 =
      VerifyHeader sampleParams zeroOracle sampleChain 2000 validChild false :=
  ⟨((single_vs_batch sampleParams zeroOracle
      { GetHeader := fun hash number =>
          if hash = [1, 1020] ∧ number = 1 then some validChild else none,
        GetBlock := fun _ _ => none, IsEIP158 := fun _ => false } 2000 validChild true).2.2
      (by decide) (by decide)).1,
   ((single_vs_batch sampleParams zeroOracle
      { GetHeader := fun hash number =>
          if hash = [1, 1020] ∧ number = 1 then some validChild else none,
        GetBlock := fun _ _ => none, IsEIP158 := fun _ => false } 2000 validChild true).2.2
      (by decide) (by decide)).2,
   (single_vs_batch sampleParams zeroOracle sampleChain 2000 validChild false).1 validParent
     (by decide)⟩

/-! ## Nonce search order: claim C39 -/

/-- Stepping a nonce by one and then by `j`, modulo `2 ^ 64`, is stepping it by `j + 1`. -/
theorem nonce_step (c j : Nat) : ((c + 1) % 2 ^ 64 + j) % 2 ^ 64 = (c + (j + 1)) % 2 ^ 64 := by
  norm_num
  omega

/-- The nonce found by the first search loop is the seed advanced by the least number of steps,
at least one, at which the first-stage test passes. -/
theorem searchLuck_least (o : Oracle) (header : Header) (fuel : Nat) :
    ∀ curr r : Nat, searchLuck o header fuel curr = some r →
      ∃ k : Nat, 1 ≤ k ∧ k ≤ fuel ∧ r = (curr + k) % 2 ^ 64 ∧
        SealLuck o header r < header.DifficultyAlpha ∧
        ∀ k2 : Nat, 1 ≤ k2 → k2 < k →
          ¬ SealLuck o header ((curr + k2) % 2 ^ 64) < header.DifficultyAlpha := by
  induction fuel with
  | zero =>
    intro curr r h
    cases h
  | succ n ih =>
    intro curr r h
    unfold searchLuck at h
    dsimp only at h
    by_cases hc : SealLuck o header ((curr + 1) % 2 ^ 64) < header.DifficultyAlpha
    · rw [if_pos hc] at h
      cases h
      exact ⟨1, le_refl 1, by omega, rfl, hc, fun k2 h1 h2 => by omega⟩
    · rw [if_neg hc] at h
      obtain ⟨k, hk1, hk2, hr, ht, hleast⟩ := ih _ _ h
      refine ⟨k + 1, by omega, by omega, ?_, ht, fun k2 h1 h2 => ?_⟩
      · rw [hr, nonce_step]
      · by_cases hone : k2 = 1
        · rw [hone]
          exact hc
        · have := hleast (k2 - 1) (by omega) (by omega)
          rw [nonce_step, show k2 - 1 + 1 = k2 by omega] at this
          exact this

/-- The nonce found by the second search loop is the seed advanced by the least number of
steps, at least one, at which the second-stage test passes. -/
theorem searchBlock_least (o : Oracle) (header : Header) (fuel : Nat) :
    ∀ curr r : Nat, searchBlock o header fuel curr = some r →
      ∃ k : Nat, 1 ≤ k ∧ k ≤ fuel ∧ r = (curr + k) % 2 ^ 64 ∧
        SealBlock o header r < header.DifficultyBeta ∧
        ∀ k2 : Nat, 1 ≤ k2 → k2 < k →
          ¬ SealBlock o header ((curr + k2) % 2 ^ 64) < header.DifficultyBeta := by
  induction fuel with
  | zero =>
    intro curr r h
    cases h
  | succ n ih =>
    intro curr r h
    unfold searchBlock at h
    dsimp only at h
    by_cases hc : SealBlock o header ((curr + 1) % 2 ^ 64) < header.DifficultyBeta
    · rw [if_pos hc] at h
      cases h
      exact ⟨1, le_refl 1, by omega, rfl, hc, fun k2 h1 h2 => by omega⟩
    · rw [if_neg hc] at h
      obtain ⟨k, hk1, hk2, hr, ht, hleast⟩ := ih _ _ h
      refine ⟨k + 1, by omega, by omega, ?_, ht, fun k2 h1 h2 => ?_⟩
      · rw [hr, nonce_step]
      · by_cases hone : k2 = 1
        · rw [hone]
          exact hc
        · have := hleast (k2 - 1) (by omega) (by omega)
          rw [nonce_step, show k2 - 1 + 1 = k2 by omega] at this
          exact this

/-- The first search loop returns the seed advanced by `k` steps as soon as `k ≥ 1` is the
least number of steps at which the first-stage test passes and the abort signal is not seen
before `k` attempts. -/
theorem searchLuck_complete (o : Oracle) (header : Header) (fuel : Nat) :
    ∀ curr k : Nat, 1 ≤ k → k ≤ fuel →
      SealLuck o header ((curr + k) % 2 ^ 64) < header.DifficultyAlpha →
      (∀ k2 : Nat, 1 ≤ k2 → k2 < k →
        ¬ SealLuck o header ((curr + k2) % 2 ^ 64) < header.DifficultyAlpha) →
      searchLuck o header fuel curr = some ((curr + k) % 2 ^ 64) := by
  induction fuel with
  | zero =>
    intro curr k h1 h2
    omega
  | succ n ih =>
    intro curr k h1 h2 ht hleast
    unfold searchLuck
    dsimp only
    by_cases hone : k = 1
    · subst hone
      rw [if_pos ht]
    · have hc : ¬ SealLuck o header ((curr + 1) % 2 ^ 64) < header.DifficultyAlpha :=
        hleast 1 (le_refl 1) (by omega)
      rw [if_neg hc]
      have hstep : ((curr + 1) % 2 ^ 64 + (k - 1)) % 2 ^ 64 = (curr + k) % 2 ^ 64 := by
        rw [nonce_step, show k - 1 + 1 = k by omega]
      rw [← hstep]
      refine ih _ (k - 1) (by omega) (by omega) ?_ fun k2 hk1 hk2 => ?_
      · rw [hstep]
        exact ht
      · rw [nonce_step]
        exact hleast (k2 + 1) (by omega) (by omega)

/-- The second search loop returns the seed advanced by `j` steps as soon as `j ≥ 1` is the
least number of steps at which the second-stage test passes and the abort signal is not seen
before `j` attempts. -/
theorem searchBlock_complete (o : Oracle) (header : Header) (fuel : Nat) :
    ∀ curr j : Nat, 1 ≤ j → j ≤ fuel →
      SealBlock o header ((curr + j) % 2 ^ 64) < header.DifficultyBeta →
      (∀ j2 : Nat, 1 ≤ j2 → j2 < j →
        ¬ SealBlock o header ((curr + j2) % 2 ^ 64) < header.DifficultyBeta) →
      searchBlock o header fuel curr = some ((curr + j) % 2 ^ 64) := by
  induction fuel with
  | zero =>
    intro curr j h1 h2
    omega
  | succ n ih =>
    intro curr j h1 h2 ht hleast
    unfold searchBlock
    dsimp only
    by_cases hone : j = 1
    · subst hone
      rw [if_pos ht]
    · have hc : ¬ SealBlock o header ((curr + 1) % 2 ^ 64) < header.DifficultyBeta :=
        hleast 1 (le_refl 1) (by omega)
      rw [if_neg hc]
      have hstep : ((curr + 1) % 2 ^ 64 + (j - 1)) % 2 ^ 64 = (curr + j) % 2 ^ 64 := by
        rw [nonce_step, show j - 1 + 1 = j by omega]
      rw [← hstep]
      refine ih _ (j - 1) (by omega) (by omega) ?_ fun j2 hj1 hj2 => ?_
      · rw [hstep]
        exact ht
      · rw [nonce_step]
        exact hleast (j2 + 1) (by omega) (by omega)

/-- A run of `mine` whose two searches succeed and whose lock-in returns values delivers the
block with the five seal fields filled in. -/
theorem mine_of_searches {o : Oracle} {block : Block} {fn sn fuel1 fuel2 : Nat}
    {firstNonce secondNonce : Nat} {beta difficulty : Int}
    (h1 : searchLuck o block.header fuel1 fn = some firstNonce)
    (h2 : calcBeta (calcLuck o block.header firstNonce) block.header.Basis = some beta)
    (h3 : calcDifficulty { block.header with Lucky := calcLuck o block.header firstNonce,
                                             FirstNonce := firstNonce,
                                             DifficultyBeta := beta } = some difficulty)
    (h4 : searchBlock o { block.header with Lucky := calcLuck o block.header firstNonce,
                                            FirstNonce := firstNonce,
                                            DifficultyBeta := beta,
                                            Difficulty := difficulty } fuel2 sn =
      some secondNonce) :
    mine o block fn sn fuel1 fuel2 =
      MineOutcome.delivered { block with header :=
        { block.header with Lucky := calcLuck o block.header firstNonce,
                            FirstNonce := firstNonce,
                            DifficultyBeta := beta,
                            Difficulty := difficulty,
                            SecondNonce := secondNonce } } := by
  unfold mine
  dsimp only
  rw [h1]
  dsimp only
  rw [h2]
  dsimp only
  rw [h3]
  dsimp only
  rw [h4]

/-- C39: the miner's nonce search starts one past the seed and proceeds by `+1` modulo
`2 ^ 64`. When `mine` delivers a header from the seeds `(fn, sn)`, its `FirstNonce` is
`fn + k mod 2 ^ 64` for the least `k ≥ 1` with `SealLuck(header, fn + k) < DifficultyAlpha` and
its `SecondNonce` is `sn + j mod 2 ^ 64` for the least `j ≥ 1` with
`SealBlock(header, sn + j) < DifficultyBeta`. Conversely, when `k ≥ 1` and `j ≥ 1` are the least
such step counts, the lock-in returns values and the abort signal is not seen before `k` and
`j` attempts, `mine` delivers exactly the header with these two nonces. The seed values
themselves are tried only after a full wrap-around: no step count between 1 and `2 ^ 64 - 1`
leads back to the seed, and `2 ^ 64` steps do. -/
theorem mine_nonce_order (o : Oracle) (block : Block) (fn sn fuel1 fuel2 : Nat) :
    (∀ b : Block, mine o block fn sn fuel1 fuel2 = MineOutcome.delivered b →
      (∃ k : Nat, 1 ≤ k ∧ k ≤ fuel1 ∧ b.header.FirstNonce = (fn + k) % 2 ^ 64 ∧
        SealLuck o b.header ((fn + k) % 2 ^ 64) < b.header.DifficultyAlpha ∧
        ∀ k2 : Nat, 1 ≤ k2 → k2 < k →
          ¬ SealLuck o b.header ((fn + k2) % 2 ^ 64) < b.header.DifficultyAlpha) ∧
      (∃ j : Nat, 1 ≤ j ∧ j ≤ fuel2 ∧ b.header.SecondNonce = (sn + j) % 2 ^ 64 ∧
        SealBlock o b.header ((sn + j) % 2 ^ 64) < b.header.DifficultyBeta ∧
        ∀ j2 : Nat, 1 ≤ j2 → j2 < j →
          ¬ SealBlock o b.header ((sn + j2) % 2 ^ 64) < b.header.DifficultyBeta)) ∧
    (∀ (k j : Nat) (beta difficulty : Int),
      1 ≤ k → k ≤ fuel1 →
      SealLuck o block.header ((fn + k) % 2 ^ 64) < block.header.DifficultyAlpha →
      (∀ k2 : Nat, 1 ≤ k2 → k2 < k →
        ¬ SealLuck o block.header ((fn + k2) % 2 ^ 64) < block.header.DifficultyAlpha) →
      calcBeta (calcLuck o block.header ((fn + k) % 2 ^ 64)) block.header.Basis = some beta →
      calcDifficulty { block.header with
          Lucky := calcLuck o block.header ((fn + k) % 2 ^ 64),
          FirstNonce := (fn + k) % 2 ^ 64,
          DifficultyBeta := beta } = some difficulty →
      1 ≤ j → j ≤ fuel2 →
      SealBlock o { block.header with
          Lucky := calcLuck o block.header ((fn + k) % 2 ^ 64),
          FirstNonce := (fn + k) % 2 ^ 64,
          DifficultyBeta := beta,
          Difficulty := difficulty } ((sn + j) % 2 ^ 64) < beta →
      (∀ j2 : Nat, 1 ≤ j2 → j2 < j →
        ¬ SealBlock o { block.header with
            Lucky := calcLuck o block.header ((fn + k) % 2 ^ 64),
            FirstNonce := (fn + k) % 2 ^ 64,
            DifficultyBeta := beta,
            Difficulty := difficulty } ((sn + j2) % 2 ^ 64) < beta) →
      mine o block fn sn fuel1 fuel2 =
        MineOutcome.delivered { block with header :=
          { block.header with
              Lucky := calcLuck o block.header ((fn + k) % 2 ^ 64),
              FirstNonce := (fn + k) % 2 ^ 64,
              DifficultyBeta := beta,
              Difficulty := difficulty,
              SecondNonce := (sn + j) % 2 ^ 64 } }) ∧
    (∀ seed k : Nat, seed < 2 ^ 64 → 1 ≤ k → k < 2 ^ 64 → (seed + k) % 2 ^ 64 ≠ seed) ∧
    (∀ seed : Nat, seed < 2 ^ 64 → (seed + 2 ^ 64) % 2 ^ 64 = seed) := by
  refine ⟨fun b h => ?_, fun k j beta difficulty hk1 hk2 hkt hkl h2 h3 hj1 hj2 hjt hjl => ?_,
    fun seed k hs h1 h2 => ?_, fun seed hs => ?_⟩
  · obtain ⟨firstNonce, secondNonce, beta, difficulty, h1, _, _, h4, rfl⟩ :=
      mine_delivered_shape h
    obtain ⟨k, hk1, hk2, hkr, hkt, hkl⟩ := searchLuck_least o _ _ _ _ h1
    obtain ⟨j, hj1, hj2, hjr, hjt, hjl⟩ := searchBlock_least o _ _ _ _ h4
    refine ⟨⟨k, hk1, hk2, hkr, ?_, hkl⟩, ⟨j, hj1, hj2, hjr, ?_, hjl⟩⟩
    · rw [← hkr]
      exact hkt
    · rw [← hjr]
      exact hjt
  · exact mine_of_searches (searchLuck_complete o _ _ _ _ hk1 hk2 hkt hkl) h2 h3
      (searchBlock_complete o _ _ _ _ hj1 hj2 hjt hjl)
  · norm_num at hs h2 ⊢
    omega
  · norm_num at hs ⊢
    omega

set_option maxRecDepth 100000 in
/-- Witness of C39: under `nonceOracle` the first-stage test passes at nonce 3 only and the
second-stage test at nonce 2 only. From the seeds `2 ^ 64 - 1` and `0` the first search wraps
around and takes four steps (nonces 0, 1, 2, 3), the second takes two, and `mine` delivers
`validChild` sealed with the nonces 3 and 2. -/
theorem mine_nonce_order_witness :
    mine nonceOracle ⟨validChild, []⟩ (2 ^ 64 - 1) 0 6 6 =
      MineOutcome.delivered ⟨{ sealedChild with FirstNonce := 3, SecondNonce := 2 }, []⟩ ∧
    (2 ^ 64 - 1 + 4) % 2 ^ 64 = 3 ∧
    ∃ k : Nat, 1 ≤ k ∧ k ≤ 6 ∧ (3 : Nat) = (2 ^ 64 - 1 + k) % 2 ^ 64 ∧
      SealLuck nonceOracle validChild ((2 ^ 64 - 1 + k) % 2 ^ 64) < validChild.DifficultyAlpha ∧
      ∀ k2 : Nat, 1 ≤ k2 → k2 < k →
        ¬ SealLuck nonceOracle validChild ((2 ^ 64 - 1 + k2) % 2 ^ 64) <
          validChild.DifficultyAlpha :=
  ⟨(mine_nonce_order nonceOracle ⟨validChild, []⟩ (2 ^ 64 - 1) 0 6 6).2.1 4 2 initBasis 0
      (by decide) (by decide) (by decide)
      (fun k2 h1 h2 => by interval_cases k2 <;> decide)
      (by decide) (by decide) (by decide) (by decide) (by decide)
      (fun j2 h1 h2 => by
        interval_cases j2
        decide),
   by decide,
   ((mine_nonce_order nonceOracle ⟨validChild, []⟩ (2 ^ 64 - 1) 0 6 6).1
      ⟨{ sealedChild with FirstNonce := 3, SecondNonce := 2 }, []⟩ (by decide)).1⟩

/-! ## Order of the batch results: claim C19 -/

/-- The loop of the coordinator, entered at an index `out` below which every entry has been
reported, with the results below `out` already sent: it sends the results of the reported
entries that follow in order, and stops at the first entry not yet reported or returns after
the last one. -/
theorem drain_spec (W : Nat → Outcome) (n : Nat) (errors : List Outcome) (checked : List Bool)
    (S : List Nat) (hc : checked.length = n)
    (hS : ∀ j, j < n → (checked[j]? = some true ↔ j ∈ S))
    (he : ∀ j ∈ S, errors[j]? = some (W j)) :
    ∀ (fuel out : Nat) (emitted : List Outcome), out < n → n - out < fuel →
      (∀ j, j < out → j ∈ S) → emitted = (List.range out).map W →
      ∃ (out2 : Nat) (emitted2 : List Outcome) (returned : Bool),
        drain n errors checked fuel out emitted = some (out2, emitted2, returned) ∧
        (returned = false → out2 < n ∧ (∀ j, j < out2 → j ∈ S) ∧ out2 ∉ S ∧
          emitted2 = (List.range out2).map W) ∧
        (returned = true → (∀ j, j < n → j ∈ S) ∧ emitted2 = (List.range n).map W) := by
  intro fuel
  induction fuel with
  | zero =>
    intro out emitted h1 h2
    omega
  | succ f ih =>
    intro out emitted hout hfuel hpre hem
    have hsome := List.getElem?_eq_getElem (l := checked) (show out < checked.length by omega)
    by_cases hmem : out ∈ S
    · have hb := (hS out hout).mpr hmem
      rw [drain, hb]
      dsimp only
      rw [he out hmem]
      dsimp only
      have hem2 : emitted ++ [W out] = (List.range (out + 1)).map W := by
        rw [List.range_succ, List.map_append, hem]
        rfl
      by_cases hlast : out = n - 1
      · rw [if_pos hlast]
        refine ⟨out, _, true, rfl, fun h => (by cases h), fun _ => ⟨fun j hj => ?_, ?_⟩⟩
        · by_cases hj2 : j < out
          · exact hpre j hj2
          · have hjo : j = out := by omega
            rw [hjo]
            exact hmem
        · rw [hem2, show out + 1 = n by omega]
      · rw [if_neg hlast]
        refine ih (out + 1) _ (by omega) (by omega) (fun j hj => ?_) hem2
        by_cases hj2 : j < out
        · exact hpre j hj2
        · have hjo : j = out := by omega
          rw [hjo]
          exact hmem
    · have hb : checked[out]? = some false := by
        rw [hsome]
        cases hv : checked[out] with
        | false => rfl
        | true =>
          rw [hv] at hsome
          exact absurd ((hS out hout).mp hsome) hmem
      rw [drain, hb]
      exact ⟨out, emitted, false, rfl, fun _ => ⟨hout, hpre, hmem, hem⟩, fun h => by cases h⟩

/-- The run of the coordinator over reports of distinct indices in range that have not been
reported before: it does not fault, and at the end either every result has been sent in order
and the coordinator has returned, or the coordinator waits at an index that was never
reported. -/
theorem runReports_spec (p : Params) (o : Oracle) (chain : ChainReader) (now : Nat)
    (headers : List Header) (seals : List Bool) :
    ∀ (rest S : List Nat) (st : Coordinator),
      st.errors.length = headers.length → st.checked.length = headers.length →
      (∀ j, j < headers.length → (st.checked[j]? = some true ↔ j ∈ S)) →
      (∀ j ∈ S, st.errors[j]? = some (verifyHeaderWorker p o chain now headers seals j)) →
      (st.returned = false → st.out < headers.length ∧ (∀ j, j < st.out → j ∈ S) ∧
        st.out ∉ S ∧
        st.emitted = (List.range st.out).map (verifyHeaderWorker p o chain now headers seals)) →
      (st.returned = true → (∀ j, j < headers.length → j ∈ S) ∧
        st.emitted =
          (List.range headers.length).map (verifyHeaderWorker p o chain now headers seals)) →
      (∀ i ∈ rest, i < headers.length) → (∀ i ∈ rest, i ∉ S) → rest.Nodup →
      ∃ st2 : Coordinator, runReports p o chain now headers seals st rest = some st2 ∧
        (st2.returned = false → st2.out < headers.length ∧ st2.out ∉ S ∧ st2.out ∉ rest) ∧
        (st2.returned = true → st2.emitted =
          (List.range headers.length).map (verifyHeaderWorker p o chain now headers seals)) := by
  intro rest
  induction rest with
  | nil =>
    intro S st _ _ _ _ h5 h6 _ _ _
    refine ⟨st, rfl, fun hf => ?_, fun ht => (h6 ht).2⟩
    obtain ⟨a, _, c, _⟩ := h5 hf
    exact ⟨a, c, List.not_mem_nil _⟩
  | cons index rest ih =>
    intro S st h1 h2 h3 h4 h5 h6 hrange hfresh hnodup
    have hi : index < headers.length := hrange index (List.mem_cons_self _ _)
    have hiS : index ∉ S := hfresh index (List.mem_cons_self _ _)
    obtain ⟨hirest, hnodup2⟩ := List.nodup_cons.mp hnodup
    have hret : st.returned = false := by
      cases hr : st.returned with
      | false => rfl
      | true => exact absurd ((h6 hr).1 index hi) hiS
    obtain ⟨hout, hpre, houtS, hem⟩ := h5 hret
    have hS2 : ∀ j, j < headers.length →
        ((st.checked.set index true)[j]? = some true ↔ j ∈ index :: S) := by
      intro j hj
      rw [List.getElem?_set, List.mem_cons]
      by_cases hij : index = j
      · rw [if_pos hij, if_pos (by omega)]
        exact ⟨fun _ => Or.inl hij.symm, fun _ => rfl⟩
      · rw [if_neg hij, h3 j hj]
        exact ⟨fun h => Or.inr h, fun h => h.resolve_left (fun e => hij e.symm)⟩
    have hE2 : ∀ j ∈ index :: S,
        (st.errors.set index (verifyHeaderWorker p o chain now headers seals index))[j]? =
          some (verifyHeaderWorker p o chain now headers seals j) := by
      intro j hj
      rw [List.getElem?_set]
      by_cases hij : index = j
      · rw [if_pos hij, if_pos (by omega), hij]
      · rw [if_neg hij]
        exact h4 j ((List.mem_cons.mp hj).resolve_left (fun e => hij e.symm))
    obtain ⟨out2, emitted2, returned2, hd, hf2, ht2⟩ :=
      drain_spec (verifyHeaderWorker p o chain now headers seals) headers.length
        (st.errors.set index (verifyHeaderWorker p o chain now headers seals index))
        (st.checked.set index true) (index :: S)
        (by rw [List.length_set, h2]) hS2 hE2 (headers.length + 1) st.out st.emitted hout
        (by omega) (fun j hj => List.mem_cons_of_mem _ (hpre j hj)) hem
    have hstep : runReports p o chain now headers seals st (index :: rest) =
        runReports p o chain now headers seals
          { errors := st.errors.set index (verifyHeaderWorker p o chain now headers seals index),
            checked := st.checked.set index true, out := out2, emitted := emitted2,
            returned := returned2 } rest := by
      rw [runReports, if_pos (show index < st.errors.length by omega)]
      dsimp only
      rw [if_neg (show ¬ (st.returned = true) by rw [hret]; decide)]
      unfold onDone
      dsimp only
      rw [if_pos (show index < st.checked.length by omega), hd]
    rw [hstep]
    obtain ⟨st2, hrun, hf3, ht3⟩ := ih (index :: S)
      { errors := st.errors.set index (verifyHeaderWorker p o chain now headers seals index),
        checked := st.checked.set index true, out := out2, emitted := emitted2,
        returned := returned2 }
      (by
        show (st.errors.set index _).length = headers.length
        rw [List.length_set, h1])
      (by
        show (st.checked.set index true).length = headers.length
        rw [List.length_set, h2])
      hS2 hE2 hf2 ht2
      (fun i hmem => hrange i (List.mem_cons_of_mem _ hmem))
      (fun i hmem hin => by
        rcases List.mem_cons.mp hin with rfl | hin2
        · exact hirest hmem
        · exact hfresh i (List.mem_cons_of_mem _ hmem) hin2)
      hnodup2
    refine ⟨st2, hrun, fun hf => ?_, ht3⟩
    obtain ⟨a, b2, c⟩ := hf3 hf
    refine ⟨a, fun hin => b2 (List.mem_cons_of_mem _ hin), fun hin => ?_⟩
    rcases List.mem_cons.mp hin with e | hin2
    · exact b2 (by rw [e]; exact List.mem_cons_self _ _)
    · exact c hin2

/-- C19: for every input slice `headers[0..n)` with its seal flags and no abort,
`VerifyHeaders` emits exactly `n` results on its result channel and the `i`-th result emitted is
the verification result of `headers[i]`, the value of `verifyHeaderWorker` at index `i`,
regardless of the order in which the workers finish: for every order of the reports on the
channel `done` that reports each index once, the list of the values sent is the list of the
worker results in index order; for `n = 0` no result is emitted. -/
theorem VerifyHeaders_in_order (p : Params) (o : Oracle) (chain : ChainReader) (now : Nat)
    (headers : List Header) (seals : List Bool) (order : List Nat)
    (hperm : order.Perm (List.range headers.length)) :
    VerifyHeaders p o chain now headers seals order =
      some ((List.range headers.length).map (verifyHeaderWorker p o chain now headers seals)) ∧
    (∀ results : List Outcome, VerifyHeaders p o chain now headers seals order = some results →
      results.length = headers.length ∧
      ∀ i, i < headers.length →
        results[i]? = some (verifyHeaderWorker p o chain now headers seals i)) ∧
    (headers = [] → VerifyHeaders p o chain now headers seals order = some []) := by
  have hmain : VerifyHeaders p o chain now headers seals order =
      some ((List.range headers.length).map
        (verifyHeaderWorker p o chain now headers seals)) := by
    unfold VerifyHeaders
    by_cases hn : headers.length = 0
    · rw [if_pos hn, hn]
      rfl
    · rw [if_neg hn]
      dsimp only
      obtain ⟨st2, hrun, hf, ht⟩ := runReports_spec p o chain now headers seals order []
        { errors := List.replicate headers.length Outcome.ok,
          checked := List.replicate headers.length false,
          out := 0, emitted := [], returned := false }
        (List.length_replicate _ _) (List.length_replicate _ _)
        (fun j hj => by
          show (List.replicate headers.length false)[j]? = some true ↔ j ∈ []
          rw [List.getElem?_replicate, if_pos hj]
          exact ⟨fun h => (by cases h), fun h => (by cases h)⟩)
        (fun j hj => (by cases hj))
        (fun _ => ⟨show 0 < headers.length by omega,
          fun j hj => (Nat.not_lt_zero j hj).elim, List.not_mem_nil _, rfl⟩)
        (fun h => (by cases h))
        (fun i hi => List.mem_range.mp (hperm.mem_iff.mp hi))
        (fun i _ => List.not_mem_nil _)
        (hperm.nodup_iff.mpr (List.nodup_range _))
      rw [hrun]
      cases hr : st2.returned with
      | false =>
        obtain ⟨a, _, c⟩ := hf hr
        exact absurd (hperm.mem_iff.mpr (List.mem_range.mpr a)) c
      | true =>
        show some st2.emitted = _
        rw [ht hr]
  refine ⟨hmain, fun results hres => ?_, fun hnil => ?_⟩
  · rw [hmain] at hres
    cases hres
    refine ⟨by rw [List.length_map, List.length_range], fun i hi => ?_⟩
    rw [List.getElem?_map, List.getElem?_range hi]
    rfl
  · rw [hmain, hnil]
    rfl

set_option maxRecDepth 100000 in
/-- Witness of C19: three headers on `sampleChain` whose results differ (`validChild` is
accepted, `nephewHeader` breaks the gas bound, `staleChild` does not name its predecessor as
parent), reported in the order 2, 0, 1: the three results are emitted in index order. -/
theorem VerifyHeaders_in_order_witness :
    VerifyHeaders sampleParams zeroOracle sampleChain 2000
      [validChild, nephewHeader, staleChild] [false, true, false] [2, 0, 1] =
      some [Outcome.ok, Outcome.err Err.InvalidGasBound, Outcome.err Err.UnknownAncestor] ∧
    (List.range 3).map (verifyHeaderWorker sampleParams zeroOracle sampleChain 2000
      [validChild, nephewHeader, staleChild] [false, true, false]) =
      [Outcome.ok, Outcome.err Err.InvalidGasBound, Outcome.err Err.UnknownAncestor] :=
  ⟨(VerifyHeaders_in_order sampleParams zeroOracle sampleChain 2000
      [validChild, nephewHeader, staleChild] [false, true, false] [2, 0, 1] (by decide)).1.trans
      (congrArg some (by decide)),
   by decide⟩

end Tppow
